import Mathlib

/-!
# Klondike: a shallow embedding of `src/main.cpp` and `src/wrapper.cpp`

The game state of `play_game` is a record `Game`; one iteration of the main
loop is the function `frame`.  Conventions of the embedding:

* `int` and `size_t` values are `Int` / `Nat` (no value of the game loop gets
  near the machine bounds); the constructor and the `draw` of `CardStack`
  compute in `size_t` below zero, which is written out with `% size_t_mod`;
* a `std::vector` is a `List` whose last element is `back()`;
* a `std::stack` is a `List` whose head is `top()`;
* the arrays `tableau[7]` and `foundations[4]` are lists, read with `getD`
  and written with `set` (every index of the source is in bounds by the
  range of its loop or switch);
* reading `back()` / `top()` / `[0]` of an empty container, or popping one,
  is undefined behaviour: the embedded function returns `none`.
-/

namespace Klondike

/-! ## Data model -/

/-- A card suit (`enum Suit`). -/
inductive Suit where
  | CLUBS
  | DIAMONDS
  | HEARTS
  | SPADES
deriving DecidableEq, Repr

/-- The type of card being dragged, if any (`enum DragType`). -/
inductive DragType where
  | NONE
  | TOP_CARD
  | FOUNDATION_1 | FOUNDATION_2 | FOUNDATION_3 | FOUNDATION_4
  | TABLEAU_1 | TABLEAU_2 | TABLEAU_3 | TABLEAU_4 | TABLEAU_5 | TABLEAU_6
  | TABLEAU_7
deriving DecidableEq, Repr

/-- A playing card; `index` counts from 0 (Ace) to 12 (King). -/
structure Card where
  index : Int
  suit : Suit
deriving DecidableEq, Repr

/-- A dealt playing card. -/
structure DealtCard where
  card : Card
  face_up : Bool
deriving DecidableEq, Repr

/-- A box used to check collisions (`wrapper::BBox`). -/
structure BBox where
  x1 : Int
  y1 : Int
  x2 : Int
  y2 : Int
deriving DecidableEq, Repr

/-- Checks if another BBox overlaps this one (`BBox::collision(const BBox &)`). -/
def BBox.collision (b other : BBox) : Bool :=
  decide (other.x1 ≤ b.x2) && decide (other.x2 ≥ b.x1)
    && decide (other.y1 ≤ b.y2) && decide (other.y2 ≥ b.y1)

/-- Checks if a point is inside the BBox (`BBox::collision(int, int)`). -/
def BBox.collision_point (b : BBox) (point_x point_y : Int) : Bool :=
  decide (point_x ≥ b.x1) && decide (point_y ≥ b.y1)
    && decide (point_x ≤ b.x2) && decide (point_y ≤ b.y2)

/-- A stack of dealt cards; the last card of the list is the top. -/
structure CardStack where
  cards : List DealtCard
deriving DecidableEq, Repr

/-- The loop of `get_top_card_bbox`: `i` is the loop index, `size` is
`cards.size()`, the list holds `cards[i..]`; every card but the last shifts
the box down by 15 when face-up and by 3 when face-down. -/
def top_card_bbox_loop (size : Nat) : List DealtCard → Nat → BBox → BBox
  | [], _, bbox => bbox
  | c :: rest, i, bbox =>
    top_card_bbox_loop size rest (i + 1)
      (if i ≠ size - 1 then
        (if c.face_up then { bbox with y1 := bbox.y1 + 15, y2 := bbox.y2 + 15 }
         else { bbox with y1 := bbox.y1 + 3, y2 := bbox.y2 + 3 })
       else bbox)

/-- Bounding box of the top card of the stack (`CardStack::get_top_card_bbox`).
An empty stack behaves as if it had one card. -/
def CardStack.get_top_card_bbox (s : CardStack) (start_x start_y : Int) : BBox :=
  let bbox : BBox :=
    { x1 := start_x, y1 := start_y, x2 := start_x + 70, y2 := start_y + 95 }
  if s.cards.isEmpty then bbox
  else top_card_bbox_loop s.cards.length s.cards 0 bbox

/-- One of the four foundations.  `Foundation()` value-initialises the
object, so `suit` starts as the enumerator 0, `CLUBS`. -/
structure Foundation where
  next : Int
  suit : Suit
deriving DecidableEq, Repr

/-- Adds a card to the Foundation if it is the correct next card
(`Foundation::add`); returns the foundation afterwards and whether the move
was correct. -/
def Foundation.add (f : Foundation) (card : Card) : Foundation × Bool :=
  if (f.next = 0 ∨ card.suit = f.suit) ∧ card.index = f.next then
    ({ next := f.next + 1, suit := if f.next = 0 then card.suit else f.suit },
      true)
  else
    (f, false)

/-- Loop state of `closest_index`: `closest`, `closest_distance`,
`checked_any`. -/
structure Closest where
  closest : Nat
  closest_distance : Int
  checked_any : Bool
deriving DecidableEq, Repr

/-- One iteration of the loop of `closest_index`. -/
def closest_step (x : Int) (get_distance : Int → Nat → Int) (st : Closest)
    (i : Nat) : Closest :=
  let distance := get_distance x i
  if !st.checked_any || decide (distance < st.closest_distance) then
    { closest := i, closest_distance := distance, checked_any := true }
  else st

/-- Finds the index closest to a given X position (`closest_index`). -/
def closest_index (x : Int) (indexes : List Nat)
    (get_distance : Int → Nat → Int) : Nat :=
  (indexes.foldl (closest_step x get_distance)
    { closest := 0, closest_distance := 0, checked_any := false }).closest

/-! ## Input state of the wrapper -/

/-- The mouse globals of `wrapper.cpp`: `mouse_x`, `mouse_y`, `lmb_state`,
`lmb_state_last`. -/
structure Wrapper where
  mouse_x : Int
  mouse_y : Int
  lmb_state : Bool
  lmb_state_last : Bool
deriving DecidableEq, Repr

/-- Returns whether the left mouse button is down (`wrapper::mouse_down`). -/
def Wrapper.mouse_down (w : Wrapper) : Bool := w.lmb_state

/-- Returns whether the left mouse button was clicked this frame
(`wrapper::mouse_clicked`). -/
def Wrapper.mouse_clicked (w : Wrapper) : Bool := w.lmb_state && !w.lmb_state_last

/-- The mouse part of `wrapper::update`: the old button state is kept in
`lmb_state_last` and a new sample `(x, y, lmb)` of `SDL_GetMouseState` is
stored. -/
def Wrapper.update (w : Wrapper) (x y : Int) (lmb : Bool) : Wrapper :=
  { mouse_x := x, mouse_y := y, lmb_state := lmb, lmb_state_last := w.lmb_state }

/-- The mouse globals when `play_game` starts: `initialize` has sampled the
mouse once and `lmb_state_last` still has its initial value `false`. -/
def Wrapper.initial (x y : Int) (lmb : Bool) : Wrapper :=
  { mouse_x := x, mouse_y := y, lmb_state := lmb, lmb_state_last := false }

/-! ## Game state -/

/-- The local variables of `play_game` that live across frames. -/
structure Game where
  /-- The stock, a `std::stack`: head of the list is `top()`. -/
  stock : List Card
  /-- Cards taken from the stock, a `std::vector`. -/
  taken : List Card
  /-- History of cards taken from the stock, a `std::stack`: head is `top()`. -/
  stock_history : List Card
  tableau : List CardStack
  foundations : List Foundation
  stock_bbox : BBox
  top_card_bbox : BBox
  drag_type : DragType
  dragged_cards : List DealtCard
  drag_offset_x : Int
  drag_offset_y : Int
  won : Bool
deriving DecidableEq, Repr

/-- The column `tableau[i]`. -/
def Game.stack (g : Game) (i : Nat) : CardStack := g.tableau.getD i { cards := [] }

/-- The foundation `foundations[i]`. -/
def Game.foundation (g : Game) (i : Nat) : Foundation :=
  g.foundations.getD i { next := 0, suit := Suit.CLUBS }

/-! ## Deck construction and deal -/

/-- The `switch (suit_index)` of the deck construction. -/
def suit_of_index (suit_index : Nat) : Suit :=
  match suit_index with
  | 0 => Suit.CLUBS
  | 1 => Suit.DIAMONDS
  | 2 => Suit.HEARTS
  | _ => Suit.SPADES

/-- The deck before shuffling: for each suit index 0..3, the card indexes
0..12 are pushed back in order. -/
def build_deck : List Card :=
  (List.range 4).foldl
    (fun (deck_vector : List Card) (suit_index : Nat) =>
      (List.range 13).foldl
        (fun (deck : List Card) (card_index : Nat) =>
          deck ++ [{ index := (card_index : Int), suit := suit_of_index suit_index }])
        deck_vector)
    []

/-- The inner loop of the deal, `for (card = 1; card <= i + 1; ++card)`:
pushes `stock.top()` onto the column (face-up only when `card == i + 1`) and
pops the stock.  `none` when the stock runs out. -/
def deal_loop (i : Nat) : List Card → Nat → List DealtCard →
    Option (List Card × List DealtCard)
  | [], card, cards => if card ≤ i + 1 then none else some ([], cards)
  | top :: rest, card, cards =>
    if card ≤ i + 1 then
      deal_loop i rest (card + 1)
        (cards ++ [{ card := top, face_up := decide (card = i + 1) }])
    else some (top :: rest, cards)

/-- One iteration of the outer loop of the deal. -/
def deal_step (st : List Card × List CardStack) (i : Nat) :
    Option (List Card × List CardStack) :=
  match deal_loop i st.1 1 (st.2.getD i { cards := [] }).cards with
  | none => none
  | some (stock, cards) => some (stock, st.2.set i { cards := cards })

/-- The deal: `for (i = 0; i < 7; ++i)` over seven empty columns. -/
def deal (stock : List Card) : Option (List Card × List CardStack) :=
  (List.range 7).foldlM deal_step (stock, List.replicate 7 { cards := [] })

/-- The state of `play_game` when the main loop is entered, for the shuffled
`deck_vector`.  `stock(deck_vector)` makes the back of the vector the top of
the stock.  The fields `x1`, `y1` of `stock_bbox` and all of `top_card_bbox`
are not initialised by the source: their starting values are the arbitrary
`stock_x1`, `stock_y1` and `top_card_bbox`. -/
def new_game (deck_vector : List Card) (stock_x1 stock_y1 : Int)
    (top_card_bbox : BBox) : Option Game :=
  match deal deck_vector.reverse with
  | none => none
  | some (stock, tableau) =>
    some
      { stock := stock
        taken := []
        stock_history := []
        tableau := tableau
        foundations := List.replicate 4 { next := 0, suit := Suit.CLUBS }
        stock_bbox := { x1 := stock_x1, y1 := stock_y1, x2 := 85, y2 := 110 }
        top_card_bbox := top_card_bbox
        drag_type := DragType.NONE
        dragged_cards := []
        drag_offset_x := 0
        drag_offset_y := 0
        won := false }

/-! ## Pointer-down: stock click -/

/-- The loop `while (!stock_history.empty())` of the stock reset: the top of
the history is pushed onto the stock and popped. -/
def reset_stock : List Card → List Card → List Card × List Card
  | stock, [] => (stock, [])
  | stock, top :: stock_history => reset_stock (top :: stock) stock_history

/-- Loop state of the take loop: the counter `i` and the three containers. -/
structure Take where
  i : Nat
  stock : List Card
  taken : List Card
  stock_history : List Card
deriving DecidableEq, Repr

/-- The loop `for (i = 0; i < 3 && !stock.empty(); ++i)` of the stock click,
entered with counter `i`. -/
def take_loop : List Card → Nat → List Card → List Card → Take
  | [], i, taken, stock_history =>
    { i := i, stock := [], taken := taken, stock_history := stock_history }
  | top :: rest, i, taken, stock_history =>
    if i < 3 then take_loop rest (i + 1) (taken ++ [top]) (top :: stock_history)
    else { i := i, stock := top :: rest, taken := taken, stock_history := stock_history }

/-- The body of `if (stock_bbox.collision(mouse_x, mouse_y))`: one click on
the stock. -/
def stock_click (g : Game) : Game :=
  let taken :=
    if !(g.stock.isEmpty && g.stock_history.isEmpty) then [] else g.taken
  if g.stock.isEmpty then
    let r := reset_stock g.stock g.stock_history
    { g with taken := taken, stock := r.1, stock_history := r.2 }
  else
    let t := take_loop g.stock 0 taken g.stock_history
    { g with
      taken := t.taken, stock := t.stock, stock_history := t.stock_history
      top_card_bbox :=
        { x1 := 101 + 15 * ((t.i : Int) - 1)
          y1 := 15 + 2 * ((t.i : Int) - 1)
          x2 := 101 + 15 * ((t.i : Int) - 1) + 70
          y2 := 15 + 2 * ((t.i : Int) - 1) + 95 } }

/-! ## Pointer-down: pickups -/

/-- The block `if (!taken.empty() && top_card_bbox.collision(...))`:
dragging the top card of the waste. -/
def waste_pickup (mouse_x mouse_y : Int) (g : Game) : Game :=
  match g.taken.getLast? with
  | none => g
  | some back =>
    if g.top_card_bbox.collision_point mouse_x mouse_y then
      { g with
        drag_type := DragType.TOP_CARD
        dragged_cards := [{ card := back, face_up := true }]
        drag_offset_x := mouse_x - g.top_card_bbox.x1
        drag_offset_y := mouse_y - g.top_card_bbox.y1 }
    else g

/-- The box `foundation_bboxes[i]`. -/
def foundation_bboxes (i : Nat) : BBox :=
  { x1 := 273 + 86 * (i : Int), y1 := 15, x2 := 273 + 86 * (i : Int) + 70, y2 := 110 }

/-- The `switch (i)` that sets the drag type of a foundation pickup. -/
def foundation_drag_type (i : Nat) (old : DragType) : DragType :=
  match i with
  | 0 => DragType.FOUNDATION_1
  | 1 => DragType.FOUNDATION_2
  | 2 => DragType.FOUNDATION_3
  | 3 => DragType.FOUNDATION_4
  | _ => old

/-- One iteration of the loop "dragging cards from a foundation". -/
def foundation_pickup (mouse_x mouse_y : Int) (g : Game) (i : Nat) : Game :=
  if (foundation_bboxes i).collision_point mouse_x mouse_y
      && decide ((g.foundation i).next ≠ 0) then
    { g with
      drag_type := foundation_drag_type i g.drag_type
      dragged_cards :=
        [{ card := { index := (g.foundation i).next - 1, suit := (g.foundation i).suit }
           face_up := true }]
      drag_offset_x := mouse_x - (foundation_bboxes i).x1
      drag_offset_y := mouse_y - (foundation_bboxes i).y1 }
  else g

/-- Loop state of the scan over the cards of a column. -/
structure Scan where
  first_face_up : Nat
  first_face_up_found : Bool
  clicked_card : Nat
  clicked_card_found : Bool
  /-- The field `bbox.y1`; `x1`, `x2` are constant and `y2` is assigned in
  every iteration before it is read. -/
  y1 : Int
deriving DecidableEq, Repr

/-- The body of the loop `for (j = 0; j < tableau[i].cards.size(); ++j)` of
the tableau pickup, for the card `c = tableau[i].cards[j]`; `size` is
`cards.size()`. -/
def tableau_scan_step (i : Nat) (mouse_x mouse_y : Int) (size : Nat)
    (c : DealtCard) (j : Nat) (st : Scan) : Scan :=
  let first :=
    if !st.first_face_up_found && c.face_up then (j, true)
    else (st.first_face_up, st.first_face_up_found)
  let y2 :=
    if j = size - 1 then st.y1 + 95
    else if c.face_up then st.y1 + 14
    else st.y1 + 2
  let bbox : BBox :=
    { x1 := 15 + 86 * (i : Int), y1 := st.y1, x2 := 85 + 86 * (i : Int), y2 := y2 }
  let clicked :=
    if !st.clicked_card_found && first.2 && bbox.collision_point mouse_x mouse_y
    then (j, true)
    else (st.clicked_card, st.clicked_card_found)
  { first_face_up := first.1, first_face_up_found := first.2
    clicked_card := clicked.1, clicked_card_found := clicked.2
    y1 := if c.face_up then st.y1 + 15 else st.y1 + 3 }

/-- The loop `for (j = 0; j < tableau[i].cards.size(); ++j)` of the tableau
pickup, entered at index `j` with the cards `cards[j..]`. -/
def tableau_scan (i : Nat) (mouse_x mouse_y : Int) (size : Nat) :
    List DealtCard → Nat → Scan → Scan
  | [], _, st => st
  | c :: rest, j, st =>
    tableau_scan i mouse_x mouse_y size rest (j + 1)
      (tableau_scan_step i mouse_x mouse_y size c j st)

/-- The `switch (i)` that sets the drag type of a tableau pickup. -/
def tableau_drag_type (i : Nat) (old : DragType) : DragType :=
  match i with
  | 0 => DragType.TABLEAU_1
  | 1 => DragType.TABLEAU_2
  | 2 => DragType.TABLEAU_3
  | 3 => DragType.TABLEAU_4
  | 4 => DragType.TABLEAU_5
  | 5 => DragType.TABLEAU_6
  | 6 => DragType.TABLEAU_7
  | _ => old

/-- The `else` branch of a tableau interaction: dragging cards from column
`i`.  The dragged cards are pushed back onto `dragged_cards`. -/
def tableau_pickup (mouse_x mouse_y : Int) (g : Game) (i : Nat) : Game :=
  let cards := (g.stack i).cards
  let st := tableau_scan i mouse_x mouse_y cards.length cards 0
    { first_face_up := 0, first_face_up_found := false
      clicked_card := 0, clicked_card_found := false, y1 := 126 }
  if st.clicked_card_found then
    { g with
      drag_type := tableau_drag_type i g.drag_type
      dragged_cards := g.dragged_cards ++ cards.drop st.clicked_card
      drag_offset_x := mouse_x - 15 - 86 * (i : Int)
      drag_offset_y :=
        mouse_y - 126 - 3 * (st.first_face_up : Int)
          - 15 * ((st.clicked_card : Int) - (st.first_face_up : Int)) }
  else g

/-- The statement `tableau[i].cards.back().face_up = true`. -/
def flip_top (cards : List DealtCard) (back : DealtCard) : List DealtCard :=
  cards.dropLast ++ [{ back with face_up := true }]

/-- One iteration of the loop "tableau interactions".  When the box of the
top card is hit, `cards.back()` is read: `none` for an empty column. -/
def tableau_interaction (mouse_x mouse_y : Int) (g : Game) (i : Nat) :
    Option Game :=
  if ((g.stack i).get_top_card_bbox (15 + 86 * (i : Int)) 126).collision_point
      mouse_x mouse_y then
    match (g.stack i).cards.getLast? with
    | none => none
    | some back =>
      if !back.face_up then
        some { g with
          tableau := g.tableau.set i { cards := flip_top (g.stack i).cards back } }
      else some (tableau_pickup mouse_x mouse_y g i)
  else some (tableau_pickup mouse_x mouse_y g i)

/-- The body of `if (wrapper::mouse_clicked())`. -/
def click (g : Game) (mouse_x mouse_y : Int) : Option Game :=
  let g1 := if g.stock_bbox.collision_point mouse_x mouse_y then stock_click g else g
  let g2 := waste_pickup mouse_x mouse_y g1
  let g3 := (List.range 4).foldl (foundation_pickup mouse_x mouse_y) g2
  (List.range 7).foldlM (tableau_interaction mouse_x mouse_y) g3

/-! ## Pointer-up: release -/

/-- The box `dragged_cards_bbox` built at the start of the release. -/
def dragged_cards_bbox (g : Game) (mouse_x mouse_y : Int) : BBox :=
  { x1 := mouse_x - g.drag_offset_x
    y1 := mouse_y - g.drag_offset_y
    x2 := mouse_x - g.drag_offset_x + 70
    y2 := mouse_y - g.drag_offset_y + 15 * (g.dragged_cards.length : Int) + 80 }

/-- The vector `colliding_foundations`. -/
def colliding_foundations (g : Game) (mouse_x mouse_y : Int) : List Nat :=
  (List.range 4).filter
    (fun i => (dragged_cards_bbox g mouse_x mouse_y).collision (foundation_bboxes i))

/-- The distance lambda of the foundation drop. -/
def foundation_distance (x : Int) (i : Nat) : Int :=
  ((x - (308 + 86 * (i : Int))).natAbs : Int)

/-- The block "dragging onto foundations"; the second component is `valid`. -/
def drop_on_foundations (g : Game) (mouse_x mouse_y : Int) : Game × Bool :=
  match g.dragged_cards with
  | [d] =>
    let colliding := colliding_foundations g mouse_x mouse_y
    if !colliding.isEmpty then
      let closest :=
        closest_index (mouse_x - g.drag_offset_x + 35) colliding foundation_distance
      let r := (g.foundation closest).add d.card
      ({ g with foundations := g.foundations.set closest r.1 }, r.2)
    else (g, false)
  | _ => (g, false)

/-- The vector `colliding_stacks`. -/
def colliding_stacks (g : Game) (mouse_x mouse_y : Int) : List Nat :=
  (List.range 7).filter
    (fun i => (dragged_cards_bbox g mouse_x mouse_y).collision
      ((g.stack i).get_top_card_bbox (15 + 86 * (i : Int)) 126))

/-- The distance lambda of the tableau drop. -/
def stack_distance (x : Int) (i : Nat) : Int :=
  ((x - (50 + 86 * (i : Int))).natAbs : Int)

/-- The condition of the `if` of the tableau drop, for the card `back` read
by `tableau[closest].cards.back()`, the value `empty` of
`tableau[closest].cards.empty()` and the card `d` read by `dragged_cards[0]`. -/
def tableau_condition (back : DealtCard) (empty : Bool) (d : DealtCard) : Bool :=
  let tableau_suit := back.card.suit
  let dragged_suit := d.card.suit
  back.face_up && (
    (empty && decide (d.card.index = 12))
    || (
      decide (d.card.index + 1 = back.card.index) && (
        (
          (decide (dragged_suit = Suit.DIAMONDS) || decide (dragged_suit = Suit.HEARTS))
          && (decide (tableau_suit = Suit.CLUBS) || decide (tableau_suit = Suit.SPADES))
        ) || (
          (decide (dragged_suit = Suit.CLUBS) || decide (dragged_suit = Suit.SPADES))
          && (decide (tableau_suit = Suit.DIAMONDS) || decide (tableau_suit = Suit.HEARTS))
        )
      )
    )
  )

/-- The block "dragging onto tableau" (entered with `valid == false`); the
second component is `valid`.  `none` when `cards.back()` is read on an empty
column or `dragged_cards[0]` on an empty vector. -/
def drop_on_tableau (g : Game) (mouse_x mouse_y : Int) : Option (Game × Bool) :=
  let colliding := colliding_stacks g mouse_x mouse_y
  if !colliding.isEmpty then
    let closest :=
      closest_index (mouse_x - g.drag_offset_x + 35) colliding stack_distance
    match (g.stack closest).cards.getLast?, g.dragged_cards.head? with
    | some back, some d =>
      if tableau_condition back (g.stack closest).cards.isEmpty d then
        some
          ({ g with
             tableau := g.tableau.set closest
               { cards := (g.stack closest).cards
                   ++ g.dragged_cards.map (fun c => { card := c.card, face_up := true }) } },
            true)
      else some (g, false)
    | _, _ => none
  else some (g, false)

/-- The two drop attempts of the release; the second component is the value
of `valid` when the line `if (valid)` is reached. -/
def drop (g : Game) (mouse_x mouse_y : Int) : Option (Game × Bool) :=
  let r := drop_on_foundations g mouse_x mouse_y
  if !r.2 then drop_on_tableau r.1 mouse_x mouse_y else some r

/-- The value of `origin_foundation` after the `switch (drag_type)`. -/
def origin_foundation : DragType → Nat
  | DragType.FOUNDATION_1 => 0
  | DragType.FOUNDATION_2 => 1
  | DragType.FOUNDATION_3 => 2
  | DragType.FOUNDATION_4 => 3
  | _ => 4

/-- The value of `origin_stack` after the `switch (drag_type)`. -/
def origin_stack : DragType → Nat
  | DragType.TABLEAU_1 => 0
  | DragType.TABLEAU_2 => 1
  | DragType.TABLEAU_3 => 2
  | DragType.TABLEAU_4 => 3
  | DragType.TABLEAU_5 => 4
  | DragType.TABLEAU_6 => 5
  | DragType.TABLEAU_7 => 6
  | _ => 7

/-- Calls `pop_back()` `n` times; `none` when the vector runs out. -/
def pop_back_n : Nat → List DealtCard → Option (List DealtCard)
  | 0, cards => some cards
  | n + 1, cards => if cards.isEmpty then none else pop_back_n n cards.dropLast

/-- The `case TOP_CARD` of the switch: `taken.pop_back(); stock_history.pop()`. -/
def remove_top_card (g : Game) : Option Game :=
  match g.taken, g.stock_history with
  | _ :: _, _ :: stock_history =>
    some { g with taken := g.taken.dropLast, stock_history := stock_history }
  | _, _ => none

/-- The body of `if (valid)`: remove the dragged cards from their origin. -/
def remove_origin (g : Game) : Option Game :=
  match (if g.drag_type = DragType.TOP_CARD then remove_top_card g else some g) with
  | none => none
  | some g1 =>
    let g2 :=
      if origin_foundation g.drag_type ≠ 4 then
        { g1 with
          foundations := g1.foundations.set (origin_foundation g.drag_type)
            { g1.foundation (origin_foundation g.drag_type) with
              next := (g1.foundation (origin_foundation g.drag_type)).next - 1 } }
      else g1
    if origin_stack g.drag_type ≠ 7 then
      match pop_back_n g.dragged_cards.length (g2.stack (origin_stack g.drag_type)).cards with
      | none => none
      | some cards =>
        some { g2 with tableau := g2.tableau.set (origin_stack g.drag_type) { cards := cards } }
    else some g2

/-- The body of `if (drag_type != NONE && !wrapper::mouse_down())`. -/
def release (g : Game) (mouse_x mouse_y : Int) : Option Game :=
  match drop g mouse_x mouse_y with
  | none => none
  | some (g1, valid) =>
    match (if valid then remove_origin g1 else some g1) with
    | none => none
    | some g2 => some { g2 with drag_type := DragType.NONE, dragged_cards := [] }

/-! ## Drawing, win check and the frame -/

/-- The only state change of the drawing code: the stock's bounding box is
updated when the stock is not empty. -/
def draw (g : Game) : Game :=
  if g.stock.isEmpty then g
  else
    { g with
      stock_bbox :=
        { g.stock_bbox with
          x1 := 15 - 2 * ((g.stock.length / 10 : Nat) : Int)
          y1 := 15 - 2 * ((g.stock.length / 10 : Nat) : Int) } }

/-- The value of `just_won` after the loop over the foundations. -/
def just_won : List Foundation → Bool
  | [] => true
  | foundation :: rest => if foundation.next ≠ 13 then false else just_won rest

/-- One iteration of the main loop, with the mouse state `w`. -/
def frame (g : Game) (w : Wrapper) : Option Game :=
  match (if w.mouse_clicked then click g w.mouse_x w.mouse_y else some g) with
  | none => none
  | some g1 =>
    match (if g1.drag_type ≠ DragType.NONE ∧ w.mouse_down = false
           then release g1 w.mouse_x w.mouse_y else some g1) with
    | none => none
    | some g2 =>
      some (if just_won (draw g2).foundations then { draw g2 with won := true }
            else draw g2)

/-- The states of the game at the head of the main loop, with the mouse state
seen by that iteration, together with the state in which the loop was left
after a win.  The deck is any permutation of `build_deck`. -/
inductive Reachable : Game → Wrapper → Prop
  | start (deck_vector : List Card) (stock_x1 stock_y1 : Int)
      (top_card_bbox : BBox) (g : Game) (x y : Int) (lmb : Bool) :
      deck_vector.Perm build_deck →
      new_game deck_vector stock_x1 stock_y1 top_card_bbox = some g →
      Reachable g (Wrapper.initial x y lmb)
  | step (g g1 : Game) (w : Wrapper) (x y : Int) (lmb : Bool) :
      Reachable g w → g.won = false → frame g w = some g1 →
      Reachable g1 (w.update x y lmb)

/-! ## Definitions used to state the properties -/

/-- The colour of a suit: Diamonds and Hearts are red, Clubs and Spades are
black. -/
def Suit.is_red : Suit → Bool
  | Suit.DIAMONDS => true
  | Suit.HEARTS => true
  | _ => false

/-- The acceptance condition of a foundation as the specification words it:
the foundation is empty (any suit), or the suit matches and the index is the
next one. -/
def add_condition_as_specified (f : Foundation) (card : Card) : Prop :=
  f.next = 0 ∨ (card.suit = f.suit ∧ card.index = f.next)

/-- Column `i` as dealt from a stock whose head is the top: the `i` cards
after the first `i * (i + 1) / 2` face-down, then the next card face-up. -/
def dealt_column (stock : List Card) (i : Nat) : CardStack :=
  { cards := ((stock.drop (i * (i + 1) / 2)).take i).map
        (fun c => { card := c, face_up := false })
      ++ ((stock.drop (i * (i + 1) / 2 + i)).take 1).map
        (fun c => { card := c, face_up := true }) }

/-- The cards a foundation stands for: indexes `0 .. next - 1` of its suit. -/
def Foundation.cards (f : Foundation) : List Card :=
  (List.range f.next.toNat).map
    (fun (k : Nat) => { index := (k : Int), suit := f.suit })

/-- The multiset of the cards in the stock, the history, the tableau and the
foundations. -/
def Game.cards (g : Game) : Multiset Card :=
  (g.stock : Multiset Card) + (g.stock_history : Multiset Card)
    + (g.tableau.map
        (fun cs => ((cs.cards.map DealtCard.card : List Card) : Multiset Card))).sum
    + (g.foundations.map (fun f => ((f.cards : List Card) : Multiset Card))).sum

/-- The number of cards counted over the stock, the history, the seven
columns and the values `next` of the four foundations. -/
def Game.card_count (g : Game) : Int :=
  (g.stock.length : Int) + (g.stock_history.length : Int)
    + (g.tableau.map (fun cs => (cs.cards.length : Int))).sum
    + (g.foundations.map Foundation.next).sum

/-- The dragged cards agree with the origin named by `drag_type`. -/
structure DragOK (g : Game) : Prop where
  none : g.drag_type = DragType.NONE → g.dragged_cards = []
  top_card : g.drag_type = DragType.TOP_CARD →
    ∃ c, g.taken.getLast? = some c ∧ g.dragged_cards = [{ card := c, face_up := true }]
  foundation : origin_foundation g.drag_type ≠ 4 →
    (g.foundation (origin_foundation g.drag_type)).next ≠ 0
      ∧ g.dragged_cards =
        [{ card := { index := (g.foundation (origin_foundation g.drag_type)).next - 1
                     suit := (g.foundation (origin_foundation g.drag_type)).suit }
           face_up := true }]
  stack : origin_stack g.drag_type ≠ 7 →
    g.dragged_cards ≠ []
      ∧ g.dragged_cards <:+ (g.stack (origin_stack g.drag_type)).cards

/-- The invariant of the piles. -/
structure PilesOK (g : Game) : Prop where
  tableau_length : g.tableau.length = 7
  foundations_length : g.foundations.length = 4
  cards : g.cards = (build_deck : Multiset Card)
  next_nonneg : ∀ f ∈ g.foundations, 0 ≤ f.next
  waste : g.taken.reverse <+: g.stock_history
  top_card_bbox : g.taken ≠ [] → g.top_card_bbox.y2 < 126

/-- The invariant of the main loop, at the head of an iteration that sees the
mouse state `w`. -/
structure Invariant (g : Game) (w : Wrapper) : Prop where
  piles : PilesOK g
  drag : DragOK g
  button : g.drag_type ≠ DragType.NONE → w.lmb_state_last = true

/-- The invariant inside the handling of a click at `(mx, my)`, when the
first `n` columns of the tableau have been handled. -/
structure ClickOK (mx my : Int) (n : Nat) (g : Game) : Prop where
  piles : PilesOK g
  drag : DragOK g
  region : g.dragged_cards ≠ [] → my < 126 ∨ mx < 15 + 86 * (n : Int)
  origin : origin_stack g.drag_type ≠ 7 → origin_stack g.drag_type < n

/-- The state `g1` between an accepted drop and the removal from the origin,
relative to the state `g` in which the release started. -/
structure MidOK (g g1 : Game) : Prop where
  stock : g1.stock = g.stock
  taken : g1.taken = g.taken
  stock_history : g1.stock_history = g.stock_history
  top_card_bbox : g1.top_card_bbox = g.top_card_bbox
  drag_type : g1.drag_type = g.drag_type
  dragged_cards : g1.dragged_cards = g.dragged_cards
  tableau_length : g1.tableau.length = 7
  foundations_length : g1.foundations.length = 4
  next_nonneg : ∀ f ∈ g1.foundations, 0 ≤ f.next
  cards : g1.cards
    = g.cards + ((g.dragged_cards.map DealtCard.card : List Card) : Multiset Card)
  foundation : origin_foundation g.drag_type ≠ 4 →
    g1.foundation (origin_foundation g.drag_type)
      = g.foundation (origin_foundation g.drag_type)
  stack : origin_stack g.drag_type ≠ 7 →
    ∃ base top, (g1.stack (origin_stack g.drag_type)).cards = base ++ top
      ∧ top.length = g.dragged_cards.length
      ∧ top.map DealtCard.card = g.dragged_cards.map DealtCard.card

/-- A shuffled deck: `build_deck` with the six and the seven of clubs
exchanged and the five and the six of hearts exchanged, listed from the
bottom of the stock to its top. -/
def arranged_deck : List Card :=
  ((((build_deck.set 5 { index := 6, suit := Suit.CLUBS }).set 6
      { index := 5, suit := Suit.CLUBS }).set 30
      { index := 5, suit := Suit.HEARTS }).set 31
      { index := 4, suit := Suit.HEARTS }).reverse

/-- The game dealt from `arranged_deck`. -/
def arranged_start : Game :=
  { stock := arranged_deck.reverse.drop 28
    taken := []
    stock_history := []
    tableau := (List.range 7).map (dealt_column arranged_deck.reverse)
    foundations := List.replicate 4 { next := 0, suit := Suit.CLUBS }
    stock_bbox := { x1 := 15, y1 := 15, x2 := 85, y2 := 110 }
    top_card_bbox := { x1 := 0, y1 := 0, x2 := 0, y2 := 0 }
    drag_type := DragType.NONE
    dragged_cards := []
    drag_offset_x := 0
    drag_offset_y := 0
    won := false }

/-- The game `arranged_start` after one click on the stock: the three, the
four and the six of hearts lie in the waste. -/
def arranged_waste : Game :=
  { arranged_start with
    stock := arranged_start.stock.drop 3
    taken := arranged_start.stock.take 3
    stock_history := (arranged_start.stock.take 3).reverse
    stock_bbox := { x1 := 11, y1 := 11, x2 := 85, y2 := 110 }
    top_card_bbox := { x1 := 131, y1 := 19, x2 := 201, y2 := 114 } }

/-- The game `arranged_waste` after a click on the top card of the waste:
the six of hearts is being dragged. -/
def arranged_drag : Game :=
  { arranged_waste with
    drag_type := DragType.TOP_CARD
    dragged_cards := [{ card := { index := 5, suit := Suit.HEARTS }, face_up := true }]
    drag_offset_x := 9
    drag_offset_y := 31 }

/-- A shuffled deck: `build_deck` with the three of clubs and the King of
spades exchanged, listed from the bottom of the stock to its top.  Its deal
puts the Ace of clubs alone on column 0 and the King of spades face-up on
column 1. -/
def kings_deck : List Card :=
  ((build_deck.set 2 { index := 12, suit := Suit.SPADES }).set 51
      { index := 2, suit := Suit.CLUBS }).reverse

/-- The game dealt from `kings_deck`. -/
def kings_start : Game :=
  { stock := kings_deck.reverse.drop 28
    taken := []
    stock_history := []
    tableau := (List.range 7).map (dealt_column kings_deck.reverse)
    foundations := List.replicate 4 { next := 0, suit := Suit.CLUBS }
    stock_bbox := { x1 := 15, y1 := 15, x2 := 85, y2 := 110 }
    top_card_bbox := { x1 := 0, y1 := 0, x2 := 0, y2 := 0 }
    drag_type := DragType.NONE
    dragged_cards := []
    drag_offset_x := 0
    drag_offset_y := 0
    won := false }

/-- The game `kings_start` after a click on column 0: the Ace of clubs is
being dragged. -/
def kings_ace_drag : Game :=
  { kings_start with
    stock_bbox := { x1 := 11, y1 := 11, x2 := 85, y2 := 110 }
    drag_type := DragType.TABLEAU_1
    dragged_cards := [{ card := { index := 0, suit := Suit.CLUBS }, face_up := true }]
    drag_offset_x := 35
    drag_offset_y := 24 }

/-- The game after the Ace of clubs was released on foundation 0: column 0 is
empty. -/
def kings_ace_home : Game :=
  { kings_ace_drag with
    tableau := kings_start.tableau.set 0 { cards := [] }
    foundations := kings_start.foundations.set 0 { next := 1, suit := Suit.CLUBS }
    drag_type := DragType.NONE
    dragged_cards := [] }

/-- The game after a click on the top card of column 1: the King of spades is
being dragged. -/
def kings_king_drag : Game :=
  { kings_ace_home with
    drag_type := DragType.TABLEAU_2
    dragged_cards := [{ card := { index := 12, suit := Suit.SPADES }, face_up := true }]
    drag_offset_x := 35
    drag_offset_y := 21 }

/-- The mouse samples that lead to `kings_king_drag`, and the release of the
button with the King over column 0. -/
def kings_mouse : Wrapper :=
  ((((Wrapper.initial 50 150 true).update 308 39 false).update 136 150 true).update
    50 147 false)

/-- A state in which the run six of hearts, five of spades is being dragged
from column 1 of the tableau; column 2 shows the seven of clubs. -/
def run_from_column_one : Game :=
  { stock := [{ index := 0, suit := Suit.SPADES }, { index := 3, suit := Suit.DIAMONDS }]
    taken := []
    stock_history := []
    tableau :=
      [{ cards := [{ card := { index := 12, suit := Suit.HEARTS }, face_up := true }] },
       { cards := [{ card := { index := 11, suit := Suit.SPADES }, face_up := false },
                   { card := { index := 5, suit := Suit.HEARTS }, face_up := true },
                   { card := { index := 4, suit := Suit.SPADES }, face_up := true }] },
       { cards := [{ card := { index := 10, suit := Suit.DIAMONDS }, face_up := false },
                   { card := { index := 6, suit := Suit.CLUBS }, face_up := true }] },
       { cards := [{ card := { index := 9, suit := Suit.DIAMONDS }, face_up := true }] },
       { cards := [{ card := { index := 2, suit := Suit.SPADES }, face_up := true }] },
       { cards := [{ card := { index := 5, suit := Suit.CLUBS }, face_up := true }] },
       { cards := [{ card := { index := 10, suit := Suit.HEARTS }, face_up := true }] }]
    foundations := List.replicate 4 { next := 0, suit := Suit.CLUBS }
    stock_bbox := { x1 := 15, y1 := 15, x2 := 85, y2 := 110 }
    top_card_bbox := { x1 := 131, y1 := 19, x2 := 201, y2 := 114 }
    drag_type := DragType.TABLEAU_2
    dragged_cards := [{ card := { index := 5, suit := Suit.HEARTS }, face_up := true },
      { card := { index := 4, suit := Suit.SPADES }, face_up := true }]
    drag_offset_x := 0
    drag_offset_y := 0
    won := false }

/-- A state with three complete foundations and one that lacks its King. -/
def three_complete : Game :=
  { arranged_start with
    foundations :=
      [{ next := 13, suit := Suit.HEARTS }, { next := 13, suit := Suit.CLUBS },
       { next := 12, suit := Suit.SPADES }, { next := 13, suit := Suit.DIAMONDS }] }

/-- Offers the cards of a list to a foundation, one call of `add` after the
other; returns the foundation afterwards and the cards that were accepted, in
the order of their acceptance. -/
def add_cards (f : Foundation) : List Card → Foundation × List Card
  | [] => (f, [])
  | card :: rest =>
    ((add_cards (f.add card).1 rest).1,
      if (f.add card).2 then card :: (add_cards (f.add card).1 rest).2
      else (add_cards (f.add card).1 rest).2)

/-- The column `new` is the column `old` with its face-down top card turned
face-up. -/
def Flipped (old new : List DealtCard) : Prop :=
  ∃ init back, old = init ++ [back] ∧ back.face_up = false
    ∧ new = init ++ [{ back with face_up := true }]

/-- What the handling of a click can have changed between `g` and `g1` when
the first `n` columns of the tableau have been handled, the drag variables
apart: nothing but the face-down top cards of these columns. -/
structure ClickEffect (n : Nat) (g g1 : Game) : Prop where
  stock : g1.stock = g.stock
  taken : g1.taken = g.taken
  stock_history : g1.stock_history = g.stock_history
  foundations : g1.foundations = g.foundations
  stock_bbox : g1.stock_bbox = g.stock_bbox
  top_card_bbox : g1.top_card_bbox = g.top_card_bbox
  tableau_length : g1.tableau.length = g.tableau.length
  later : ∀ i, n ≤ i → g1.stack i = g.stack i
  earlier : ∀ i, i < n →
    g1.stack i = g.stack i ∨ Flipped (g.stack i).cards (g1.stack i).cards

/-- The end of a frame: the drawing code, then the win check. -/
def finish (g : Game) : Game :=
  if just_won (draw g).foundations then { draw g with won := true } else draw g

/-- The card `above` may lie on the card `below` in a run: its index is one
less and its colour is the other one. -/
def follows (below above : DealtCard) : Prop :=
  above.card.index + 1 = below.card.index
    ∧ below.card.suit.is_red ≠ above.card.suit.is_red

/-- The shape of a column of the tableau, listed from the bottom: no
face-down card lies above a face-up card, and of two adjacent face-up cards
the upper one follows the lower one. -/
structure ColumnOK (cards : List DealtCard) : Prop where
  face_down_below : cards.Pairwise (fun a b => a.face_up = true → b.face_up = true)
  legal : cards.Chain' (fun a b => a.face_up = true → b.face_up = true → follows a b)

/-- The invariant of the tableau and of the dragged cards. -/
structure TableauOK (g : Game) : Prop where
  columns : ∀ cs ∈ g.tableau, ColumnOK cs.cards
  dragged_up : ∀ c ∈ g.dragged_cards, c.face_up = true
  dragged_run : g.dragged_cards.Chain' follows

/-- The state after the six of hearts held in `arranged_drag` is released on the seven of
clubs that tops column 2. -/
def arranged_dropped : Game :=
  { arranged_drag with
    taken := arranged_waste.taken.dropLast
    stock_history := arranged_waste.stock_history.drop 1
    tableau := arranged_waste.tableau.set 2
      { cards := (arranged_waste.stack 2).cards
          ++ [{ card := { index := 5, suit := Suit.HEARTS }, face_up := true }] }
    drag_type := DragType.NONE
    dragged_cards := [] }

/-- The state after the face-up run of column 2 of `arranged_dropped` is picked up by its
seven of clubs. -/
def arranged_run_drag : Game :=
  { arranged_dropped with
    drag_type := DragType.TABLEAU_3
    dragged_cards :=
      [{ card := { index := 6, suit := Suit.CLUBS }, face_up := true },
       { card := { index := 5, suit := Suit.HEARTS }, face_up := true }]
    drag_offset_x := 13
    drag_offset_y := 8 }

/-- The input state at the loop head at which `arranged_dropped` is reached. -/
def arranged_mouse : Wrapper :=
  (((((Wrapper.initial 50 50 true).update 140 50 false).update 140 50 true).update
    196 171 false).update 200 140 true)

/-- Layout facts of the boxes that the pointer is tested against: the right and lower
edge of the stock box are the constants set before the loop, a non-empty waste has the
box of its top card inside the strip of the fanned waste, and the waste holds at most
three cards. -/
structure LayoutOK (g : Game) : Prop where
  stock_x2 : g.stock_bbox.x2 = 85
  stock_y2 : g.stock_bbox.y2 = 110
  waste_box : g.taken ≠ [] →
    101 ≤ g.top_card_bbox.x1 ∧ g.top_card_bbox.x2 ≤ 201
      ∧ 15 ≤ g.top_card_bbox.y1 ∧ g.top_card_bbox.y2 ≤ 114
  waste_size : g.taken.length ≤ 3

/-! ## The constructor and the drawing of a `CardStack` -/

/-- The number of values of `size_t` (64 bits). -/
def size_t_mod : Nat := 2 ^ 64

/-- The call `std::rotate(iter, iter + 1, cards.end())` with `iter = cards.begin() + i`:
the range `cards[i..]` is rotated left by one, so `cards[i]` becomes the last card. -/
def rotate_to_end (cards : List DealtCard) (i : Nat) : List DealtCard :=
  cards.take i ++ (cards.drop (i + 1) ++ (cards.drop i).take 1)

/-- The loop `for (size_t i = 0; i < size; ++i)` of the constructor
`CardStack(std::vector<DealtCard>)`, entered with the values `i` and `size`.  After a
face-up card is rotated to the end, `--i` and `--size` are evaluated in `size_t` (so `--i`
wraps around at 0) and the `++i` of the loop follows.  The first argument bounds the
number of iterations: `none` is returned when it is used up, and also when `cards[i]` is
read out of bounds. -/
def card_stack_loop : Nat → Nat → Nat → List DealtCard → Option (List DealtCard)
  | 0, _, _, _ => none
  | fuel + 1, i, size, cards =>
    if i < size then
      match cards[i]? with
      | none => none
      | some c =>
        if c.face_up then
          card_stack_loop fuel
            (((i + size_t_mod - 1) % size_t_mod + 1) % size_t_mod)
            ((size + size_t_mod - 1) % size_t_mod)
            (rotate_to_end cards i)
        else card_stack_loop fuel ((i + 1) % size_t_mod) size cards
    else some cards

/-- The constructor `CardStack(std::vector<DealtCard> cards_)`, which moves the face-up
cards to the top of the stack; `fuel` bounds the number of iterations of its loop. -/
def CardStack.construct (cards_ : List DealtCard) (fuel : Nat) : Option CardStack :=
  (card_stack_loop fuel 0 cards_.length cards_).map CardStack.mk

/-- The value of a suit as an integer (`enum Suit`). -/
def Suit.value : Suit → Int
  | Suit.CLUBS => 0
  | Suit.DIAMONDS => 1
  | Suit.HEARTS => 2
  | Suit.SPADES => 3

/-- One call of `Sprite::draw`: `sprite` is `some k` for the sprite `cards[k]` and `none`
for `cards_back`. -/
structure DrawCall where
  sprite : Option Int
  x : Int
  y : Int
deriving DecidableEq, Repr

/-- Draws the appropriate card sprite at a given position (`DealtCard::draw`). -/
def DealtCard.draw (c : DealtCard) (x y : Int) : DrawCall :=
  if c.face_up then { sprite := some (13 * c.card.suit.value + c.card.index), x := x, y := y }
  else { sprite := none, x := x, y := y }

/-- The loop of `CardStack::draw` over the cards still to be drawn, entered with the
value `draw_y`; it gives the draw calls in the order in which they are made. -/
def draw_loop (x : Int) : List DealtCard → Int → List DrawCall
  | [], _ => []
  | c :: rest, draw_y =>
    c.draw x draw_y :: draw_loop x rest (if c.face_up then draw_y + 15 else draw_y + 3)

/-- Draws the stack at a given position, skipping `skip` cards counted from the top
(`CardStack::draw`).  The bound `cards.size() - skip` of the loop is computed in
`size_t`; when it exceeds the number of cards the loop reads `cards[i]` out of bounds and
`none` is returned. -/
def CardStack.draw (s : CardStack) (x y : Int) (skip : Int) : Option (List DrawCall) :=
  let bound := (((s.cards.length : Int) - skip) % (size_t_mod : Int)).toNat
  if bound ≤ s.cards.length then some (draw_loop x (s.cards.take bound) y) else none

/-- The distance by which the top card of a stack lies below the start position: 15 for
every face-up card and 3 for every face-down card under it. -/
def fan_offset (under : List DealtCard) : Int :=
  (under.map (fun c => if c.face_up then (15 : Int) else 3)).sum

/-! ## Pickup resolution in the words of the specification -/

/-- Step 1 of the pickup resolution of the specification: the waste is not empty and the
region of its exposed top card contains the pointer. -/
def waste_hit (mouse_x mouse_y : Int) (g : Game) : Bool :=
  !g.taken.isEmpty && g.top_card_bbox.collision_point mouse_x mouse_y

/-- Step 2 of the pickup resolution of the specification, for foundation `i`: its region
contains the pointer and it passes the filter `next_rank > 1`, which is `next > 0`. -/
def foundation_hit (mouse_x mouse_y : Int) (g : Game) (i : Nat) : Bool :=
  (foundation_bboxes i).collision_point mouse_x mouse_y && decide (0 < (g.foundation i).next)

/-- Step 3 of the pickup resolution of the specification, first half, for column `i`:
the topmost card is face-down and its region contains the pointer. -/
def reveal_hit (mouse_x mouse_y : Int) (g : Game) (i : Nat) : Bool :=
  match (g.stack i).cards.getLast? with
  | some back =>
    !back.face_up
      && ((g.stack i).get_top_card_bbox (15 + 86 * (i : Int)) 126).collision_point
          mouse_x mouse_y
  | none => false

/-- Step 3 of the pickup resolution of the specification, second half, for column `i`:
a face-up card of the column is found under the pointer. -/
def run_hit (mouse_x mouse_y : Int) (g : Game) (i : Nat) : Bool :=
  (tableau_scan i mouse_x mouse_y (g.stack i).cards.length (g.stack i).cards 0
    { first_face_up := 0, first_face_up_found := false
      clicked_card := 0, clicked_card_found := false, y1 := 126 }).clicked_card_found

/-- Column `i` is hit: by a reveal or by the pickup of a run. -/
def tableau_hit (mouse_x mouse_y : Int) (g : Game) (i : Nat) : Bool :=
  reveal_hit mouse_x mouse_y g i || run_hit mouse_x mouse_y g i

/-- Step 3 of the pickup resolution of the specification for the one column `i`: the
face-down top card is flipped in place when its region is hit, else the run from the
card under the pointer is picked up, if there is one. -/
def column_pickup_as_specified (mouse_x mouse_y : Int) (g : Game) (i : Nat) : Game :=
  match (g.stack i).cards.getLast? with
  | some back =>
    if reveal_hit mouse_x mouse_y g i then
      { g with tableau := g.tableau.set i { cards := flip_top (g.stack i).cards back } }
    else tableau_pickup mouse_x mouse_y g i
  | none => tableau_pickup mouse_x mouse_y g i

/-- The pickup resolution of the specification: a fixed priority, the waste, then the
foundations from left to right, then the tableau columns from left to right, in which
the first hit wins and nothing after it is looked at. -/
def pickup_as_specified (mouse_x mouse_y : Int) (g : Game) : Game :=
  if waste_hit mouse_x mouse_y g then waste_pickup mouse_x mouse_y g
  else
    match (List.range 4).find? (foundation_hit mouse_x mouse_y g) with
    | some i => foundation_pickup mouse_x mouse_y g i
    | none =>
      match (List.range 7).find? (tableau_hit mouse_x mouse_y g) with
      | some i => column_pickup_as_specified mouse_x mouse_y g i
      | none => g

/-- The state after the stock block of a click, the first statement of `click`. -/
def stock_step (g : Game) (mouse_x mouse_y : Int) : Game :=
  if g.stock_bbox.collision_point mouse_x mouse_y then stock_click g else g

/-- A deck whose deal puts the Ace of clubs face-up on the face-down two of clubs in
column 1: the deck of `build_deck` with the Ace and the three of clubs exchanged. -/
def reveal_deck : List Card :=
  ((build_deck.set 0 { index := 2, suit := Suit.CLUBS }).set 2
      { index := 0, suit := Suit.CLUBS }).reverse

/-- The new game dealt from `reveal_deck`. -/
def reveal_start : Game :=
  { stock := reveal_deck.reverse.drop 28
    taken := []
    stock_history := []
    tableau := (List.range 7).map (dealt_column reveal_deck.reverse)
    foundations := List.replicate 4 { next := 0, suit := Suit.CLUBS }
    stock_bbox := { x1 := 15, y1 := 15, x2 := 85, y2 := 110 }
    top_card_bbox := { x1 := 0, y1 := 0, x2 := 0, y2 := 0 }
    drag_type := DragType.NONE
    dragged_cards := []
    drag_offset_x := 0
    drag_offset_y := 0
    won := false }

/-- The state after the Ace of clubs is picked up from column 1 of `reveal_start`. -/
def reveal_ace_drag : Game :=
  { reveal_start with
    stock_bbox := { x1 := 11, y1 := 11, x2 := 85, y2 := 110 }
    drag_type := DragType.TABLEAU_2
    dragged_cards := [{ card := { index := 0, suit := Suit.CLUBS }, face_up := true }]
    drag_offset_x := 35
    drag_offset_y := 21 }

/-- The state after that Ace is released on foundation 0: the top card of column 1 is
the face-down two of clubs. -/
def reveal_ready : Game :=
  { reveal_ace_drag with
    tableau := reveal_start.tableau.set 1
      { cards := [{ card := { index := 1, suit := Suit.CLUBS }, face_up := false }] }
    foundations := reveal_start.foundations.set 0 { next := 1, suit := Suit.CLUBS }
    drag_type := DragType.NONE
    dragged_cards := [] }

/-- The state after the two of clubs of `reveal_ready` is turned by a click. -/
def reveal_done : Game :=
  { reveal_ready with
    tableau := reveal_ready.tableau.set 1
      { cards := [{ card := { index := 1, suit := Suit.CLUBS }, face_up := true }] } }

/-- The input state at the loop head at which `reveal_ready` is reached. -/
def reveal_mouse : Wrapper :=
  (((Wrapper.initial 136 150 true).update 308 39 false).update 136 150 true)

/-- The input state with which `kings_ace_home` is reached when the next sample is a
press inside the base box of the empty column 0. -/
def kings_empty_click : Wrapper :=
  (((Wrapper.initial 50 150 true).update 308 39 false).update 50 150 true)

/-! ## Lemmas -/

theorem build_deck_index (c : Card) (h : c ∈ build_deck) : 0 ≤ c.index ∧ c.index ≤ 12 := by
  revert c
  decide

theorem set_getD_self {α : Type} (l : List α) (i : Nat) (d : α) :
    l.set i (l.getD i d) = l := by
  induction l generalizing i with
  | nil => simp
  | cons a l ih =>
    cases i with
    | zero => simp
    | succ i => simpa using ih i

theorem add_true_iff (f : Foundation) (card : Card) :
    (f.add card).2 = true ↔
      ((f.next = 0 ∨ card.suit = f.suit) ∧ card.index = f.next) := by
  unfold Foundation.add
  split <;> simp_all

theorem add_false_fst (f : Foundation) (card : Card) (h : (f.add card).2 = false) :
    (f.add card).1 = f := by
  unfold Foundation.add at h ⊢
  split <;> simp_all

theorem drop_on_foundations_false (g : Game) (mx my : Int)
    (h : (drop_on_foundations g mx my).2 = false) :
    (drop_on_foundations g mx my).1 = g := by
  unfold drop_on_foundations at h ⊢
  cases hd : g.dragged_cards with
  | nil => rfl
  | cons d rest =>
    cases rest with
    | cons e rest => rfl
    | nil =>
      simp only [hd] at h ⊢
      by_cases hc : (!(colliding_foundations g mx my).isEmpty) = true
      · simp only [hc, if_true] at h ⊢
        rw [add_false_fst _ _ h]
        unfold Game.foundation
        rw [set_getD_self, ← hd]
      · simp only [hc] at h ⊢
        rfl

theorem tableau_condition_nonempty (back d : DealtCard) :
    tableau_condition back false d
      = decide (back.face_up = true ∧ d.card.index + 1 = back.card.index
          ∧ d.card.suit.is_red ≠ back.card.suit.is_red) := by
  rcases back with ⟨⟨bi, bs⟩, bf⟩
  rcases d with ⟨⟨di, ds⟩, df⟩
  cases bs <;> cases ds <;> cases bf <;> simp [tableau_condition, Suit.is_red]

/-- When the first drop attempt fails, the release goes on to the tableau
with the state unchanged. -/
theorem drop_eq_drop_on_tableau (g : Game) (mx my : Int)
    (h : (drop_on_foundations g mx my).2 = false) :
    drop g mx my = drop_on_tableau g mx my := by
  unfold drop
  simp only [h, Bool.not_false, if_true]
  rw [drop_on_foundations_false g mx my h]

/-- The tableau drop on a chosen column that is not empty. -/
theorem drop_on_tableau_nonempty (g : Game) (mx my : Int) (back d : DealtCard)
    (hc : colliding_stacks g mx my ≠ [])
    (hback : (g.stack (closest_index (mx - g.drag_offset_x + 35)
      (colliding_stacks g mx my) stack_distance)).cards.getLast? = some back)
    (hd : g.dragged_cards.head? = some d) :
    drop_on_tableau g mx my =
      if tableau_condition back false d then
        some
          ({ g with
             tableau := g.tableau.set
               (closest_index (mx - g.drag_offset_x + 35)
                 (colliding_stacks g mx my) stack_distance)
               { cards := (g.stack (closest_index (mx - g.drag_offset_x + 35)
                   (colliding_stacks g mx my) stack_distance)).cards
                   ++ g.dragged_cards.map (fun c => { card := c.card, face_up := true }) } },
            true)
      else some (g, false) := by
  have hne : (!(colliding_stacks g mx my).isEmpty) = true := by
    cases h : colliding_stacks g mx my with
    | nil => exact absurd h hc
    | cons a l => rfl
  have hemp : (g.stack (closest_index (mx - g.drag_offset_x + 35)
      (colliding_stacks g mx my) stack_distance)).cards.isEmpty = false := by
    cases h : (g.stack (closest_index (mx - g.drag_offset_x + 35)
      (colliding_stacks g mx my) stack_distance)).cards with
    | nil => rw [h] at hback; simp at hback
    | cons a l => rfl
  unfold drop_on_tableau
  simp only [hne, if_true, hback, hd, hemp]

/-- The tableau drop on a chosen column that is empty reads `back()` of an
empty vector. -/
theorem drop_on_tableau_empty (g : Game) (mx my : Int)
    (hc : colliding_stacks g mx my ≠ [])
    (hempty : (g.stack (closest_index (mx - g.drag_offset_x + 35)
      (colliding_stacks g mx my) stack_distance)).cards = []) :
    drop_on_tableau g mx my = none := by
  have hne : (!(colliding_stacks g mx my).isEmpty) = true := by
    cases h : colliding_stacks g mx my with
    | nil => exact absurd h hc
    | cons a l => rfl
  unfold drop_on_tableau
  simp only [hne, if_true, hempty, List.getLast?_nil]

theorem closest_foldl_mem (x : Int) (f : Int → Nat → Int) (l : List Nat) (st : Closest) :
    (l.foldl (closest_step x f) st).closest ∈ l ∨ l.foldl (closest_step x f) st = st := by
  induction l generalizing st with
  | nil => right; rfl
  | cons a l ih =>
    simp only [List.foldl_cons]
    rcases ih (closest_step x f st a) with h | h
    · left; exact List.mem_cons_of_mem _ h
    · rw [h]
      simp only [closest_step]
      split
      · left; simp
      · right; rfl

theorem closest_foldl_checked (x : Int) (f : Int → Nat → Int) (l : List Nat) (st : Closest)
    (h : l ≠ [] ∨ st.checked_any = true) :
    (l.foldl (closest_step x f) st).checked_any = true := by
  induction l generalizing st with
  | nil => simpa using h
  | cons a l ih =>
    simp only [List.foldl_cons]
    apply ih
    right
    simp only [closest_step]
    split
    · rfl
    · rename_i hc
      simp at hc
      exact hc.1

theorem closest_index_mem (x : Int) (f : Int → Nat → Int) (l : List Nat) (h : l ≠ []) :
    closest_index x l f ∈ l := by
  unfold closest_index
  rcases closest_foldl_mem x f l
    { closest := 0, closest_distance := 0, checked_any := false } with h1 | h1
  · exact h1
  · have h2 := closest_foldl_checked x f l
      { closest := 0, closest_distance := 0, checked_any := false } (Or.inl h)
    rw [h1] at h2
    simp at h2

theorem colliding_stacks_lt (g : Game) (mx my : Int) (k : Nat)
    (h : k ∈ colliding_stacks g mx my) : k < 7 := by
  unfold colliding_stacks at h
  exact List.mem_range.mp (List.mem_filter.mp h).1

theorem colliding_foundations_lt (g : Game) (mx my : Int) (k : Nat)
    (h : k ∈ colliding_foundations g mx my) : k < 4 := by
  unfold colliding_foundations at h
  exact List.mem_range.mp (List.mem_filter.mp h).1

theorem pop_back_n_append (base l : List DealtCard) :
    pop_back_n l.length (base ++ l) = some base := by
  induction l using List.reverseRecOn with
  | nil => simp [pop_back_n]
  | append_singleton l a ih =>
    have : (l ++ [a]).length = l.length + 1 := by simp
    rw [this, pop_back_n]
    have h2 : (base ++ (l ++ [a])).isEmpty = false := by
      cases base <;> cases l <;> rfl
    rw [h2]
    simp only [Bool.false_eq_true, if_false]
    rw [← List.append_assoc, List.dropLast_concat]
    exact ih

theorem just_won_iff (fs : List Foundation) :
    just_won fs = true ↔ ∀ f ∈ fs, f.next = 13 := by
  induction fs with
  | nil => simp [just_won]
  | cons f fs ih =>
    unfold just_won
    by_cases h : f.next = 13 <;> simp [h, ih]

theorem drop_on_tableau_false (g : Game) (mx my : Int)
    (h : (drop_on_tableau g mx my).map Prod.snd = some false) :
    drop_on_tableau g mx my = some (g, false) := by
  by_cases hc : colliding_stacks g mx my = []
  · simp [drop_on_tableau, hc]
  · cases hb : (g.stack (closest_index (mx - g.drag_offset_x + 35)
        (colliding_stacks g mx my) stack_distance)).cards.getLast? with
    | none =>
      rw [List.getLast?_eq_none_iff] at hb
      rw [drop_on_tableau_empty g mx my hc hb] at h
      simp at h
    | some back =>
      cases hd : g.dragged_cards.head? with
      | none =>
        exfalso
        have hne : (!(colliding_stacks g mx my).isEmpty) = true := by
          cases h0 : colliding_stacks g mx my with
          | nil => exact absurd h0 hc
          | cons a l => rfl
        simp only [drop_on_tableau, hne, if_true, hb, hd] at h
        simp at h
      | some d =>
        rw [drop_on_tableau_nonempty g mx my back d hc hb hd] at h ⊢
        by_cases hcond : tableau_condition back false d = true
        · simp [hcond] at h
        · simp [hcond]

theorem drop_false (g : Game) (mx my : Int)
    (h : (drop g mx my).map Prod.snd = some false) :
    drop g mx my = some (g, false) := by
  by_cases hf : (drop_on_foundations g mx my).2 = false
  · rw [drop_eq_drop_on_tableau g mx my hf] at h ⊢
    exact drop_on_tableau_false g mx my h
  · simp only [Bool.not_eq_false] at hf
    simp [drop, hf] at h

theorem deal_loop_done (i : Nat) (stock : List Card) (card : Nat) (cards : List DealtCard)
    (h : i + 1 < card) : deal_loop i stock card cards = some (stock, cards) := by
  cases stock with
  | nil => simp [deal_loop]; omega
  | cons a l => simp [deal_loop]; omega

theorem deal_loop_eq (i : Nat) (m : Nat) :
    ∀ (stock : List Card) (card : Nat) (cards : List DealtCard),
      card + m = i + 1 → m < stock.length →
      deal_loop i stock card cards = some (stock.drop (m + 1),
        cards ++ (stock.take m).map (fun c => { card := c, face_up := false })
          ++ ((stock.drop m).take 1).map (fun c => { card := c, face_up := true })) := by
  induction m with
  | zero =>
    intro stock card cards hc hl
    cases stock with
    | nil => simp at hl
    | cons top rest =>
      have hc1 : card = i + 1 := by omega
      subst hc1
      rw [deal_loop]
      simp only [le_refl, if_true, decide_True]
      rw [deal_loop_done i rest _ _ (by omega)]
      simp
  | succ m ih =>
    intro stock card cards hc hl
    cases stock with
    | nil => simp at hl
    | cons top rest =>
      rw [deal_loop]
      have h1 : card ≤ i + 1 := by omega
      have h2 : ¬ (card = i + 1) := by omega
      simp only [h1, if_true, h2, decide_False]
      rw [ih rest (card + 1) _ (by omega) (by simpa using hl)]
      simp

theorem deal_step_eq (stock : List Card) (tableau : List CardStack) (i : Nat)
    (hi : i < stock.length) (ht : (tableau.getD i { cards := [] }).cards = []) :
    deal_step (stock, tableau) i = some (stock.drop (i + 1),
      tableau.set i { cards := (stock.take i).map (fun c => { card := c, face_up := false })
          ++ ((stock.drop i).take 1).map (fun c => { card := c, face_up := true }) }) := by
  unfold deal_step
  simp only [ht]
  rw [deal_loop_eq i i stock 1 [] (by omega) hi]
  simp

theorem range_seven : List.range 7 = [0, 1, 2, 3, 4, 5, 6] := by decide

theorem deal_eq (stock : List Card) (h : 28 ≤ stock.length) :
    deal stock = some (stock.drop 28, (List.range 7).map (dealt_column stock)) := by
  unfold deal
  rw [range_seven]
  simp only [List.foldlM_cons, List.foldlM_nil, List.replicate]
  rw [deal_step_eq _ _ 0 (by omega) (by simp)]
  simp only [Option.some_bind, Option.bind_eq_bind]
  rw [deal_step_eq _ _ 1 (by simp; omega) (by simp)]
  simp only [Option.some_bind, Option.bind_eq_bind]
  rw [deal_step_eq _ _ 2 (by simp; omega) (by simp)]
  simp only [Option.some_bind, Option.bind_eq_bind]
  rw [deal_step_eq _ _ 3 (by simp; omega) (by simp)]
  simp only [Option.some_bind, Option.bind_eq_bind]
  rw [deal_step_eq _ _ 4 (by simp; omega) (by simp)]
  simp only [Option.some_bind, Option.bind_eq_bind]
  rw [deal_step_eq _ _ 5 (by simp; omega) (by simp)]
  simp only [Option.some_bind, Option.bind_eq_bind]
  rw [deal_step_eq _ _ 6 (by simp; omega) (by simp)]
  simp [dealt_column, List.drop_drop]

theorem dealt_column_cards (stock : List Card) (i : Nat)
    (h : i * (i + 1) / 2 + i < stock.length) :
    (dealt_column stock i).cards.map DealtCard.card
        = (stock.drop (i * (i + 1) / 2)).take (i + 1)
      ∧ (dealt_column stock i).cards.map DealtCard.face_up
        = List.replicate i false ++ [true]
      ∧ (dealt_column stock i).cards.length = i + 1 := by
  have h1 : ((stock.drop (i * (i + 1) / 2)).take i).length = i := by
    simp; omega
  obtain ⟨c, hc⟩ : ∃ c, (stock.drop (i * (i + 1) / 2 + i)).take 1 = [c] := by
    cases hd : stock.drop (i * (i + 1) / 2 + i) with
    | nil =>
      have := congrArg List.length hd
      simp at this
      omega
    | cons a l => exact ⟨a, rfl⟩
  refine ⟨?_, ?_, ?_⟩
  · simp only [dealt_column, List.map_append, List.map_map]
    rw [List.take_add, List.drop_drop]
    simp [Function.comp_def]
  · simp only [dealt_column, List.map_append, List.map_map, hc]
    simp [Function.comp_def, List.eq_replicate_iff]
    omega
  · simp only [dealt_column, hc]
    simp
    omega

theorem origin_foundation_of_stack (t : DragType) (h : origin_stack t ≠ 7) :
    origin_foundation t = 4 ∧ t ≠ DragType.TOP_CARD := by
  cases t <;> simp_all [origin_stack, origin_foundation]

theorem remove_origin_tableau (g : Game) (i : Nat) (base : List DealtCard)
    (hi : origin_stack g.drag_type = i) (hi7 : i ≠ 7)
    (hbase : (g.stack i).cards = base ++ g.dragged_cards) :
    remove_origin g = some { g with tableau := g.tableau.set i { cards := base } } := by
  have h := origin_foundation_of_stack g.drag_type (by rw [hi]; exact hi7)
  unfold remove_origin
  simp only [h.2, if_false, h.1, ne_eq, not_true_eq_false, hi, hi7, not_false_eq_true, if_true,
    hbase, pop_back_n_append]

theorem stack_set_ne (g : Game) (k j : Nat) (c : CardStack) (h : k ≠ j) :
    ({ g with tableau := g.tableau.set k c } : Game).stack j = g.stack j := by
  simp [Game.stack, List.getD_eq_getElem?_getD, List.getElem?_set_ne h]

theorem stack_set_eq (g : Game) (k : Nat) (c : CardStack) (h : k < g.tableau.length) :
    ({ g with tableau := g.tableau.set k c } : Game).stack k = c := by
  simp [Game.stack, List.getD_eq_getElem?_getD, List.getElem?_set_self h]

theorem take_loop_zero (stock taken hist : List Card) :
    take_loop stock 0 taken hist =
      { i := min 3 stock.length, stock := stock.drop 3,
        taken := taken ++ stock.take 3,
        stock_history := (stock.take 3).reverse ++ hist } := by
  rcases stock with _ | ⟨a, _ | ⟨b, _ | ⟨c, rest⟩⟩⟩ <;> simp [take_loop]
  cases rest <;> simp [take_loop]

theorem reset_stock_eq (stock hist : List Card) :
    reset_stock stock hist = (hist.reverse ++ stock, []) := by
  induction hist generalizing stock with
  | nil => simp [reset_stock]
  | cons a l ih => simp [reset_stock, ih]

theorem stock_click_nonempty (g : Game) (h : g.stock ≠ []) :
    (stock_click g).stock = g.stock.drop 3
      ∧ (stock_click g).taken = g.stock.take 3
      ∧ (stock_click g).stock_history = (g.stock.take 3).reverse ++ g.stock_history := by
  have he : g.stock.isEmpty = false := by
    cases hs : g.stock with
    | nil => exact absurd hs h
    | cons a l => rfl
  simp [stock_click, he, take_loop_zero]

theorem stock_click_empty (g : Game) (h : g.stock = []) (hh : g.stock_history ≠ []) :
    (stock_click g).stock = g.stock_history.reverse
      ∧ (stock_click g).taken = []
      ∧ (stock_click g).stock_history = [] := by
  have he : g.stock_history.isEmpty = false := by
    cases hs : g.stock_history with
    | nil => exact absurd hs hh
    | cons a l => rfl
  simp [stock_click, h, he, reset_stock_eq]

theorem stock_clicks_aux (g : Game) (hh : g.stock_history = []) (k : Nat)
    (hk : 3 * k < g.stock.length + 3) :
    (stock_click^[k] g).stock = g.stock.drop (3 * k)
      ∧ (stock_click^[k] g).stock_history = (g.stock.take (3 * k)).reverse := by
  induction k with
  | zero => simp [hh]
  | succ k ih =>
    have ih := ih (by omega)
    rw [Function.iterate_succ_apply']
    have hne : (stock_click^[k] g).stock ≠ [] := by
      rw [ih.1]
      intro h0
      have := congrArg List.length h0
      simp at this
      omega
    obtain ⟨h1, _, h3⟩ := stock_click_nonempty _ hne
    rw [h1, h3, ih.1, ih.2]
    constructor
    · rw [List.drop_drop, Nat.mul_succ]
    · rw [← List.reverse_append, ← List.take_add, Nat.mul_succ]

theorem drop_no_target (g : Game) (mx my : Int)
    (hf : colliding_foundations g mx my = []) (hs : colliding_stacks g mx my = []) :
    drop g mx my = some (g, false) := by
  have h1 : drop_on_foundations g mx my = (g, false) := by
    unfold drop_on_foundations
    split
    · simp [hf]
    · rfl
  unfold drop
  simp [h1, drop_on_tableau, hs]

theorem sum_map_set {α M : Type} [AddCommMonoid M] (f : α → M) (l : List α) (i : Nat)
    (v d : α) (h : i < l.length) :
    ((l.set i v).map f).sum + f (l.getD i d) = (l.map f).sum + f v := by
  induction l generalizing i with
  | nil => simp at h
  | cons a l ih =>
    cases i with
    | zero =>
      simp only [List.set_cons_zero, List.map_cons, List.sum_cons, List.getD_cons_zero]
      abel
    | succ i =>
      have := ih i (by simpa using h)
      simp only [List.set_cons_succ, List.map_cons, List.sum_cons, List.getD_cons_succ]
      rw [add_assoc, this]
      abel

theorem take_28_split (stock : List Card) :
    (stock.drop 0).take 1 ++ (stock.drop 1).take 2 ++ (stock.drop 3).take 3
      ++ (stock.drop 6).take 4 ++ (stock.drop 10).take 5 ++ (stock.drop 15).take 6
      ++ (stock.drop 21).take 7 = stock.take 28 := by
  have e : ∀ (a b : Nat), stock.take (a + b) = stock.take a ++ (stock.drop a).take b :=
    fun a b => List.take_add stock a b
  rw [show (28 : Nat) = 21 + 7 from rfl, e, show (21 : Nat) = 15 + 6 from rfl, e,
    show (15 : Nat) = 10 + 5 from rfl, e, show (10 : Nat) = 6 + 4 from rfl, e,
    show (6 : Nat) = 3 + 3 from rfl, e, show (3 : Nat) = 1 + 2 from rfl, e]
  simp

theorem new_game_piles (deck_vector : List Card) (x1 y1 : Int) (b : BBox) (g : Game)
    (hp : deck_vector.Perm build_deck)
    (h : new_game deck_vector x1 y1 b = some g) : PilesOK g ∧ DragOK g
      ∧ g.drag_type = DragType.NONE := by
  have hlen : deck_vector.length = 52 := by
    rw [List.Perm.length_eq hp]; decide
  have hr : 28 ≤ deck_vector.reverse.length := by simp; omega
  unfold new_game at h
  rw [deal_eq _ hr] at h
  simp only [Option.some.injEq] at h
  subst h
  refine ⟨⟨by simp, by simp, ?_, ?_, ?_, ?_⟩, ⟨?_, ?_, ?_, ?_⟩, rfl⟩
  · have hc : ∀ i, i < 7 → (dealt_column deck_vector.reverse i).cards.map DealtCard.card
        = (deck_vector.reverse.drop (i * (i + 1) / 2)).take (i + 1) := by
      intro i hi
      apply (dealt_column_cards _ i _).1
      have : deck_vector.reverse.length = 52 := by simp; omega
      rw [this]
      interval_cases i <;> decide
    simp only [Game.cards, range_seven, List.map_cons, List.map_nil, List.sum_cons,
      List.sum_nil, List.replicate]
    rw [hc 0 (by decide), hc 1 (by decide), hc 2 (by decide), hc 3 (by decide),
      hc 4 (by decide), hc 5 (by decide), hc 6 (by decide)]
    have hf : (Foundation.cards { next := 0, suit := Suit.CLUBS } : List Card) = [] := rfl
    simp only [hf, Multiset.coe_add, add_zero, Multiset.coe_nil, List.append_nil]
    have h28 := take_28_split deck_vector.reverse
    simp only [List.append_assoc] at h28
    simp only [Nat.reduceAdd, Nat.reduceMul, Nat.reduceDiv]
    rw [h28, Multiset.coe_eq_coe]
    refine List.Perm.trans List.perm_append_comm ?_
    rw [List.take_append_drop]
    exact (List.reverse_perm _).trans hp
  · intro f hf
    simp at hf
    rw [hf]
  · simp
  · simp
  · intro _; rfl
  · intro h; simp at h
  · intro h; simp [origin_foundation] at h
  · intro h; simp [origin_stack] at h

theorem stock_click_of_nonempty (g : Game) (h : g.stock ≠ []) :
    stock_click g =
      { g with
        taken := g.stock.take 3
        stock := g.stock.drop 3
        stock_history := (g.stock.take 3).reverse ++ g.stock_history
        top_card_bbox :=
          { x1 := 101 + 15 * (((min 3 g.stock.length : Nat) : Int) - 1)
            y1 := 15 + 2 * (((min 3 g.stock.length : Nat) : Int) - 1)
            x2 := 101 + 15 * (((min 3 g.stock.length : Nat) : Int) - 1) + 70
            y2 := 15 + 2 * (((min 3 g.stock.length : Nat) : Int) - 1) + 95 } } := by
  have he : g.stock.isEmpty = false := by
    cases hs : g.stock with
    | nil => exact absurd hs h
    | cons a l => rfl
  simp [stock_click, he, take_loop_zero]

theorem stock_click_of_empty (g : Game) (h : g.stock = []) :
    stock_click g =
      { g with
        taken := if g.stock_history = [] then g.taken else []
        stock := g.stock_history.reverse
        stock_history := [] } := by
  cases hs : g.stock_history with
  | nil => simp [stock_click, h, hs, reset_stock]
  | cons a l => simp [stock_click, h, hs, reset_stock_eq]

theorem stock_click_piles (g : Game) (h : PilesOK g) : PilesOK (stock_click g) := by
  by_cases hs : g.stock = []
  · rw [stock_click_of_empty g hs]
    refine ⟨h.tableau_length, h.foundations_length, ?_, h.next_nonneg, ?_, ?_⟩
    · rw [← h.cards]
      simp only [Game.cards, hs]
      congr 2
      simp
    · by_cases hh : g.stock_history = []
      · have := h.waste
        rw [hh] at this
        simp only [hh, if_true]
        simpa using this
      · simp [hh]
    · by_cases hh : g.stock_history = []
      · simp only [hh, if_true]
        exact h.top_card_bbox
      · simp [hh]
  · rw [stock_click_of_nonempty g hs]
    refine ⟨h.tableau_length, h.foundations_length, ?_, h.next_nonneg, ?_, ?_⟩
    · rw [← h.cards]
      simp only [Game.cards]
      congr 2
      conv_rhs => rw [← List.take_append_drop 3 g.stock]
      simp only [Multiset.coe_reverse, ← Multiset.coe_add]
      abel
    · simp
    · intro _
      simp only
      omega

theorem stock_click_drag (g : Game) :
    (stock_click g).drag_type = g.drag_type
      ∧ (stock_click g).dragged_cards = g.dragged_cards
      ∧ (stock_click g).tableau = g.tableau
      ∧ (stock_click g).foundations = g.foundations := by
  by_cases hs : g.stock = []
  · rw [stock_click_of_empty g hs]
    exact ⟨rfl, rfl, rfl, rfl⟩
  · rw [stock_click_of_nonempty g hs]
    exact ⟨rfl, rfl, rfl, rfl⟩

theorem tableau_scan_found (i : Nat) (mx my : Int) (size : Nat) (cards : List DealtCard) :
    ∀ (j : Nat) (st : Scan), st.clicked_card_found = true →
      (tableau_scan i mx my size cards j st).clicked_card_found = true
        ∧ (tableau_scan i mx my size cards j st).clicked_card = st.clicked_card := by
  induction cards with
  | nil => intro j st h; exact ⟨h, rfl⟩
  | cons c rest ih =>
    intro j st h
    rw [tableau_scan]
    have h1 : (tableau_scan_step i mx my size c j st).clicked_card_found = true
        ∧ (tableau_scan_step i mx my size c j st).clicked_card = st.clicked_card := by
      simp [tableau_scan_step, h]
    obtain ⟨r1, r2⟩ := ih (j + 1) _ h1.1
    exact ⟨r1, r2.trans h1.2⟩

theorem tableau_scan_step_hit (i : Nat) (mx my : Int) (size : Nat) (c : DealtCard)
    (j : Nat) (st : Scan) (h : st.clicked_card_found = false)
    (hstep : (tableau_scan_step i mx my size c j st).clicked_card_found = true) :
    (tableau_scan_step i mx my size c j st).clicked_card = j
      ∧ st.y1 ≤ my ∧ 15 + 86 * (i : Int) ≤ mx ∧ mx ≤ 85 + 86 * (i : Int) := by
  unfold tableau_scan_step at hstep ⊢
  dsimp only at hstep ⊢
  generalize (if (!st.first_face_up_found && c.face_up) = true then (j, true)
    else (st.first_face_up, st.first_face_up_found)) = first at hstep ⊢
  generalize (if j = size - 1 then st.y1 + 95
    else if c.face_up = true then st.y1 + 14 else st.y1 + 2) = y2 at hstep ⊢
  by_cases hcond : (!st.clicked_card_found && first.2
      && ({ x1 := 15 + 86 * (i : Int), y1 := st.y1, x2 := 85 + 86 * (i : Int), y2 := y2 }
          : BBox).collision_point mx my) = true
  · rw [if_pos hcond]
    simp only [Bool.and_eq_true, BBox.collision_point, decide_eq_true_eq] at hcond
    obtain ⟨_, ⟨⟨hx1, hy1⟩, hx2⟩, _⟩ := hcond
    exact ⟨rfl, hy1, hx1, hx2⟩
  · rw [if_neg hcond] at hstep
    rw [h] at hstep
    exact absurd hstep (by simp)

theorem tableau_scan_step_y1 (i : Nat) (mx my : Int) (size : Nat) (c : DealtCard)
    (j : Nat) (st : Scan) : st.y1 ≤ (tableau_scan_step i mx my size c j st).y1 := by
  unfold tableau_scan_step
  dsimp only
  split <;> omega

theorem tableau_scan_hit (i : Nat) (mx my : Int) (size : Nat) (cards : List DealtCard) :
    ∀ (j : Nat) (st : Scan), st.clicked_card_found = false → 126 ≤ st.y1 →
      (tableau_scan i mx my size cards j st).clicked_card_found = true →
      126 ≤ my ∧ 15 + 86 * (i : Int) ≤ mx ∧ mx ≤ 85 + 86 * (i : Int)
        ∧ j ≤ (tableau_scan i mx my size cards j st).clicked_card
        ∧ (tableau_scan i mx my size cards j st).clicked_card < j + cards.length := by
  induction cards with
  | nil =>
    intro j st h _ hf
    rw [tableau_scan] at hf
    rw [h] at hf
    exact absurd hf (by simp)
  | cons c rest ih =>
    intro j st h hy hf
    rw [tableau_scan] at hf ⊢
    by_cases hstep : (tableau_scan_step i mx my size c j st).clicked_card_found = true
    · obtain ⟨_, r2⟩ := tableau_scan_found i mx my size rest (j + 1) _ hstep
      rw [r2]
      have hcol := tableau_scan_step_hit i mx my size c j st h hstep
      rw [hcol.1]
      refine ⟨by omega, hcol.2.2.1, hcol.2.2.2, le_refl _, ?_⟩
      simp
    · simp only [Bool.not_eq_true] at hstep
      have hy1 : 126 ≤ (tableau_scan_step i mx my size c j st).y1 :=
        le_trans hy (tableau_scan_step_y1 i mx my size c j st)
      obtain ⟨a, b, c1, d, e⟩ := ih (j + 1) _ hstep hy1 hf
      refine ⟨a, b, c1, by omega, ?_⟩
      simp only [List.length_cons]
      omega

theorem piles_ok_congr {g g1 : Game} (h : PilesOK g)
    (h1 : g1.stock = g.stock) (h2 : g1.taken = g.taken)
    (h3 : g1.stock_history = g.stock_history) (h4 : g1.tableau = g.tableau)
    (h5 : g1.foundations = g.foundations) (h6 : g1.top_card_bbox = g.top_card_bbox) :
    PilesOK g1 := by
  refine ⟨by rw [h4]; exact h.tableau_length, by rw [h5]; exact h.foundations_length, ?_,
    by rw [h5]; exact h.next_nonneg, by rw [h2, h3]; exact h.waste,
    by rw [h2, h6]; exact h.top_card_bbox⟩
  rw [← h.cards]
  simp only [Game.cards, h1, h3, h4, h5]

theorem foundation_drag_type_spec (i : Nat) (h : i < 4) (old : DragType) :
    origin_foundation (foundation_drag_type i old) = i
      ∧ origin_stack (foundation_drag_type i old) = 7
      ∧ foundation_drag_type i old ≠ DragType.NONE
      ∧ foundation_drag_type i old ≠ DragType.TOP_CARD := by
  interval_cases i <;> simp [foundation_drag_type, origin_foundation, origin_stack]

theorem tableau_drag_type_spec (i : Nat) (h : i < 7) (old : DragType) :
    origin_stack (tableau_drag_type i old) = i
      ∧ origin_foundation (tableau_drag_type i old) = 4
      ∧ tableau_drag_type i old ≠ DragType.NONE
      ∧ tableau_drag_type i old ≠ DragType.TOP_CARD := by
  interval_cases i <;> simp [tableau_drag_type, origin_foundation, origin_stack]

theorem waste_pickup_click (mx my : Int) (g : Game) (hp : PilesOK g)
    (hn : g.drag_type = DragType.NONE) (hd : g.dragged_cards = []) :
    ClickOK mx my 0 (waste_pickup mx my g) := by
  have h0 : ClickOK mx my 0 g := by
    refine ⟨hp, ⟨fun _ => hd, ?_, ?_, ?_⟩, fun h => absurd hd h, ?_⟩
    · intro h; rw [hn] at h; exact absurd h (by simp)
    · intro h; rw [hn] at h; exact absurd h (by simp [origin_foundation])
    · intro h; rw [hn] at h; exact absurd h (by simp [origin_stack])
    · intro h; rw [hn] at h; exact absurd h (by simp [origin_stack])
  unfold waste_pickup
  cases hl : g.taken.getLast? with
  | none => exact h0
  | some back =>
    simp only
    by_cases hcol : g.top_card_bbox.collision_point mx my = true
    · rw [if_pos hcol]
      refine ⟨piles_ok_congr hp rfl rfl rfl rfl rfl rfl, ⟨?_, ?_, ?_, ?_⟩, ?_, ?_⟩
      · intro h; exact absurd h (by simp)
      · intro _; exact ⟨back, hl, rfl⟩
      · intro h; exact absurd h (by simp [origin_foundation])
      · intro h; exact absurd h (by simp [origin_stack])
      · intro _
        left
        have hne : g.taken ≠ [] := by
          intro h; rw [h] at hl; simp at hl
        have hy := hp.top_card_bbox hne
        simp only [BBox.collision_point, Bool.and_eq_true, decide_eq_true_eq] at hcol
        omega
      · intro h; exact absurd h (by simp [origin_stack])
    · rw [if_neg hcol]
      exact h0

theorem foundation_pickup_click (mx my : Int) (g : Game) (i : Nat) (hi : i < 4)
    (h : ClickOK mx my 0 g) : ClickOK mx my 0 (foundation_pickup mx my g i) := by
  unfold foundation_pickup
  split
  · rename_i hcond
    simp only [Bool.and_eq_true, decide_eq_true_eq] at hcond
    obtain ⟨h1, h2, h3, h4⟩ := foundation_drag_type_spec i hi g.drag_type
    refine ⟨piles_ok_congr h.piles rfl rfl rfl rfl rfl rfl, ⟨?_, ?_, ?_, ?_⟩, ?_, ?_⟩
    · intro hh; exact absurd hh h3
    · intro hh; exact absurd hh h4
    · intro _
      simp only [h1]
      exact ⟨hcond.2, rfl⟩
    · intro hh; exact absurd h2 hh
    · intro _
      left
      have := hcond.1
      simp only [BBox.collision_point, foundation_bboxes, Bool.and_eq_true,
        decide_eq_true_eq] at this
      omega
    · intro hh; exact absurd h2 hh
  · exact h

theorem foldl_range_invariant {α : Type} (P : α → Prop) (f : α → Nat → α) (n : Nat)
    (a : α) (h0 : P a) (hstep : ∀ b i, i < n → P b → P (f b i)) :
    P ((List.range n).foldl f a) := by
  induction n with
  | zero => simpa using h0
  | succ n ih =>
    rw [List.range_succ, List.foldl_append]
    simp only [List.foldl_cons, List.foldl_nil]
    exact hstep _ n (by omega) (ih (fun b i hi hb => hstep b i (by omega) hb))

theorem foldlM_range_invariant {α : Type} (Q : Nat → α → Prop) (f : α → Nat → Option α)
    (n : Nat) (a b : α) (h0 : Q 0 a)
    (hstep : ∀ c d i, i < n → Q i c → f c i = some d → Q (i + 1) d)
    (h : (List.range n).foldlM f a = some b) : Q n b := by
  induction n generalizing b with
  | zero =>
    simp at h
    rw [← h]; exact h0
  | succ n ih =>
    rw [List.range_succ, List.foldlM_append] at h
    cases hm : (List.range n).foldlM f a with
    | none => rw [hm] at h; simp at h
    | some c =>
      rw [hm] at h
      simp only [Option.bind_eq_bind, Option.some_bind, List.foldlM_cons, List.foldlM_nil,
        Option.pure_def, Option.bind_some] at h
      exact hstep c b n (by omega)
        (ih c (fun c d i hi hq hf => hstep c d i (by omega) hq hf) hm) h

theorem flip_top_cards (cards : List DealtCard) (back : DealtCard)
    (h : cards.getLast? = some back) :
    (flip_top cards back).map DealtCard.card = cards.map DealtCard.card := by
  have hc : cards = cards.dropLast ++ [back] :=
    (List.dropLast_append_getLast? back h).symm
  conv_rhs => rw [hc]
  simp [flip_top]

theorem stack_getD (g : Game) (i : Nat) : g.tableau.getD i { cards := [] } = g.stack i := rfl

theorem cards_set_tableau (g : Game) (i : Nat) (c : CardStack) (hi : i < g.tableau.length)
    (hc : c.cards.map DealtCard.card = (g.stack i).cards.map DealtCard.card) :
    ({ g with tableau := g.tableau.set i c } : Game).cards = g.cards := by
  have h := sum_map_set
    (fun cs : CardStack => ((cs.cards.map DealtCard.card : List Card) : Multiset Card))
    g.tableau i c { cards := [] } hi
  simp only [stack_getD, hc] at h
  have h2 := add_right_cancel h
  simp only [Game.cards, h2]

theorem click_ok_weaken {mx my : Int} {n : Nat} {g : Game} (h : ClickOK mx my n g) :
    ClickOK mx my (n + 1) g := by
  refine ⟨h.piles, h.drag, ?_, ?_⟩
  · intro hd
    rcases h.region hd with h1 | h1
    · left; exact h1
    · right; push_cast; omega
  · intro ho
    have := h.origin ho
    omega

theorem tableau_pickup_click (mx my : Int) (g : Game) (i : Nat) (hi : i < 7)
    (h : ClickOK mx my i g) : ClickOK mx my (i + 1) (tableau_pickup mx my g i) := by
  unfold tableau_pickup
  dsimp only
  split
  · rename_i hfound
    obtain ⟨hy, hx1, hx2, _, hlt⟩ := tableau_scan_hit i mx my (g.stack i).cards.length
      (g.stack i).cards 0 _ rfl (le_refl _) hfound
    have hempty : g.dragged_cards = [] := by
      by_contra hne
      rcases h.region hne with h1 | h1 <;> omega
    obtain ⟨h1, h2, h3, h4⟩ := tableau_drag_type_spec i hi g.drag_type
    refine ⟨piles_ok_congr h.piles rfl rfl rfl rfl rfl rfl, ⟨?_, ?_, ?_, ?_⟩, ?_, ?_⟩
    · intro hh; exact absurd hh h3
    · intro hh; exact absurd hh h4
    · intro hh; exact absurd h2 hh
    · intro _
      simp only [h1, hempty, List.nil_append]
      constructor
      · intro h0
        have := congrArg List.length h0
        simp at this
        omega
      · exact List.drop_suffix _ _
    · intro _
      right; push_cast; omega
    · intro _
      simp only [h1]
      omega
  · exact click_ok_weaken h

theorem tableau_interaction_click (mx my : Int) (g g1 : Game) (i : Nat) (hi : i < 7)
    (h : ClickOK mx my i g) (hs : tableau_interaction mx my g i = some g1) :
    ClickOK mx my (i + 1) g1 := by
  unfold tableau_interaction at hs
  split at hs
  · cases hb : (g.stack i).cards.getLast? with
    | none => rw [hb] at hs; simp at hs
    | some back =>
      rw [hb] at hs
      simp only at hs
      split at hs
      · simp only [Option.some.injEq] at hs
        subst hs
        have hlen : i < g.tableau.length := by rw [h.piles.tableau_length]; exact hi
        refine ⟨⟨?_, h.piles.foundations_length, ?_, h.piles.next_nonneg, h.piles.waste,
          h.piles.top_card_bbox⟩, ⟨h.drag.none, h.drag.top_card, h.drag.foundation, ?_⟩,
          ?_, ?_⟩
        · simp only [List.length_set]
          exact h.piles.tableau_length
        · rw [cards_set_tableau g i { cards := flip_top (g.stack i).cards back } hlen
            (flip_top_cards _ _ hb)]
          exact h.piles.cards
        · intro ho
          have hlt := h.origin ho
          have hne : i ≠ origin_stack g.drag_type := by
            simp only at hlt
            omega
          obtain ⟨d1, d2⟩ := h.drag.stack ho
          refine ⟨d1, ?_⟩
          rw [stack_set_ne g i _ _ hne]
          exact d2
        · exact (click_ok_weaken h).region
        · exact (click_ok_weaken h).origin
      · simp only [Option.some.injEq] at hs
        subst hs
        exact tableau_pickup_click mx my g i hi h
  · simp only [Option.some.injEq] at hs
    subst hs
    exact tableau_pickup_click mx my g i hi h

theorem click_invariant (mx my : Int) (g g1 : Game) (hp : PilesOK g)
    (hn : g.drag_type = DragType.NONE) (hd : g.dragged_cards = [])
    (h : click g mx my = some g1) : PilesOK g1 ∧ DragOK g1 := by
  unfold click at h
  dsimp only at h
  have h1 : PilesOK (if g.stock_bbox.collision_point mx my = true then stock_click g else g)
      ∧ (if g.stock_bbox.collision_point mx my = true then stock_click g else g).drag_type
          = DragType.NONE
      ∧ (if g.stock_bbox.collision_point mx my = true then stock_click g else g).dragged_cards
          = [] := by
    split
    · exact ⟨stock_click_piles g hp, by rw [(stock_click_drag g).1]; exact hn,
        by rw [(stock_click_drag g).2.1]; exact hd⟩
    · exact ⟨hp, hn, hd⟩
  have h2 := waste_pickup_click mx my _ h1.1 h1.2.1 h1.2.2
  have h3 := foldl_range_invariant (ClickOK mx my 0) (foundation_pickup mx my) 4 _ h2
    (fun b i hi hb => foundation_pickup_click mx my b i hi hb)
  have h4 := foldlM_range_invariant (fun n => ClickOK mx my n)
    (tableau_interaction mx my) 7 _ g1 h3
    (fun c d i hi hq hf => tableau_interaction_click mx my c d i hi hq hf) h
  exact ⟨h4.piles, h4.drag⟩

theorem foundation_getD (g : Game) (i : Nat) :
    g.foundations.getD i { next := 0, suit := Suit.CLUBS } = g.foundation i := rfl

theorem foundation_set_ne (g : Game) (k j : Nat) (f : Foundation) (h : k ≠ j) :
    ({ g with foundations := g.foundations.set k f } : Game).foundation j = g.foundation j := by
  simp [Game.foundation, List.getD_eq_getElem?_getD, List.getElem?_set_ne h]

theorem foundation_set_eq (g : Game) (k : Nat) (f : Foundation)
    (h : k < g.foundations.length) :
    ({ g with foundations := g.foundations.set k f } : Game).foundation k = f := by
  simp [Game.foundation, List.getD_eq_getElem?_getD, List.getElem?_set_self h]

theorem cards_set_tableau_add (g : Game) (i : Nat) (c : CardStack)
    (hi : i < g.tableau.length) :
    ({ g with tableau := g.tableau.set i c } : Game).cards
        + (((g.stack i).cards.map DealtCard.card : List Card) : Multiset Card)
      = g.cards + ((c.cards.map DealtCard.card : List Card) : Multiset Card) := by
  have h := sum_map_set
    (fun cs : CardStack => ((cs.cards.map DealtCard.card : List Card) : Multiset Card))
    g.tableau i c { cards := [] } hi
  simp only [stack_getD] at h
  simp only [Game.cards]
  calc _ = (g.stock : Multiset Card) + (g.stock_history : Multiset Card)
          + ((List.map (fun cs : CardStack =>
                ((cs.cards.map DealtCard.card : List Card) : Multiset Card))
              (g.tableau.set i c)).sum
            + (((g.stack i).cards.map DealtCard.card : List Card) : Multiset Card))
          + (List.map (fun f : Foundation => ((f.cards : List Card) : Multiset Card))
              g.foundations).sum := by abel
    _ = _ := by rw [h]; abel

theorem cards_set_foundation_add (g : Game) (i : Nat) (f : Foundation)
    (hi : i < g.foundations.length) :
    ({ g with foundations := g.foundations.set i f } : Game).cards
        + (((g.foundation i).cards : List Card) : Multiset Card)
      = g.cards + ((f.cards : List Card) : Multiset Card) := by
  have h := sum_map_set
    (fun f : Foundation => ((f.cards : List Card) : Multiset Card))
    g.foundations i f { next := 0, suit := Suit.CLUBS } hi
  simp only [foundation_getD] at h
  simp only [Game.cards]
  rw [add_assoc, h]
  abel

theorem foundation_add_cards (f : Foundation) (c : Card) (hn : 0 ≤ f.next)
    (h : (f.add c).2 = true) :
    (f.add c).1.cards = f.cards ++ [c] ∧ 0 ≤ (f.add c).1.next := by
  have hc := (add_true_iff f c).mp h
  unfold Foundation.add
  rw [if_pos hc]
  simp only
  refine ⟨?_, by omega⟩
  obtain ⟨ci, cs⟩ := c
  obtain ⟨n, s⟩ := f
  simp only at hc hn
  obtain ⟨h1, h2⟩ := hc
  subst h2
  have ht : (ci + 1).toNat = ci.toNat + 1 := by omega
  simp only [Foundation.cards, ht, List.range_succ, List.map_append, List.map_cons,
    List.map_nil]
  have hci : ((ci.toNat : Nat) : Int) = ci := by omega
  rcases h1 with h1 | h1
  · subst h1
    simp
  · subst h1
    have h0 : ¬ ci = 0 ∨ ci = 0 := by omega
    rcases h0 with h0 | h0
    · simp [h0, hci]
    · subst h0; simp

theorem foundation_dec_cards (f : Foundation) (hn : 0 ≤ f.next) (h0 : f.next ≠ 0) :
    f.cards = ({ f with next := f.next - 1 } : Foundation).cards
      ++ [{ index := f.next - 1, suit := f.suit }] := by
  obtain ⟨n, s⟩ := f
  simp only at hn h0 ⊢
  have ht : n.toNat = (n - 1).toNat + 1 := by omega
  have hci : (((n - 1).toNat : Nat) : Int) = n - 1 := by omega
  simp only [Foundation.cards]
  rw [ht, List.range_succ]
  simp [hci]
  omega

theorem drop_on_foundations_true (g : Game) (mx my : Int)
    (h : (drop_on_foundations g mx my).2 = true) :
    ∃ d, g.dragged_cards = [d] ∧ colliding_foundations g mx my ≠ []
      ∧ ((g.foundation (closest_index (mx - g.drag_offset_x + 35)
            (colliding_foundations g mx my) foundation_distance)).add d.card).2 = true
      ∧ (drop_on_foundations g mx my).1
        = { g with
            foundations := g.foundations.set
              (closest_index (mx - g.drag_offset_x + 35)
                (colliding_foundations g mx my) foundation_distance)
              ((g.foundation (closest_index (mx - g.drag_offset_x + 35)
                (colliding_foundations g mx my) foundation_distance)).add d.card).1 } := by
  unfold drop_on_foundations at h ⊢
  cases hd : g.dragged_cards with
  | nil => rw [hd] at h; simp at h
  | cons d rest =>
    cases rest with
    | cons e rest => rw [hd] at h; simp at h
    | nil =>
      simp only [hd] at h ⊢
      by_cases hc : (!(colliding_foundations g mx my).isEmpty) = true
      · simp only [hc, if_true] at h ⊢
        refine ⟨d, rfl, ?_, h, ?_⟩
        · intro h0; rw [h0] at hc; simp at hc
        · rw [← hd]
      · simp only [hc] at h
        simp at h

theorem drop_on_tableau_true (g g1 : Game) (mx my : Int)
    (h : drop_on_tableau g mx my = some (g1, true)) :
    ∃ back d, colliding_stacks g mx my ≠ []
      ∧ (g.stack (closest_index (mx - g.drag_offset_x + 35)
          (colliding_stacks g mx my) stack_distance)).cards.getLast? = some back
      ∧ g.dragged_cards.head? = some d
      ∧ tableau_condition back false d = true
      ∧ g1 = { g with
          tableau := g.tableau.set
            (closest_index (mx - g.drag_offset_x + 35)
              (colliding_stacks g mx my) stack_distance)
            { cards := (g.stack (closest_index (mx - g.drag_offset_x + 35)
                (colliding_stacks g mx my) stack_distance)).cards
                ++ g.dragged_cards.map (fun c => { card := c.card, face_up := true }) } } := by
  by_cases hc : colliding_stacks g mx my = []
  · simp [drop_on_tableau, hc] at h
  · cases hb : (g.stack (closest_index (mx - g.drag_offset_x + 35)
        (colliding_stacks g mx my) stack_distance)).cards.getLast? with
    | none =>
      rw [List.getLast?_eq_none_iff] at hb
      rw [drop_on_tableau_empty g mx my hc hb] at h
      simp at h
    | some back =>
      cases hd : g.dragged_cards.head? with
      | none =>
        exfalso
        have hne : (!(colliding_stacks g mx my).isEmpty) = true := by
          cases h0 : colliding_stacks g mx my with
          | nil => exact absurd h0 hc
          | cons a l => rfl
        simp only [drop_on_tableau, hne, if_true, hb, hd] at h
        simp at h
      | some d =>
        rw [drop_on_tableau_nonempty g mx my back d hc hb hd] at h
        by_cases hcond : tableau_condition back false d = true
        · rw [if_pos hcond] at h
          simp only [Option.some.injEq, Prod.mk.injEq, and_true] at h
          exact ⟨back, d, hc, rfl, rfl, hcond, h.symm⟩
        · rw [if_neg hcond] at h
          simp at h

theorem drop_accepted_mid (g g1 : Game) (mx my : Int) (hp : PilesOK g) (hd : DragOK g)
    (h : drop g mx my = some (g1, true)) : MidOK g g1 := by
  unfold drop at h
  dsimp only at h
  by_cases hf : (drop_on_foundations g mx my).2 = false
  · simp only [hf, Bool.not_false, if_true] at h
    rw [drop_on_foundations_false g mx my hf] at h
    obtain ⟨back, d, hc, hb, hd0, hcond, rfl⟩ := drop_on_tableau_true g g1 mx my h
    have hk7 := colliding_stacks_lt g mx my _
      (closest_index_mem (mx - g.drag_offset_x + 35) stack_distance _ hc)
    generalize closest_index (mx - g.drag_offset_x + 35)
      (colliding_stacks g mx my) stack_distance = k at hk7 hb ⊢
    have hlen : k < g.tableau.length := by rw [hp.tableau_length]; exact hk7
    refine ⟨rfl, rfl, rfl, rfl, rfl, rfl, ?_, hp.foundations_length, hp.next_nonneg, ?_,
      fun _ => rfl, ?_⟩
    · simp only [List.length_set]; exact hp.tableau_length
    · have := cards_set_tableau_add g k
        { cards := (g.stack k).cards
            ++ g.dragged_cards.map (fun c => { card := c.card, face_up := true }) } hlen
      have e : (DealtCard.card ∘ fun c : DealtCard =>
          ({ card := c.card, face_up := true } : DealtCard)) = DealtCard.card := rfl
      simp only [List.map_append, List.map_map, e, ← Multiset.coe_add] at this
      refine add_right_cancel
        (b := ((List.map DealtCard.card (g.stack k).cards : List Card) : Multiset Card))
        (this.trans ?_)
      abel
    · intro ho
      by_cases hko : k = origin_stack g.drag_type
      · subst hko
        refine ⟨(g.stack (origin_stack g.drag_type)).cards,
          g.dragged_cards.map (fun c => { card := c.card, face_up := true }), ?_, ?_, ?_⟩
        · rw [stack_set_eq g _ _ hlen]
        · simp
        · simp [Function.comp_def]
      · obtain ⟨_, base, hbase⟩ := hd.stack ho
        refine ⟨base, g.dragged_cards, ?_, rfl, rfl⟩
        rw [stack_set_ne g k _ _ hko]
        exact hbase.symm
  · simp only [Bool.not_eq_false] at hf
    simp only [hf, Bool.not_true, Bool.false_eq_true, if_false, Option.some.injEq] at h
    obtain ⟨d, hd1, hc, hadd, hg1⟩ := drop_on_foundations_true g mx my hf
    have hj4 := colliding_foundations_lt g mx my _
      (closest_index_mem (mx - g.drag_offset_x + 35) foundation_distance _ hc)
    have hg : g1 = (drop_on_foundations g mx my).1 := by rw [h]
    rw [hg1] at hg
    generalize closest_index (mx - g.drag_offset_x + 35)
      (colliding_foundations g mx my) foundation_distance = j at hj4 hadd hg
    subst hg
    have hlen : j < g.foundations.length := by rw [hp.foundations_length]; exact hj4
    have hmem : g.foundation j ∈ g.foundations := by
      unfold Game.foundation
      rw [List.getD_eq_getElem _ _ hlen]
      exact List.getElem_mem _
    obtain ⟨hcards, hnn⟩ := foundation_add_cards (g.foundation j) d.card
      (hp.next_nonneg _ hmem) hadd
    refine ⟨rfl, rfl, rfl, rfl, rfl, rfl, hp.tableau_length, ?_, ?_, ?_, ?_, ?_⟩
    · simp only [List.length_set]; exact hp.foundations_length
    · intro f hfm
      rcases List.mem_or_eq_of_mem_set hfm with h1 | h1
      · exact hp.next_nonneg f h1
      · rw [h1]; exact hnn
    · have := cards_set_foundation_add g j ((g.foundation j).add d.card).1 hlen
      rw [hcards, ← Multiset.coe_add] at this
      refine add_right_cancel
        (b := (((g.foundation j).cards : List Card) : Multiset Card)) (this.trans ?_)
      rw [hd1]
      simp only [List.map_cons, List.map_nil]
      abel
    · intro ho
      have hne : j ≠ origin_foundation g.drag_type := by
        intro hjo
        obtain ⟨_, hdr⟩ := hd.foundation ho
        rw [hd1] at hdr
        simp only [List.cons.injEq, and_true] at hdr
        have hi := ((add_true_iff _ _).mp hadd).2
        rw [hjo, hdr] at hi
        simp only at hi
        omega
      exact foundation_set_ne g j _ _ hne
    · intro ho
      obtain ⟨_, base, hbase⟩ := hd.stack ho
      exact ⟨base, g.dragged_cards, hbase.symm, rfl, rfl⟩

theorem drag_type_cases (t : DragType) :
    t = DragType.NONE ∨ t = DragType.TOP_CARD
      ∨ (origin_foundation t ≠ 4 ∧ origin_stack t = 7 ∧ t ≠ DragType.TOP_CARD
          ∧ origin_foundation t < 4)
      ∨ (origin_stack t ≠ 7 ∧ origin_foundation t = 4 ∧ t ≠ DragType.TOP_CARD
          ∧ origin_stack t < 7) := by
  cases t <;> simp [origin_foundation, origin_stack]

theorem waste_top (taken history : List Card) (c : Card)
    (hl : taken.getLast? = some c) (hw : taken.reverse <+: history) :
    ∃ rest, history = c :: rest ∧ taken.dropLast.reverse <+: rest
      ∧ taken = taken.dropLast ++ [c] := by
  have ht : taken = taken.dropLast ++ [c] := (List.dropLast_append_getLast? c hl).symm
  obtain ⟨r, hr⟩ := hw
  rw [ht] at hr
  simp only [List.reverse_append, List.reverse_cons, List.reverse_nil, List.nil_append,
    List.singleton_append, List.cons_append] at hr
  refine ⟨taken.dropLast.reverse ++ r, hr.symm, ⟨r, rfl⟩, ht⟩

/-- The removal from the waste: the state after an accepted drop whose origin
is the waste loses the last card of `taken` and the top of the history. -/
theorem remove_origin_top_card (g1 : Game) (c : Card) (rest : List Card)
    (ht : g1.drag_type = DragType.TOP_CARD) (hl : g1.taken.getLast? = some c)
    (hh : g1.stock_history = c :: rest) :
    remove_origin g1
      = some { g1 with taken := g1.taken.dropLast, stock_history := rest } := by
  have hne : ∃ a l, g1.taken = a :: l := by
    cases hx : g1.taken with
    | nil => rw [hx] at hl; simp at hl
    | cons a l => exact ⟨a, l, rfl⟩
  obtain ⟨a, l, hal⟩ := hne
  have h1 : remove_top_card g1
      = some { g1 with taken := g1.taken.dropLast, stock_history := rest } := by
    unfold remove_top_card
    rw [hal, hh]
  unfold remove_origin
  simp only [ht, if_true, h1, origin_foundation, origin_stack, ne_eq, not_true_eq_false,
    if_false]

theorem cards_pop_history (g1 : Game) (c : Card) (rest taken : List Card)
    (hh : g1.stock_history = c :: rest) :
    ({ g1 with taken := taken, stock_history := rest } : Game).cards
        + ((([c] : List Card)) : Multiset Card) = g1.cards := by
  simp only [Game.cards, hh]
  rw [show (((c :: rest : List Card)) : Multiset Card)
    = (([c] : List Card) : Multiset Card) + ((rest : List Card) : Multiset Card) from rfl]
  abel

theorem remove_origin_piles (g g1 : Game) (hp : PilesOK g) (hd : DragOK g)
    (hm : MidOK g g1) (hn : g.drag_type ≠ DragType.NONE) :
    ∃ g2, remove_origin g1 = some g2 ∧ PilesOK g2 := by
  rcases drag_type_cases g.drag_type with h | h | h | h
  · exact absurd h hn
  · obtain ⟨c, hl, hdc⟩ := hd.top_card h
    obtain ⟨rest, hh, hpre, _⟩ := waste_top g.taken g.stock_history c hl hp.waste
    refine ⟨_, remove_origin_top_card g1 c rest (by rw [hm.drag_type, h])
      (by rw [hm.taken, hl]) (by rw [hm.stock_history, hh]), ?_⟩
    refine ⟨hm.tableau_length, hm.foundations_length, ?_, hm.next_nonneg, ?_, ?_⟩
    · have h1 := hm.cards
      rw [hdc] at h1
      simp only [List.map_cons, List.map_nil] at h1
      rw [← hp.cards]
      exact add_right_cancel
        ((cards_pop_history g1 c rest g1.taken.dropLast
          (by rw [hm.stock_history, hh])).trans h1)
    · simp only [hm.taken]
      exact hpre
    · simp only [hm.taken, hm.top_card_bbox]
      intro hne
      apply hp.top_card_bbox
      intro h0
      rw [h0] at hne
      exact hne rfl
  · obtain ⟨ho, hs, ht, hlt⟩ := h
    obtain ⟨hnext, hdc⟩ := hd.foundation ho
    have hfe := hm.foundation ho
    have hlen : origin_foundation g.drag_type < g.foundations.length := by
      rw [hp.foundations_length]; exact hlt
    have hlen1 : origin_foundation g.drag_type < g1.foundations.length := by
      rw [hm.foundations_length]; exact hlt
    have hmem : g.foundation (origin_foundation g.drag_type) ∈ g.foundations := by
      unfold Game.foundation
      rw [List.getD_eq_getElem _ _ hlen]
      exact List.getElem_mem _
    have hnn := hp.next_nonneg _ hmem
    refine ⟨{ g1 with
        foundations := g1.foundations.set (origin_foundation g.drag_type)
          { g1.foundation (origin_foundation g.drag_type) with
            next := (g1.foundation (origin_foundation g.drag_type)).next - 1 } }, ?_, ?_⟩
    · unfold remove_origin
      simp only [hm.drag_type, ht, if_false, ho, ne_eq, not_false_eq_true, if_true, hs,
        not_true_eq_false]
    · refine ⟨hm.tableau_length, by simp only [List.length_set]; exact hm.foundations_length,
        ?_, ?_, by simp only [hm.taken, hm.stock_history]; exact hp.waste,
        by simp only [hm.taken, hm.top_card_bbox]; exact hp.top_card_bbox⟩
      · have h1 := cards_set_foundation_add g1 (origin_foundation g.drag_type)
          { g1.foundation (origin_foundation g.drag_type) with
            next := (g1.foundation (origin_foundation g.drag_type)).next - 1 } hlen1
        rw [hm.cards, hdc, hfe] at h1
        have h2 := foundation_dec_cards (g.foundation (origin_foundation g.drag_type))
          hnn hnext
        rw [← hp.cards]
        rw [h2, ← Multiset.coe_add] at h1
        simp only [List.map_cons, List.map_nil] at h1
        rw [hfe]
        refine add_right_cancel (h1.trans ?_) (b :=
          (((({ g.foundation (origin_foundation g.drag_type) with
              next := (g.foundation (origin_foundation g.drag_type)).next - 1 }
              : Foundation).cards : List Card) : Multiset Card))
            + ((([{ index := (g.foundation (origin_foundation g.drag_type)).next - 1,
                    suit := (g.foundation (origin_foundation g.drag_type)).suit }]
                : List Card)) : Multiset Card))
        abel
      · intro f hfm
        rcases List.mem_or_eq_of_mem_set hfm with h1 | h1
        · exact hm.next_nonneg f h1
        · rw [h1, hfe]
          simp only
          omega
  · obtain ⟨ho, hf, ht, hlt⟩ := h
    obtain ⟨base, top, hbt, hlen, hmap⟩ := hm.stack ho
    have hlen1 : origin_stack g.drag_type < g1.tableau.length := by
      rw [hm.tableau_length]; exact hlt
    refine ⟨{ g1 with tableau := g1.tableau.set (origin_stack g.drag_type) { cards := base } },
      ?_, ?_⟩
    · unfold remove_origin
      simp only [hm.drag_type, ht, if_false, hf, ne_eq, not_true_eq_false, ho,
        not_false_eq_true, if_true, hm.dragged_cards, hbt, ← hlen, pop_back_n_append]
    · refine ⟨by simp only [List.length_set]; exact hm.tableau_length, hm.foundations_length,
        ?_, hm.next_nonneg, by simp only [hm.taken, hm.stock_history]; exact hp.waste,
        by simp only [hm.taken, hm.top_card_bbox]; exact hp.top_card_bbox⟩
      have h1 := cards_set_tableau_add g1 (origin_stack g.drag_type) { cards := base } hlen1
      rw [hm.cards, hbt, List.map_append, hmap, ← Multiset.coe_add] at h1
      rw [← hp.cards]
      refine add_right_cancel (h1.trans ?_) (b :=
        ((List.map DealtCard.card base : List Card) : Multiset Card)
          + ((List.map DealtCard.card g.dragged_cards : List Card) : Multiset Card))
      abel

theorem drag_ok_of_none (g : Game) (h1 : g.drag_type = DragType.NONE)
    (h2 : g.dragged_cards = []) : DragOK g := by
  refine ⟨fun _ => h2, ?_, ?_, ?_⟩
  · intro h; rw [h1] at h; exact absurd h (by simp)
  · intro h; rw [h1] at h; exact absurd h (by simp [origin_foundation])
  · intro h; rw [h1] at h; exact absurd h (by simp [origin_stack])

/-- Under the invariant a release is defined whenever its drop attempts are,
and it re-establishes the invariant of the piles. -/
theorem release_defined (g g1 : Game) (valid : Bool) (mx my : Int) (hp : PilesOK g)
    (hd : DragOK g) (hn : g.drag_type ≠ DragType.NONE)
    (h : drop g mx my = some (g1, valid)) :
    ∃ g2, release g mx my = some g2 ∧ PilesOK g2
      ∧ g2.drag_type = DragType.NONE ∧ g2.dragged_cards = [] := by
  cases valid with
  | false =>
    have hr : release g mx my
        = some { g with drag_type := DragType.NONE, dragged_cards := [] } := by
      unfold release
      rw [drop_false g mx my (by rw [h]; rfl)]
      rfl
    exact ⟨_, hr, piles_ok_congr hp rfl rfl rfl rfl rfl rfl, rfl, rfl⟩
  | true =>
    have hm := drop_accepted_mid g g1 mx my hp hd h
    obtain ⟨g2, hr, hp2⟩ := remove_origin_piles g g1 hp hd hm hn
    refine ⟨{ g2 with drag_type := DragType.NONE, dragged_cards := [] }, ?_,
      piles_ok_congr hp2 rfl rfl rfl rfl rfl rfl, rfl, rfl⟩
    unfold release
    rw [h]
    simp only [if_true, hr]

theorem release_piles (g g2 : Game) (mx my : Int) (hp : PilesOK g) (hd : DragOK g)
    (hn : g.drag_type ≠ DragType.NONE) (h : release g mx my = some g2) :
    PilesOK g2 ∧ g2.drag_type = DragType.NONE ∧ g2.dragged_cards = [] := by
  cases hdrop : drop g mx my with
  | none => unfold release at h; rw [hdrop] at h; simp at h
  | some r =>
    obtain ⟨g1, valid⟩ := r
    obtain ⟨g3, hr, h3⟩ := release_defined g g1 valid mx my hp hd hn hdrop
    rw [hr] at h
    simp only [Option.some.injEq] at h
    rw [← h]
    exact h3

theorem draw_piles (g : Game) :
    (draw g).stock = g.stock ∧ (draw g).taken = g.taken
      ∧ (draw g).stock_history = g.stock_history ∧ (draw g).tableau = g.tableau
      ∧ (draw g).foundations = g.foundations ∧ (draw g).top_card_bbox = g.top_card_bbox
      ∧ (draw g).drag_type = g.drag_type ∧ (draw g).dragged_cards = g.dragged_cards := by
  unfold draw
  split <;> exact ⟨rfl, rfl, rfl, rfl, rfl, rfl, rfl, rfl⟩

theorem drag_ok_congr {g g1 : Game} (h : DragOK g)
    (h2 : g1.taken = g.taken) (h4 : g1.tableau = g.tableau)
    (h5 : g1.foundations = g.foundations) (h6 : g1.drag_type = g.drag_type)
    (h7 : g1.dragged_cards = g.dragged_cards) : DragOK g1 := by
  have hs : ∀ i, g1.stack i = g.stack i := fun i => by unfold Game.stack; rw [h4]
  have hf : ∀ i, g1.foundation i = g.foundation i := fun i => by
    unfold Game.foundation; rw [h5]
  refine ⟨?_, ?_, ?_, ?_⟩
  · rw [h6, h7]; exact h.none
  · rw [h6, h7, h2]; exact h.top_card
  · rw [h6, h7, hf]; exact h.foundation
  · rw [h6, h7, hs]; exact h.stack

theorem frame_invariant (g g1 : Game) (w : Wrapper) (x y : Int) (lmb : Bool)
    (hi : Invariant g w) (h : frame g w = some g1) : Invariant g1 (w.update x y lmb) := by
  unfold frame at h
  have hclick : ∀ g2, (if w.mouse_clicked = true then click g w.mouse_x w.mouse_y
      else some g) = some g2 → PilesOK g2 ∧ DragOK g2 := by
    intro g2 h2
    by_cases hc : w.mouse_clicked = true
    · rw [if_pos hc] at h2
      simp only [Wrapper.mouse_clicked, Bool.and_eq_true, Bool.not_eq_true'] at hc
      have hn : g.drag_type = DragType.NONE := by
        by_contra hne
        have := hi.button hne
        rw [hc.2] at this
        exact absurd this (by simp)
      exact click_invariant w.mouse_x w.mouse_y g g2 hi.piles hn (hi.drag.none hn) h2
    · rw [if_neg hc] at h2
      simp only [Option.some.injEq] at h2
      subst h2
      exact ⟨hi.piles, hi.drag⟩
  cases hc : (if w.mouse_clicked = true then click g w.mouse_x w.mouse_y else some g) with
  | none => rw [hc] at h; simp at h
  | some g2 =>
    rw [hc] at h
    simp only at h
    obtain ⟨hp2, hd2⟩ := hclick g2 hc
    have hrel : ∀ g3, (if g2.drag_type ≠ DragType.NONE ∧ w.mouse_down = false
        then release g2 w.mouse_x w.mouse_y else some g2) = some g3 →
        PilesOK g3 ∧ DragOK g3 ∧ (g3.drag_type ≠ DragType.NONE → w.lmb_state = true) := by
      intro g3 h3
      by_cases hr : g2.drag_type ≠ DragType.NONE ∧ w.mouse_down = false
      · rw [if_pos hr] at h3
        obtain ⟨p, d1, d2⟩ := release_piles g2 g3 w.mouse_x w.mouse_y hp2 hd2 hr.1 h3
        exact ⟨p, drag_ok_of_none g3 d1 d2, fun hne => absurd d1 hne⟩
      · rw [if_neg hr] at h3
        simp only [Option.some.injEq] at h3
        subst h3
        refine ⟨hp2, hd2, fun hne => ?_⟩
        by_contra hcon
        apply hr
        refine ⟨hne, ?_⟩
        simpa [Wrapper.mouse_down] using hcon
    cases hr : (if g2.drag_type ≠ DragType.NONE ∧ w.mouse_down = false
        then release g2 w.mouse_x w.mouse_y else some g2) with
    | none => rw [hr] at h; simp at h
    | some g3 =>
      rw [hr] at h
      simp only [Option.some.injEq] at h
      obtain ⟨hp3, hd3, hb3⟩ := hrel g3 hr
      obtain ⟨e1, e2, e3, e4, e5, e6, e7, e8⟩ := draw_piles g3
      have hpd : PilesOK (draw g3) := piles_ok_congr hp3 e1 e2 e3 e4 e5 e6
      have hdd : DragOK (draw g3) := drag_ok_congr hd3 e2 e4 e5 e7 e8
      subst h
      split
      · exact ⟨piles_ok_congr hpd rfl rfl rfl rfl rfl rfl, drag_ok_congr hdd rfl rfl rfl rfl rfl,
          fun hne => hb3 (by rw [← e7]; exact hne)⟩
      · exact ⟨hpd, hdd, fun hne => hb3 (by rw [← e7]; exact hne)⟩

theorem reachable_invariant (g : Game) (w : Wrapper) (h : Reachable g w) :
    Invariant g w := by
  induction h with
  | start deck_vector x1 y1 b g x y lmb hp hg =>
    obtain ⟨p, d, n⟩ := new_game_piles deck_vector x1 y1 b g hp hg
    exact ⟨p, d, fun hne => absurd n hne⟩
  | step g g1 w x y lmb _ _ hf ih => exact frame_invariant g g1 w x y lmb ih hf

theorem card_sum_tableau (l : List CardStack) :
    ((Multiset.card (l.map (fun cs : CardStack =>
        ((cs.cards.map DealtCard.card : List Card) : Multiset Card))).sum : Nat) : Int)
      = (l.map (fun cs => (cs.cards.length : Int))).sum := by
  induction l with
  | nil => simp
  | cons a l ih =>
    simp only [List.map_cons, List.sum_cons, Multiset.card_add, Nat.cast_add, ih]
    simp

theorem card_sum_foundations (l : List Foundation) (h : ∀ f ∈ l, 0 ≤ f.next) :
    ((Multiset.card (l.map (fun f : Foundation =>
        ((f.cards : List Card) : Multiset Card))).sum : Nat) : Int)
      = (l.map Foundation.next).sum := by
  induction l with
  | nil => simp
  | cons a l ih =>
    have h1 := h a (List.mem_cons_self _ _)
    simp only [List.map_cons, List.sum_cons, Multiset.card_add, Nat.cast_add,
      ih (fun f hf => h f (List.mem_cons_of_mem _ hf))]
    have hl : a.cards.length = a.next.toNat := by simp [Foundation.cards]
    rw [Multiset.coe_card, hl]
    omega

theorem card_count_eq (g : Game) (h : ∀ f ∈ g.foundations, 0 ≤ f.next) :
    g.card_count = ((Multiset.card g.cards : Nat) : Int) := by
  simp only [Game.card_count, Game.cards, Multiset.card_add, Nat.cast_add,
    card_sum_tableau, card_sum_foundations g.foundations h, Multiset.coe_card]

theorem build_deck_nodup : build_deck.Nodup := by decide

theorem history_nodup (g : Game) (h : PilesOK g) : g.stock_history.Nodup := by
  have hn : (g.cards).Nodup := by
    rw [h.cards]
    exact Multiset.coe_nodup.mpr build_deck_nodup
  have hle : ((g.stock_history : List Card) : Multiset Card) ≤ g.cards := by
    unfold Game.cards
    rw [add_assoc, add_assoc, add_comm, add_assoc]
    exact Multiset.le_add_right _ _
  exact Multiset.coe_nodup.mp (Multiset.nodup_of_le hle hn)

theorem arranged_deck_perm : arranged_deck.Perm build_deck := by decide

theorem arranged_start_eq :
    new_game arranged_deck 15 15 { x1 := 0, y1 := 0, x2 := 0, y2 := 0 }
      = some arranged_start := by decide

theorem arranged_start_reachable (x y : Int) (lmb : Bool) :
    Reachable arranged_start (Wrapper.initial x y lmb) :=
  Reachable.start arranged_deck 15 15 { x1 := 0, y1 := 0, x2 := 0, y2 := 0 }
    arranged_start x y lmb arranged_deck_perm arranged_start_eq

theorem arranged_frame_one :
    frame arranged_start (Wrapper.initial 50 50 true) = some arranged_waste := by decide

theorem arranged_frame_two :
    frame arranged_waste ((Wrapper.initial 50 50 true).update 140 50 false)
      = some arranged_waste := by decide

theorem arranged_frame_three :
    frame arranged_waste
        (((Wrapper.initial 50 50 true).update 140 50 false).update 140 50 true)
      = some arranged_drag := by decide

theorem arranged_drag_reachable :
    Reachable arranged_drag
      ((((Wrapper.initial 50 50 true).update 140 50 false).update 140 50 true).update
        196 171 false) :=
  Reachable.step _ _ _ 196 171 false
    (Reachable.step _ _ _ 140 50 true
      (Reachable.step _ _ _ 140 50 false (arranged_start_reachable 50 50 true) rfl
        arranged_frame_one)
      rfl arranged_frame_two)
    rfl arranged_frame_three

theorem kings_deck_perm : kings_deck.Perm build_deck := by decide

theorem kings_start_eq :
    new_game kings_deck 15 15 { x1 := 0, y1 := 0, x2 := 0, y2 := 0 }
      = some kings_start := by decide

theorem kings_frame_one :
    frame kings_start (Wrapper.initial 50 150 true) = some kings_ace_drag := by decide

theorem kings_frame_two :
    frame kings_ace_drag ((Wrapper.initial 50 150 true).update 308 39 false)
      = some kings_ace_home := by decide

theorem kings_frame_three :
    frame kings_ace_home
        (((Wrapper.initial 50 150 true).update 308 39 false).update 136 150 true)
      = some kings_king_drag := by decide

theorem kings_king_drag_reachable : Reachable kings_king_drag kings_mouse :=
  Reachable.step _ _ _ 50 147 false
    (Reachable.step _ _ _ 136 150 true
      (Reachable.step _ _ _ 308 39 false
        (Reachable.start kings_deck 15 15 { x1 := 0, y1 := 0, x2 := 0, y2 := 0 }
          kings_start 50 150 true kings_deck_perm kings_start_eq)
        rfl kings_frame_one)
      rfl kings_frame_two)
    rfl kings_frame_three

theorem stock_click_won (g : Game) : (stock_click g).won = g.won := by
  by_cases hs : g.stock = []
  · rw [stock_click_of_empty g hs]
  · rw [stock_click_of_nonempty g hs]

theorem waste_pickup_won (mx my : Int) (g : Game) : (waste_pickup mx my g).won = g.won := by
  unfold waste_pickup
  split
  · rfl
  · split <;> rfl

theorem foundation_pickup_won (mx my : Int) (g : Game) (i : Nat) :
    (foundation_pickup mx my g i).won = g.won := by
  unfold foundation_pickup
  split <;> rfl

theorem tableau_pickup_won (mx my : Int) (g : Game) (i : Nat) :
    (tableau_pickup mx my g i).won = g.won := by
  unfold tableau_pickup
  dsimp only
  split <;> rfl

theorem tableau_interaction_won (mx my : Int) (g g1 : Game) (i : Nat)
    (h : tableau_interaction mx my g i = some g1) : g1.won = g.won := by
  unfold tableau_interaction at h
  split at h
  · split at h
    · simp at h
    · split at h
      · simp only [Option.some.injEq] at h
        rw [← h]
      · simp only [Option.some.injEq] at h
        rw [← h]
        exact tableau_pickup_won mx my g i
  · simp only [Option.some.injEq] at h
    rw [← h]
    exact tableau_pickup_won mx my g i

theorem click_won (g g1 : Game) (mx my : Int) (h : click g mx my = some g1) :
    g1.won = g.won := by
  unfold click at h
  dsimp only at h
  have h1 : (if g.stock_bbox.collision_point mx my = true then stock_click g else g).won
      = g.won := by
    split
    · exact stock_click_won g
    · rfl
  have h2 := waste_pickup_won mx my
    (if g.stock_bbox.collision_point mx my = true then stock_click g else g)
  have h3 := foldl_range_invariant (fun b : Game => b.won = g.won)
    (foundation_pickup mx my) 4 _ (h2.trans h1)
    (fun b i _ hb => (foundation_pickup_won mx my b i).trans hb)
  exact foldlM_range_invariant (fun _ (b : Game) => b.won = g.won)
    (tableau_interaction mx my) 7 _ g1 h3
    (fun c d i _ hq hf => (tableau_interaction_won mx my c d i hf).trans hq) h

theorem drop_won (g g1 : Game) (valid : Bool) (mx my : Int)
    (h : drop g mx my = some (g1, valid)) : g1.won = g.won := by
  cases valid with
  | false =>
    have := drop_false g mx my (by rw [h]; rfl)
    rw [h] at this
    simp only [Option.some.injEq, Prod.mk.injEq, and_true] at this
    rw [this]
  | true =>
    unfold drop at h
    dsimp only at h
    by_cases hf : (drop_on_foundations g mx my).2 = false
    · simp only [hf, Bool.not_false, if_true] at h
      rw [drop_on_foundations_false g mx my hf] at h
      obtain ⟨_, _, _, _, _, _, rfl⟩ := drop_on_tableau_true g g1 mx my h
      rfl
    · simp only [Bool.not_eq_false] at hf
      simp only [hf, Bool.not_true, Bool.false_eq_true, if_false, Option.some.injEq] at h
      obtain ⟨_, _, _, _, hg1⟩ := drop_on_foundations_true g mx my hf
      have hg : g1 = (drop_on_foundations g mx my).1 := by rw [h]
      rw [hg, hg1]

theorem remove_origin_won (g g1 : Game) (h : remove_origin g = some g1) : g1.won = g.won := by
  unfold remove_origin at h
  have h0 : ∀ g0, (if g.drag_type = DragType.TOP_CARD then remove_top_card g else some g)
      = some g0 → g0.won = g.won := by
    intro g0 h0
    split at h0
    · unfold remove_top_card at h0
      split at h0
      · simp only [Option.some.injEq] at h0
        rw [← h0]
      · simp at h0
    · simp only [Option.some.injEq] at h0
      rw [← h0]
  cases hc : (if g.drag_type = DragType.TOP_CARD then remove_top_card g else some g) with
  | none => rw [hc] at h; simp at h
  | some g0 =>
    rw [hc] at h
    have hw := h0 g0 hc
    dsimp only at h
    split at h
    · split at h
      · simp at h
      · simp only [Option.some.injEq] at h
        rw [← h]
        simp only
        split <;> exact hw
    · simp only [Option.some.injEq] at h
      rw [← h]
      split <;> exact hw

theorem release_won (g g1 : Game) (mx my : Int) (h : release g mx my = some g1) :
    g1.won = g.won := by
  unfold release at h
  cases hd : drop g mx my with
  | none => rw [hd] at h; simp at h
  | some r =>
    obtain ⟨g2, valid⟩ := r
    rw [hd] at h
    have h2 := drop_won g g2 valid mx my hd
    dsimp only at h
    cases valid with
    | false =>
      simp only [Bool.false_eq_true, if_false, Option.some.injEq] at h
      rw [← h]
      exact h2
    | true =>
      simp only [if_true] at h
      cases hr : remove_origin g2 with
      | none => rw [hr] at h; simp at h
      | some g3 =>
        rw [hr] at h
        simp only [Option.some.injEq] at h
        rw [← h]
        exact (remove_origin_won g2 g3 hr).trans h2

/-- The flag `won` after a frame: it is set exactly when the win check
succeeds on the foundations the frame leaves. -/
theorem frame_won (g g1 : Game) (w : Wrapper) (h : frame g w = some g1) :
    g1.won = (g.won || just_won g1.foundations) := by
  unfold frame at h
  cases hc : (if w.mouse_clicked = true then click g w.mouse_x w.mouse_y else some g) with
  | none => rw [hc] at h; simp at h
  | some g2 =>
    rw [hc] at h
    simp only at h
    have h2 : g2.won = g.won := by
      split at hc
      · exact click_won g g2 _ _ hc
      · simp only [Option.some.injEq] at hc
        rw [← hc]
    cases hr : (if g2.drag_type ≠ DragType.NONE ∧ w.mouse_down = false
        then release g2 w.mouse_x w.mouse_y else some g2) with
    | none => rw [hr] at h; simp at h
    | some g3 =>
      rw [hr] at h
      simp only [Option.some.injEq] at h
      have h3 : g3.won = g.won := by
        split at hr
        · exact (release_won g2 g3 _ _ hr).trans h2
        · simp only [Option.some.injEq] at hr
          rw [← hr]
          exact h2
      have hdw : (draw g3).won = g.won := by
        unfold draw
        split <;> exact h3
      rw [← h]
      by_cases hj : just_won (draw g3).foundations = true
      · simp [hj]
      · simp only [Bool.not_eq_true] at hj
        simp [hj, hdw]

theorem add_true_fst (f : Foundation) (card : Card) (h : (f.add card).2 = true) :
    (f.add card).1
      = { next := f.next + 1, suit := if f.next = 0 then card.suit else f.suit } := by
  have hc := (add_true_iff f card).mp h
  unfold Foundation.add
  rw [if_pos hc]

theorem add_cards_cards (cards : List Card) :
    ∀ f : Foundation, 0 ≤ f.next →
      (add_cards f cards).1.cards = f.cards ++ (add_cards f cards).2
        ∧ 0 ≤ (add_cards f cards).1.next := by
  induction cards with
  | nil => intro f h; simp [add_cards, h]
  | cons c rest ih =>
    intro f h
    by_cases hacc : (f.add c).2 = true
    · obtain ⟨h1, h2⟩ := foundation_add_cards f c h hacc
      obtain ⟨h3, h4⟩ := ih (f.add c).1 h2
      simp only [add_cards, hacc, if_true]
      rw [h3, h1]
      exact ⟨by simp, h4⟩
    · simp only [Bool.not_eq_true] at hacc
      have h1 := add_false_fst f c hacc
      obtain ⟨h3, h4⟩ := ih (f.add c).1 (by rw [h1]; exact h)
      simp only [add_cards, hacc, Bool.false_eq_true, if_false]
      rw [h3, h1]
      exact ⟨rfl, by rw [h1] at h4; exact h4⟩

theorem foundation_cards_length (f : Foundation) : f.cards.length = f.next.toNat := by
  simp [Foundation.cards]

theorem foundation_cards_get (f : Foundation) (k : Nat) (h : k < f.cards.length) :
    f.cards[k]? = some { index := (k : Int), suit := f.suit } := by
  have h2 : k < f.next.toNat := by rwa [foundation_cards_length] at h
  simp [Foundation.cards, h2]

--THMS
theorem closest_foldl_first_min (x : Int) (f : Int → Nat → Int) (l : List Nat) :
    ∀ st : Closest, st.checked_any = true → st.closest_distance = f x st.closest →
      (l.foldl (closest_step x f) st).closest_distance
          = f x (l.foldl (closest_step x f) st).closest
        ∧ f x (l.foldl (closest_step x f) st).closest ≤ f x st.closest
        ∧ (∀ i ∈ l, f x (l.foldl (closest_step x f) st).closest ≤ f x i)
        ∧ ((l.foldl (closest_step x f) st).closest = st.closest
            ∨ ∃ pre post, l = pre ++ (l.foldl (closest_step x f) st).closest :: post
                ∧ (∀ i ∈ pre, f x (l.foldl (closest_step x f) st).closest < f x i)
                ∧ f x (l.foldl (closest_step x f) st).closest < f x st.closest) := by
  induction l with
  | nil =>
    intro st _ hd
    exact ⟨hd, le_refl _, by simp, Or.inl rfl⟩
  | cons a l ih =>
    intro st hc hd
    simp only [List.foldl_cons]
    by_cases hlt : f x a < st.closest_distance
    · have hs : closest_step x f st a
          = { closest := a, closest_distance := f x a, checked_any := true } := by
        simp [closest_step, hlt]
      rw [hs]
      obtain ⟨h1, h2, h3, h4⟩ := ih
        { closest := a, closest_distance := f x a, checked_any := true } rfl rfl
      simp only at h2 h4
      rw [hd] at hlt
      refine ⟨h1, by omega, ?_, Or.inr ?_⟩
      · intro i hi
        rcases List.mem_cons.mp hi with rfl | hi
        · exact h2
        · exact h3 i hi
      · rcases h4 with h4 | ⟨pre, post, h5, h6, h7⟩
        · refine ⟨[], l, ?_, by simp, ?_⟩
          · rw [h4]; rfl
          · rw [h4]; exact hlt
        · refine ⟨a :: pre, post, ?_, ?_, by omega⟩
          · rw [List.cons_append, ← h5]
          · intro i hi
            rcases List.mem_cons.mp hi with rfl | hi
            · exact h7
            · exact h6 i hi
    · have hs : closest_step x f st a = st := by
        simp [closest_step, hlt, hc]
      rw [hs]
      obtain ⟨h1, h2, h3, h4⟩ := ih st hc hd
      rw [hd] at hlt
      refine ⟨h1, h2, ?_, ?_⟩
      · intro i hi
        rcases List.mem_cons.mp hi with rfl | hi
        · omega
        · exact h3 i hi
      · rcases h4 with h4 | ⟨pre, post, h5, h6, h7⟩
        · exact Or.inl h4
        · refine Or.inr ⟨a :: pre, post, ?_, ?_, h7⟩
          · rw [List.cons_append, ← h5]
          · intro i hi
            rcases List.mem_cons.mp hi with rfl | hi
            · omega
            · exact h6 i hi

/-- The index returned by `closest_index` on a non-empty list splits the
list: strictly larger distances before it, no smaller distance after it. -/
theorem closest_index_split (x : Int) (f : Int → Nat → Int) (l : List Nat) (h : l ≠ []) :
    ∃ pre post, l = pre ++ closest_index x l f :: post
      ∧ (∀ i ∈ pre, f x (closest_index x l f) < f x i)
      ∧ (∀ i ∈ post, f x (closest_index x l f) ≤ f x i) := by
  cases l with
  | nil => exact absurd rfl h
  | cons a l =>
    have hs : closest_step x f { closest := 0, closest_distance := 0, checked_any := false } a
        = { closest := a, closest_distance := f x a, checked_any := true } := by
      simp [closest_step]
    unfold closest_index
    simp only [List.foldl_cons, hs]
    obtain ⟨_, h2, h3, h4⟩ := closest_foldl_first_min x f l
      { closest := a, closest_distance := f x a, checked_any := true } rfl rfl
    simp only at h2 h4
    rcases h4 with h4 | ⟨pre, post, h5, h6, h7⟩
    · refine ⟨[], l, ?_, by simp, ?_⟩
      · rw [h4]; rfl
      · rw [h4] at h3 ⊢; exact h3
    · refine ⟨a :: pre, post, ?_, ?_, ?_⟩
      · rw [List.cons_append, ← h5]
      · intro i hi
        rcases List.mem_cons.mp hi with rfl | hi
        · exact h7
        · exact h6 i hi
      · intro i hi
        apply h3
        rw [h5]
        exact List.mem_append_right _ (List.mem_cons_of_mem _ hi)

--THMS
theorem build_deck_complete (c : Card) (h0 : 0 ≤ c.index) (h1 : c.index ≤ 12) :
    c ∈ build_deck := by
  obtain ⟨i, s⟩ := c
  simp only at h0 h1
  interval_cases i <;> cases s <;> decide

--THMS
theorem mem_list_sum {α : Type} (l : List (Multiset α)) (s : Multiset α) (a : α)
    (hs : s ∈ l) (ha : a ∈ s) : a ∈ l.sum := by
  induction l with
  | nil => simp at hs
  | cons t l ih =>
    rw [List.sum_cons, Multiset.mem_add]
    rcases List.mem_cons.mp hs with rfl | hs
    · exact Or.inl ha
    · exact Or.inr (ih hs)

theorem mem_cards_of_foundation (g : Game) (f : Foundation) (c : Card)
    (hf : f ∈ g.foundations) (hc : c ∈ f.cards) : c ∈ g.cards := by
  unfold Game.cards
  rw [Multiset.mem_add]
  right
  exact mem_list_sum _ ((f.cards : List Card) : Multiset Card) c
    (List.mem_map.mpr ⟨f, hf, rfl⟩) (by simpa using hc)

theorem foundation_mem (g : Game) (i : Nat) (h : i < g.foundations.length) :
    g.foundation i ∈ g.foundations := by
  unfold Game.foundation
  rw [List.getD_eq_getElem _ _ h]
  exact List.getElem_mem _

theorem foundation_top_mem (f : Foundation) (h0 : 0 ≤ f.next) (h1 : f.next ≠ 0) :
    ({ index := f.next - 1, suit := f.suit } : Card) ∈ f.cards
      ∧ ({ index := 0, suit := f.suit } : Card) ∈ f.cards := by
  simp only [Foundation.cards, List.mem_map, List.mem_range]
  refine ⟨⟨(f.next - 1).toNat, by omega, ?_⟩, ⟨0, by omega, by simp⟩⟩
  have : (((f.next - 1).toNat : Nat) : Int) = f.next - 1 := by omega
  rw [this]

/-- In a state that satisfies the invariant of the piles every foundation has
`next` between 0 and 13. -/
theorem foundation_next_range (g : Game) (hp : PilesOK g) (i : Nat) (hi : i < 4) :
    0 ≤ (g.foundation i).next ∧ (g.foundation i).next ≤ 13 := by
  have hm := foundation_mem g i (by rw [hp.foundations_length]; exact hi)
  have h0 := hp.next_nonneg _ hm
  refine ⟨h0, ?_⟩
  by_cases h1 : (g.foundation i).next = 0
  · omega
  · have hc := mem_cards_of_foundation g _ _ hm (foundation_top_mem _ h0 h1).1
    rw [hp.cards] at hc
    have := (build_deck_index _ (by simpa using hc)).2
    simp only at this
    omega

theorem click_effect_refl (g : Game) : ClickEffect 0 g g :=
  ⟨rfl, rfl, rfl, rfl, rfl, rfl, rfl, fun _ _ => rfl, fun i hi => absurd hi (by omega)⟩

theorem click_effect_of_eq {n : Nat} {g g1 g2 : Game} (h : ClickEffect n g g1)
    (h1 : g2.stock = g1.stock) (h2 : g2.taken = g1.taken)
    (h3 : g2.stock_history = g1.stock_history) (h4 : g2.tableau = g1.tableau)
    (h5 : g2.foundations = g1.foundations) (h6 : g2.stock_bbox = g1.stock_bbox)
    (h7 : g2.top_card_bbox = g1.top_card_bbox) : ClickEffect n g g2 := by
  have hs : ∀ i, g2.stack i = g1.stack i := fun i => by unfold Game.stack; rw [h4]
  refine ⟨h1.trans h.stock, h2.trans h.taken, h3.trans h.stock_history,
    h5.trans h.foundations, h6.trans h.stock_bbox, h7.trans h.top_card_bbox,
    by rw [h4]; exact h.tableau_length, fun i hi => by rw [hs]; exact h.later i hi,
    fun i hi => by rw [hs]; exact h.earlier i hi⟩

theorem waste_pickup_effect (mx my : Int) (g g1 : Game) (h : ClickEffect 0 g g1) :
    ClickEffect 0 g (waste_pickup mx my g1) := by
  unfold waste_pickup
  split
  · exact h
  · split
    · exact click_effect_of_eq h rfl rfl rfl rfl rfl rfl rfl
    · exact h

theorem foundation_pickup_effect (mx my : Int) (g g1 : Game) (i : Nat)
    (h : ClickEffect 0 g g1) : ClickEffect 0 g (foundation_pickup mx my g1 i) := by
  unfold foundation_pickup
  split
  · exact click_effect_of_eq h rfl rfl rfl rfl rfl rfl rfl
  · exact h

theorem click_effect_next {n : Nat} {g g1 : Game} (h : ClickEffect n g g1) :
    ClickEffect (n + 1) g g1 := by
  refine ⟨h.stock, h.taken, h.stock_history, h.foundations, h.stock_bbox, h.top_card_bbox,
    h.tableau_length, fun i hi => h.later i (by omega), fun i hi => ?_⟩
  by_cases hn : i < n
  · exact h.earlier i hn
  · exact Or.inl (h.later i (by omega))

theorem tableau_pickup_effect (mx my : Int) (g g1 : Game) (i : Nat)
    (h : ClickEffect i g g1) : ClickEffect (i + 1) g (tableau_pickup mx my g1 i) := by
  unfold tableau_pickup
  dsimp only
  split
  · exact click_effect_of_eq (click_effect_next h) rfl rfl rfl rfl rfl rfl rfl
  · exact click_effect_next h

theorem stack_set_out (g : Game) (k : Nat) (c : CardStack) (h : g.tableau.length ≤ k) :
    ({ g with tableau := g.tableau.set k c } : Game).stack k = g.stack k := by
  have h2 : (g.tableau.set k c).length ≤ k := by simpa using h
  simp [Game.stack, List.getD_eq_getElem?_getD, List.getElem?_eq_none h,
    List.getElem?_eq_none h2]

theorem tableau_interaction_effect (mx my : Int) (g g1 g2 : Game) (i : Nat)
    (h : ClickEffect i g g1) (hs : tableau_interaction mx my g1 i = some g2) :
    ClickEffect (i + 1) g g2 := by
  unfold tableau_interaction at hs
  split at hs
  · cases hb : (g1.stack i).cards.getLast? with
    | none => rw [hb] at hs; simp at hs
    | some back =>
      rw [hb] at hs
      simp only at hs
      split at hs
      · rename_i hdown
        simp only [Option.some.injEq] at hs
        subst hs
        refine ⟨h.stock, h.taken, h.stock_history, h.foundations, h.stock_bbox,
          h.top_card_bbox, by simp only [List.length_set]; exact h.tableau_length,
          fun k hk => ?_, fun k hk => ?_⟩
        · rw [stack_set_ne g1 i k _ (by omega)]
          exact h.later k (by omega)
        · by_cases hki : k = i
          · subst hki
            by_cases hlen : k < g1.tableau.length
            · right
              rw [stack_set_eq g1 k _ hlen, ← h.later k (le_refl _)]
              refine ⟨(g1.stack k).cards.dropLast, back,
                (List.dropLast_append_getLast? back hb).symm, ?_, rfl⟩
              simpa using hdown
            · left
              rw [stack_set_out g1 k _ (by omega)]
              exact h.later k (le_refl _)
          · rw [stack_set_ne g1 i k _ (fun e => hki e.symm)]
            exact h.earlier k (by omega)
      · simp only [Option.some.injEq] at hs
        subst hs
        exact tableau_pickup_effect mx my g g1 i h
  · simp only [Option.some.injEq] at hs
    subst hs
    exact tableau_pickup_effect mx my g g1 i h

/-- The effect of a click on the piles: the stock click, if the stock was hit,
and then nothing but turned top cards in the tableau. -/
theorem click_effect (g g1 : Game) (mx my : Int) (h : click g mx my = some g1) :
    ClickEffect 7 (if g.stock_bbox.collision_point mx my = true then stock_click g else g)
      g1 := by
  unfold click at h
  dsimp only at h
  have h2 := waste_pickup_effect mx my _ _
    (click_effect_refl
      (if g.stock_bbox.collision_point mx my = true then stock_click g else g))
  have h3 := foldl_range_invariant
    (ClickEffect 0 (if g.stock_bbox.collision_point mx my = true then stock_click g else g))
    (foundation_pickup mx my) 4 _ h2
    (fun b i _ hb => foundation_pickup_effect mx my _ b i hb)
  exact foldlM_range_invariant
    (fun n => ClickEffect n
      (if g.stock_bbox.collision_point mx my = true then stock_click g else g))
    (tableau_interaction mx my) 7 _ g1 h3
    (fun c d i _ hq hf => tableau_interaction_effect mx my _ c d i hq hf) h

--THMS
/-- The three outcomes of the two drop attempts of a release. -/
theorem drop_cases (g g2 : Game) (valid : Bool) (mx my : Int)
    (h : drop g mx my = some (g2, valid)) :
    (valid = false ∧ g2 = g)
      ∨ (valid = true ∧ ∃ d j, g.dragged_cards = [d] ∧ j < 4
          ∧ ((g.foundation j).add d.card).2 = true
          ∧ g2 = { g with
              foundations := g.foundations.set j ((g.foundation j).add d.card).1 })
      ∨ (valid = true ∧ ∃ back d k, k < 7
          ∧ (g.stack k).cards.getLast? = some back
          ∧ g.dragged_cards.head? = some d
          ∧ tableau_condition back false d = true
          ∧ g2 = { g with
              tableau := g.tableau.set k
                { cards := (g.stack k).cards
                    ++ g.dragged_cards.map (fun c => { card := c.card, face_up := true }) } }) := by
  cases valid with
  | false =>
    left
    have := drop_false g mx my (by rw [h]; rfl)
    rw [h] at this
    simp only [Option.some.injEq, Prod.mk.injEq, and_true] at this
    exact ⟨rfl, this⟩
  | true =>
    right
    unfold drop at h
    dsimp only at h
    by_cases hf : (drop_on_foundations g mx my).2 = false
    · right
      simp only [hf, Bool.not_false, if_true] at h
      rw [drop_on_foundations_false g mx my hf] at h
      obtain ⟨back, d, hc, hb, hd, hcond, hg⟩ := drop_on_tableau_true g g2 mx my h
      exact ⟨rfl, back, d, _, colliding_stacks_lt g mx my _
        (closest_index_mem _ _ _ hc), hb, hd, hcond, hg⟩
    · left
      simp only [Bool.not_eq_false] at hf
      simp only [hf, Bool.not_true, Bool.false_eq_true, if_false, Option.some.injEq] at h
      obtain ⟨d, hd, hc, hadd, hg1⟩ := drop_on_foundations_true g mx my hf
      have hg : g2 = (drop_on_foundations g mx my).1 := by rw [h]
      rw [hg1] at hg
      exact ⟨rfl, d, _, hd, colliding_foundations_lt g mx my _
        (closest_index_mem _ _ _ hc), hadd, hg⟩

theorem pop_back_n_split (n : Nat) :
    ∀ cards base : List DealtCard, pop_back_n n cards = some base →
      ∃ top, cards = base ++ top ∧ top.length = n := by
  induction n with
  | zero =>
    intro cards base h
    simp only [pop_back_n, Option.some.injEq] at h
    exact ⟨[], by simp [h], rfl⟩
  | succ n ih =>
    intro cards base h
    rw [pop_back_n] at h
    split at h
    · simp at h
    · rename_i hne
      obtain ⟨top, h1, h2⟩ := ih _ _ h
      have hc : cards ≠ [] := by
        intro h0; rw [h0] at hne; simp at hne
      refine ⟨top ++ [cards.getLast hc], ?_, by simp [h2]⟩
      rw [← List.append_assoc, ← h1]
      exact (List.dropLast_append_getLast hc).symm

/-- The outcomes of the removal from the origin, by the kind of the origin. -/
theorem remove_origin_cases (g g1 : Game) (h : remove_origin g = some g1) :
    (g.drag_type = DragType.NONE ∧ g1 = g)
      ∨ (g.drag_type = DragType.TOP_CARD
          ∧ ∃ c rest, g.stock_history = c :: rest ∧ g.taken ≠ []
            ∧ g1 = { g with taken := g.taken.dropLast, stock_history := rest })
      ∨ (origin_foundation g.drag_type < 4
          ∧ g1 = { g with
              foundations := g.foundations.set (origin_foundation g.drag_type)
                { g.foundation (origin_foundation g.drag_type) with
                  next := (g.foundation (origin_foundation g.drag_type)).next - 1 } })
      ∨ (origin_stack g.drag_type < 7
          ∧ ∃ base top, (g.stack (origin_stack g.drag_type)).cards = base ++ top
            ∧ top.length = g.dragged_cards.length
            ∧ g1 = { g with
                tableau := g.tableau.set (origin_stack g.drag_type) { cards := base } }) := by
  unfold remove_origin at h
  rcases drag_type_cases g.drag_type with ht | ht | ht | ht
  · left
    simp only [ht, origin_foundation, origin_stack, ne_eq, not_true_eq_false, if_false,
      Option.some.injEq] at h
    exact ⟨ht, by simpa using h.symm⟩
  · right; left
    simp only [ht, if_true, origin_foundation, origin_stack, ne_eq, not_true_eq_false,
      if_false] at h
    cases hr : remove_top_card g with
    | none => rw [hr] at h; simp at h
    | some g3 =>
      rw [hr] at h
      simp only [Option.some.injEq] at h
      subst h
      unfold remove_top_card at hr
      split at hr
      · rename_i a l c rest htk hh
        simp only [Option.some.injEq] at hr
        exact ⟨ht, c, rest, hh, by rw [htk]; simp, hr.symm⟩
      · simp at hr
  · right; right; left
    obtain ⟨ho, hs, htc, hlt⟩ := ht
    simp only [htc, if_false, ho, ne_eq, not_false_eq_true, if_true, hs,
      not_true_eq_false, Option.some.injEq] at h
    exact ⟨hlt, h.symm⟩
  · right; right; right
    obtain ⟨ho, hf, htc, hlt⟩ := ht
    simp only [htc, if_false, hf, ne_eq, not_true_eq_false, ho,
      not_false_eq_true, if_true] at h
    cases hp : pop_back_n g.dragged_cards.length (g.stack (origin_stack g.drag_type)).cards with
    | none => rw [hp] at h; simp at h
    | some base =>
      rw [hp] at h
      simp only [Option.some.injEq] at h
      obtain ⟨top, h1, h2⟩ := pop_back_n_split _ _ _ hp
      exact ⟨hlt, base, top, h1, h2, h.symm⟩

theorem release_cases (g g1 : Game) (mx my : Int) (h : release g mx my = some g1) :
    ∃ g2 valid, drop g mx my = some (g2, valid)
      ∧ ((valid = false ∧ g1 = { g with drag_type := DragType.NONE, dragged_cards := [] })
        ∨ (valid = true ∧ ∃ g3, remove_origin g2 = some g3
            ∧ g1 = { g3 with drag_type := DragType.NONE, dragged_cards := [] })) := by
  unfold release at h
  cases hd : drop g mx my with
  | none => rw [hd] at h; simp at h
  | some r =>
    obtain ⟨g2, valid⟩ := r
    rw [hd] at h
    dsimp only at h
    refine ⟨g2, valid, rfl, ?_⟩
    cases valid with
    | false =>
      left
      simp only [Bool.false_eq_true, if_false, Option.some.injEq] at h
      have := drop_false g mx my (by rw [hd]; rfl)
      rw [hd] at this
      simp only [Option.some.injEq, Prod.mk.injEq, and_true] at this
      rw [this] at h
      exact ⟨rfl, h.symm⟩
    | true =>
      right
      simp only [if_true] at h
      cases hr : remove_origin g2 with
      | none => rw [hr] at h; simp at h
      | some g3 =>
        rw [hr] at h
        simp only [Option.some.injEq] at h
        exact ⟨rfl, g3, rfl, h.symm⟩

theorem finish_fields (g : Game) :
    (finish g).stock = g.stock ∧ (finish g).taken = g.taken
      ∧ (finish g).stock_history = g.stock_history ∧ (finish g).tableau = g.tableau
      ∧ (finish g).foundations = g.foundations
      ∧ (finish g).top_card_bbox = g.top_card_bbox
      ∧ (finish g).drag_type = g.drag_type ∧ (finish g).dragged_cards = g.dragged_cards := by
  obtain ⟨e1, e2, e3, e4, e5, e6, e7, e8⟩ := draw_piles g
  unfold finish
  split <;> exact ⟨e1, e2, e3, e4, e5, e6, e7, e8⟩

theorem finish_stack (g : Game) (i : Nat) : (finish g).stack i = g.stack i := by
  unfold Game.stack
  rw [(finish_fields g).2.2.2.1]

theorem finish_foundation (g : Game) (i : Nat) : (finish g).foundation i = g.foundation i := by
  unfold Game.foundation
  rw [(finish_fields g).2.2.2.2.1]

/-- A frame is a click, or a release, or neither, followed by the drawing and
the win check; a click and a release never fall in the same frame. -/
theorem frame_cases (g g1 : Game) (w : Wrapper) (h : frame g w = some g1) :
    (w.mouse_clicked = true
        ∧ ∃ g2, click g w.mouse_x w.mouse_y = some g2 ∧ g1 = finish g2)
      ∨ (w.mouse_clicked = false ∧ g.drag_type ≠ DragType.NONE ∧ w.mouse_down = false
        ∧ ∃ g3, release g w.mouse_x w.mouse_y = some g3 ∧ g1 = finish g3)
      ∨ (w.mouse_clicked = false ∧ ¬ (g.drag_type ≠ DragType.NONE ∧ w.mouse_down = false)
        ∧ g1 = finish g) := by
  unfold frame at h
  by_cases hc : w.mouse_clicked = true
  · left
    rw [if_pos hc] at h
    cases hk : click g w.mouse_x w.mouse_y with
    | none => rw [hk] at h; simp at h
    | some g2 =>
      rw [hk] at h
      have hdown : w.mouse_down = true := by
        simp only [Wrapper.mouse_clicked, Bool.and_eq_true] at hc
        exact hc.1
      simp only [hdown, Bool.true_eq_false, and_false, if_false, Option.some.injEq] at h
      exact ⟨hc, g2, rfl, h.symm⟩
  · right
    rw [if_neg hc] at h
    simp only [Bool.not_eq_true] at hc
    simp only at h
    by_cases hr : g.drag_type ≠ DragType.NONE ∧ w.mouse_down = false
    · left
      rw [if_pos hr] at h
      cases hk : release g w.mouse_x w.mouse_y with
      | none => rw [hk] at h; simp at h
      | some g3 =>
        rw [hk] at h
        simp only [Option.some.injEq] at h
        exact ⟨hc, hr.1, hr.2, g3, rfl, h.symm⟩
    · right
      rw [if_neg hr] at h
      simp only [Option.some.injEq] at h
      exact ⟨hc, hr, h.symm⟩

theorem drop_foundations_ge (g g2 : Game) (valid : Bool) (mx my : Int)
    (hlen : g.foundations.length = 4) (h : drop g mx my = some (g2, valid)) (i : Nat) :
    (g.foundation i).next ≤ (g2.foundation i).next := by
  rcases drop_cases g g2 valid mx my h with ⟨_, rfl⟩ | ⟨_, d, j, _, hj, hadd, rfl⟩
    | ⟨_, back, d, k, _, _, _, _, rfl⟩
  · exact le_refl _
  · by_cases hij : j = i
    · subst hij
      rw [foundation_set_eq g j _ (by omega), add_true_fst _ _ hadd]
      simp only
      omega
    · rw [foundation_set_ne g j i _ hij]
  · exact le_refl _

theorem foundation_congr (g g1 : Game) (h : g1.foundations = g.foundations) (i : Nat) :
    g1.foundation i = g.foundation i := by
  unfold Game.foundation
  rw [h]

theorem stack_congr (g g1 : Game) (h : g1.tableau = g.tableau) (i : Nat) :
    g1.stack i = g.stack i := by
  unfold Game.stack
  rw [h]

theorem foundation_of_set_eq (g g1 : Game) (k : Nat) (f : Foundation)
    (h : g1.foundations = g.foundations.set k f) (hk : k < g.foundations.length) :
    g1.foundation k = f := by
  unfold Game.foundation
  rw [h]
  simp [List.getD_eq_getElem?_getD, List.getElem?_set_self hk]

theorem foundation_of_set_ne (g g1 : Game) (k i : Nat) (f : Foundation)
    (h : g1.foundations = g.foundations.set k f) (hk : k ≠ i) :
    g1.foundation i = g.foundation i := by
  unfold Game.foundation
  rw [h]
  simp [List.getD_eq_getElem?_getD, List.getElem?_set_ne hk]

theorem stack_of_set_eq (g g1 : Game) (k : Nat) (c : CardStack)
    (h : g1.tableau = g.tableau.set k c) (hk : k < g.tableau.length) :
    g1.stack k = c := by
  unfold Game.stack
  rw [h]
  simp [List.getD_eq_getElem?_getD, List.getElem?_set_self hk]

theorem stack_of_set_ne (g g1 : Game) (k i : Nat) (c : CardStack)
    (h : g1.tableau = g.tableau.set k c) (hk : k ≠ i) :
    g1.stack i = g.stack i := by
  unfold Game.stack
  rw [h]
  simp [List.getD_eq_getElem?_getD, List.getElem?_set_ne hk]

/-- A release lowers `next` only for the foundation the drag came from, by
one, and only from a value of at least 1. -/
theorem release_foundations (g g1 : Game) (mx my : Int) (hp : PilesOK g) (hd : DragOK g)
    (h : release g mx my = some g1) (i : Nat)
    (hlt : (g1.foundation i).next < (g.foundation i).next) :
    origin_foundation g.drag_type = i ∧ 1 ≤ (g.foundation i).next
      ∧ (g1.foundation i).next = (g.foundation i).next - 1 := by
  obtain ⟨g2, valid, hdrop, hcase⟩ := release_cases g g1 mx my h
  rcases hcase with ⟨_, hg1⟩ | ⟨hv, g3, hrem, hg1⟩
  · rw [foundation_congr g g1 (by rw [hg1]) i] at hlt
    exact absurd hlt (lt_irrefl _)
  · subst hv
    have hm := drop_accepted_mid g g2 mx my hp hd hdrop
    have hge := drop_foundations_ge g g2 true mx my hp.foundations_length hdrop i
    rw [foundation_congr g3 g1 (by rw [hg1]) i] at hlt ⊢
    rcases remove_origin_cases g2 g3 hrem with ⟨_, hg3⟩ | ⟨_, c, rest, _, _, hg3⟩
      | ⟨ho, hg3⟩ | ⟨_, base, top, _, _, hg3⟩
    · rw [hg3] at hlt
      omega
    · rw [foundation_congr g2 g3 (by rw [hg3]) i] at hlt
      omega
    · rw [hm.drag_type] at ho hg3
      have hF : g3.foundations = g2.foundations.set (origin_foundation g.drag_type)
          { g2.foundation (origin_foundation g.drag_type) with
            next := (g2.foundation (origin_foundation g.drag_type)).next - 1 } := by
        rw [hg3]
      have hne : origin_foundation g.drag_type ≠ 4 := by omega
      by_cases hio : origin_foundation g.drag_type = i
      · rw [← hio] at hlt ⊢
        rw [foundation_of_set_eq g2 g3 _ _ hF (by rw [hm.foundations_length]; exact ho)]
          at hlt ⊢
        rw [hm.foundation hne]
        have h0 := (hd.foundation hne).1
        have hnn := hp.next_nonneg _
          (foundation_mem g _ (by rw [hp.foundations_length]; exact ho))
        exact ⟨rfl, by omega, rfl⟩
      · rw [foundation_of_set_ne g2 g3 _ i _ hF hio] at hlt
        omega
    · rw [foundation_congr g2 g3 (by rw [hg3]) i] at hlt
      omega

--THMS
theorem cards_nodup (g : Game) (hp : PilesOK g) : g.cards.Nodup := by
  rw [hp.cards]
  exact Multiset.coe_nodup.mpr build_deck_nodup

theorem le_list_sum {α : Type} (l : List (Multiset α)) (s : Multiset α) (hs : s ∈ l) :
    s ≤ l.sum := by
  induction l with
  | nil => simp at hs
  | cons t l ih =>
    rw [List.sum_cons]
    rcases List.mem_cons.mp hs with rfl | hs
    · exact Multiset.le_add_right _ _
    · exact le_trans (ih hs) (Multiset.le_add_left _ _)

theorem count_list_sum_two (l : List (Multiset Card)) (a : Card) :
    ∀ i j : Nat, i < j → j < l.length →
      (l.getD i 0).count a + (l.getD j 0).count a ≤ l.sum.count a := by
  induction l with
  | nil => intro i j _ hj; simp at hj
  | cons s l ih =>
    intro i j hij hj
    cases j with
    | zero => omega
    | succ j =>
      simp only [List.length_cons, Nat.add_lt_add_iff_right] at hj
      rw [List.sum_cons, Multiset.count_add, List.getD_cons_succ]
      cases i with
      | zero =>
        rw [List.getD_cons_zero]
        have hm : l.getD j 0 ∈ l := by
          rw [List.getD_eq_getElem _ _ hj]
          exact List.getElem_mem _
        have : (l.getD j 0).count a ≤ l.sum.count a :=
          Multiset.count_le_of_le a (le_list_sum l _ hm)
        omega
      | succ i =>
        rw [List.getD_cons_succ]
        have := ih i j (by omega) hj
        omega

/-- Two different foundations that are not empty have different suits. -/
theorem foundation_suits_differ (g : Game) (hp : PilesOK g) (i j : Nat) (hij : i < j)
    (hj : j < 4) (hi0 : (g.foundation i).next ≠ 0) (hj0 : (g.foundation j).next ≠ 0) :
    (g.foundation i).suit ≠ (g.foundation j).suit := by
  intro hs
  have hlen := hp.foundations_length
  have hmi := foundation_mem g i (by omega)
  have hmj := foundation_mem g j (by omega)
  have hai := (foundation_top_mem _ (hp.next_nonneg _ hmi) hi0).2
  have haj := (foundation_top_mem _ (hp.next_nonneg _ hmj) hj0).2
  rw [← hs] at haj
  have hcount := count_list_sum_two
    (g.foundations.map (fun f => ((f.cards : List Card) : Multiset Card)))
    { index := 0, suit := (g.foundation i).suit } i j hij (by simpa [hlen] using hj)
  have hgi : (g.foundations.map (fun f => ((f.cards : List Card) : Multiset Card))).getD i 0
      = (((g.foundation i).cards : List Card) : Multiset Card) := by
    simp [Game.foundation, List.getD_eq_getElem?_getD,
      List.getElem?_eq_getElem (show i < g.foundations.length by omega)]
  have hgj : (g.foundations.map (fun f => ((f.cards : List Card) : Multiset Card))).getD j 0
      = (((g.foundation j).cards : List Card) : Multiset Card) := by
    simp [Game.foundation, List.getD_eq_getElem?_getD,
      List.getElem?_eq_getElem (show j < g.foundations.length by omega)]
  rw [hgi, hgj] at hcount
  have h1 : 1 ≤ Multiset.count ({ index := 0, suit := (g.foundation i).suit } : Card)
      (((g.foundation i).cards : List Card) : Multiset Card) :=
    Multiset.one_le_count_iff_mem.mpr (by simpa using hai)
  have h2 : 1 ≤ Multiset.count ({ index := 0, suit := (g.foundation i).suit } : Card)
      (((g.foundation j).cards : List Card) : Multiset Card) :=
    Multiset.one_le_count_iff_mem.mpr (by simpa using haj)
  have h3 : Multiset.count ({ index := 0, suit := (g.foundation i).suit } : Card) g.cards ≤ 1 :=
    Multiset.nodup_iff_count_le_one.mp (cards_nodup g hp) _
  have h4 : Multiset.count ({ index := 0, suit := (g.foundation i).suit } : Card)
      (g.foundations.map (fun f => ((f.cards : List Card) : Multiset Card))).sum
      ≤ Multiset.count ({ index := 0, suit := (g.foundation i).suit } : Card) g.cards := by
    apply Multiset.count_le_of_le
    unfold Game.cards
    exact Multiset.le_add_left _ _
  omega

theorem column_ok_nil : ColumnOK [] := ⟨List.Pairwise.nil, List.chain'_nil⟩

theorem column_ok_left (base top : List DealtCard) (h : ColumnOK (base ++ top)) :
    ColumnOK base :=
  ⟨(List.pairwise_append.mp h.face_down_below).1, (List.chain'_append.mp h.legal).1⟩

theorem column_ok_right (base top : List DealtCard) (h : ColumnOK (base ++ top)) :
    ColumnOK top :=
  ⟨(List.pairwise_append.mp h.face_down_below).2.1, (List.chain'_append.mp h.legal).2.1⟩

theorem column_ok_flip (init : List DealtCard) (back : DealtCard)
    (h : ColumnOK (init ++ [back])) (hb : back.face_up = false) :
    ColumnOK (init ++ [{ back with face_up := true }]) := by
  have hp := List.pairwise_append.mp h.face_down_below
  have hdown : ∀ a ∈ init, a.face_up = false := by
    intro a ha
    have := hp.2.2 a ha back (by simp)
    cases hf : a.face_up with
    | false => rfl
    | true => rw [this hf] at hb; exact absurd hb (by simp)
  constructor
  · rw [List.pairwise_append]
    refine ⟨hp.1, List.pairwise_singleton _ _, ?_⟩
    intro a _ b hb2
    simp only [List.mem_singleton] at hb2
    rw [hb2]
    intro _
    rfl
  · rw [List.chain'_append]
    refine ⟨(List.chain'_append.mp h.legal).1, List.chain'_singleton _, ?_⟩
    intro a ha b _ hup
    have ha2 : a ∈ init := List.mem_of_mem_getLast? ha
    rw [hdown a ha2] at hup
    exact absurd hup (by simp)

theorem chain_follows_legal (run : List DealtCard) (h : run.Chain' follows) :
    run.Chain' (fun a b => a.face_up = true → b.face_up = true → follows a b) :=
  List.Chain'.imp (fun _ _ hab _ _ => hab) h

theorem column_ok_append (old run : List DealtCard) (back : DealtCard)
    (h : ColumnOK old) (hl : old.getLast? = some back)
    (hf : ∀ d, run.head? = some d → follows back d)
    (hup : ∀ c ∈ run, c.face_up = true) (hrun : run.Chain' follows) :
    ColumnOK (old ++ run) := by
  constructor
  · rw [List.pairwise_append]
    refine ⟨h.face_down_below, ?_, fun a _ b hb _ => hup b hb⟩
    exact List.Pairwise.imp_of_mem (fun _ hb _ _ => hup _ hb)
      (List.pairwise_of_forall (R := fun _ _ => True) (fun _ _ => trivial))
  · rw [List.chain'_append]
    refine ⟨h.legal, chain_follows_legal run hrun, ?_⟩
    intro a ha b hb _ _
    rw [hl] at ha
    simp only [Option.mem_def, Option.some.injEq] at ha
    rw [← ha]
    exact hf b hb

theorem map_up_eq (run : List DealtCard) (h : ∀ c ∈ run, c.face_up = true) :
    run.map (fun c => ({ card := c.card, face_up := true } : DealtCard)) = run := by
  induction run with
  | nil => rfl
  | cons a l ih =>
    have ha := h a (List.mem_cons_self _ _)
    rw [List.map_cons, ih (fun c hc => h c (List.mem_cons_of_mem _ hc))]
    congr 1
    cases a
    simp only at ha
    rw [ha]

theorem chain_legal_follows (run : List DealtCard)
    (h : run.Chain' (fun a b => a.face_up = true → b.face_up = true → follows a b))
    (hup : ∀ c ∈ run, c.face_up = true) : run.Chain' follows := by
  induction run with
  | nil => exact List.chain'_nil
  | cons a l ih =>
    cases l with
    | nil => exact List.chain'_singleton _
    | cons b l =>
      rw [List.chain'_cons] at h ⊢
      exact ⟨h.1 (hup a (by simp)) (hup b (by simp)),
        ih h.2 (fun c hc => hup c (List.mem_cons_of_mem _ hc))⟩

theorem column_ok_down_up (downs ups : List DealtCard)
    (hd : ∀ c ∈ downs, c.face_up = false) (hu : ups.length ≤ 1) :
    ColumnOK (downs ++ ups) := by
  have hups : ups = [] ∨ ∃ u, ups = [u] := by
    cases ups with
    | nil => exact Or.inl rfl
    | cons u l =>
      cases l with
      | nil => exact Or.inr ⟨u, rfl⟩
      | cons v l => simp at hu
  have hpd : downs.Pairwise (fun a b => a.face_up = true → b.face_up = true) :=
    List.Pairwise.imp_of_mem (fun ha _ _ hup => by
      rw [hd _ ha] at hup; exact absurd hup (by simp))
      (List.pairwise_of_forall (R := fun _ _ => True) (fun _ _ => trivial))
  have hcd : downs.Chain' (fun a b => a.face_up = true → b.face_up = true → follows a b) := by
    apply List.Pairwise.chain'
    exact List.Pairwise.imp_of_mem (fun ha _ _ hup => by
      rw [hd _ ha] at hup; exact absurd hup (by simp))
      (List.pairwise_of_forall (R := fun _ _ => True) (fun _ _ => trivial))
  constructor
  · rw [List.pairwise_append]
    refine ⟨hpd, ?_, fun a ha b _ hup => ?_⟩
    · rcases hups with rfl | ⟨u, rfl⟩
      · exact List.Pairwise.nil
      · exact List.pairwise_singleton _ _
    · rw [hd a ha] at hup; exact absurd hup (by simp)
  · rw [List.chain'_append]
    refine ⟨hcd, ?_, fun a ha b _ hup => ?_⟩
    · rcases hups with rfl | ⟨u, rfl⟩
      · exact List.chain'_nil
      · exact List.chain'_singleton _
    · rw [hd a (List.mem_of_mem_getLast? ha)] at hup; exact absurd hup (by simp)

theorem dealt_column_ok (stock : List Card) (i : Nat) :
    ColumnOK (dealt_column stock i).cards := by
  unfold dealt_column
  apply column_ok_down_up
  · intro c hc
    simp only [List.mem_map] at hc
    obtain ⟨_, _, rfl⟩ := hc
    rfl
  · simp only [List.length_map, List.length_take]
    omega

--THMS
theorem tableau_scan_step_first (i : Nat) (mx my : Int) (size : Nat) (c : DealtCard)
    (j : Nat) (st : Scan)
    (h : (tableau_scan_step i mx my size c j st).first_face_up_found = true) :
    st.first_face_up_found = true ∨ c.face_up = true := by
  unfold tableau_scan_step at h
  dsimp only at h
  by_cases hc : (!st.first_face_up_found && c.face_up) = true
  · rw [if_pos hc] at h
    simp only [Bool.and_eq_true] at hc
    exact Or.inr hc.2
  · rw [if_neg hc] at h
    exact Or.inl h

theorem tableau_scan_step_hit_first (i : Nat) (mx my : Int) (size : Nat) (c : DealtCard)
    (j : Nat) (st : Scan) (h : st.clicked_card_found = false)
    (hstep : (tableau_scan_step i mx my size c j st).clicked_card_found = true) :
    (tableau_scan_step i mx my size c j st).first_face_up_found = true := by
  unfold tableau_scan_step at hstep ⊢
  dsimp only at hstep ⊢
  generalize (if (!st.first_face_up_found && c.face_up) = true then (j, true)
    else (st.first_face_up, st.first_face_up_found)) = first at hstep ⊢
  generalize (if j = size - 1 then st.y1 + 95
    else if c.face_up = true then st.y1 + 14 else st.y1 + 2) = y2 at hstep ⊢
  by_cases hcond : (!st.clicked_card_found && first.2
      && ({ x1 := 15 + 86 * (i : Int), y1 := st.y1, x2 := 85 + 86 * (i : Int), y2 := y2 }
          : BBox).collision_point mx my) = true
  · simp only [Bool.and_eq_true] at hcond
    exact hcond.1.2
  · rw [if_neg hcond] at hstep
    rw [h] at hstep
    exact absurd hstep (by simp)

theorem tableau_scan_index (i : Nat) (mx my : Int) (size : Nat) (cards : List DealtCard) :
    ∀ (j : Nat) (st : Scan), st.clicked_card_found = false →
      (tableau_scan i mx my size cards j st).clicked_card_found = true →
      j ≤ (tableau_scan i mx my size cards j st).clicked_card
        ∧ (tableau_scan i mx my size cards j st).clicked_card < j + cards.length := by
  induction cards with
  | nil =>
    intro j st h hf
    rw [tableau_scan] at hf
    rw [h] at hf
    exact absurd hf (by simp)
  | cons c rest ih =>
    intro j st h hf
    rw [tableau_scan] at hf ⊢
    by_cases hstep : (tableau_scan_step i mx my size c j st).clicked_card_found = true
    · obtain ⟨_, r2⟩ := tableau_scan_found i mx my size rest (j + 1) _ hstep
      rw [r2, (tableau_scan_step_hit i mx my size c j st h hstep).1]
      simp
    · simp only [Bool.not_eq_true] at hstep
      have := ih (j + 1) _ hstep hf
      simp only [List.length_cons]
      omega

/-- A card found by the scan has a face-up card at or below its index. -/
theorem tableau_scan_face_up (i : Nat) (mx my : Int) (size : Nat)
    (cards : List DealtCard) :
    ∀ (j : Nat) (st : Scan), st.clicked_card_found = false →
      (tableau_scan i mx my size cards j st).clicked_card_found = true →
      st.first_face_up_found = true
        ∨ ∃ m x, m + j ≤ (tableau_scan i mx my size cards j st).clicked_card
            ∧ cards[m]? = some x ∧ x.face_up = true := by
  induction cards with
  | nil =>
    intro j st h hf
    rw [tableau_scan] at hf
    rw [h] at hf
    exact absurd hf (by simp)
  | cons c rest ih =>
    intro j st h hf
    rw [tableau_scan] at hf ⊢
    by_cases hstep : (tableau_scan_step i mx my size c j st).clicked_card_found = true
    · obtain ⟨_, r2⟩ := tableau_scan_found i mx my size rest (j + 1) _ hstep
      rw [r2, (tableau_scan_step_hit i mx my size c j st h hstep).1]
      rcases tableau_scan_step_first i mx my size c j st
        (tableau_scan_step_hit_first i mx my size c j st h hstep) with h1 | h1
      · exact Or.inl h1
      · exact Or.inr ⟨0, c, by omega, by simp, h1⟩
    · simp only [Bool.not_eq_true] at hstep
      rcases ih (j + 1) _ hstep hf with h1 | ⟨m, x, h2, h3, h4⟩
      · rcases tableau_scan_step_first i mx my size c j st h1 with h5 | h5
        · exact Or.inl h5
        · right
          have := (tableau_scan_index i mx my size rest (j + 1) _ hstep hf).1
          exact ⟨0, c, by omega, by simp, h5⟩
      · exact Or.inr ⟨m + 1, x, by omega, by simpa using h3, h4⟩

--THMS
theorem stack_column_ok (g : Game) (h : ∀ cs ∈ g.tableau, ColumnOK cs.cards) (i : Nat) :
    ColumnOK (g.stack i).cards := by
  unfold Game.stack
  by_cases hi : i < g.tableau.length
  · rw [List.getD_eq_getElem _ _ hi]
    exact h _ (List.getElem_mem _)
  · rw [List.getD_eq_default _ _ (by omega)]
    exact column_ok_nil

theorem columns_set (g : Game) (h : ∀ cs ∈ g.tableau, ColumnOK cs.cards) (k : Nat)
    (c : CardStack) (hc : ColumnOK c.cards) :
    ∀ cs ∈ g.tableau.set k c, ColumnOK cs.cards := by
  intro cs hcs
  rcases List.mem_or_eq_of_mem_set hcs with h1 | h1
  · exact h cs h1
  · rw [h1]; exact hc

theorem drop_face_up (cards : List DealtCard) (m c : Nat) (x : DealtCard)
    (h : cards.Pairwise (fun a b => a.face_up = true → b.face_up = true))
    (hx : cards[m]? = some x) (hup : x.face_up = true) (hmc : m ≤ c) :
    ∀ y ∈ cards.drop c, y.face_up = true := by
  intro y hy
  have hm : m < cards.length := by
    by_contra hcon
    rw [List.getElem?_eq_none (by omega)] at hx
    exact absurd hx (by simp)
  have hxe : cards[m] = x := by
    rw [List.getElem?_eq_getElem hm] at hx
    exact Option.some.inj hx
  have hy2 : y ∈ cards.drop m := by
    have : cards.drop c = (cards.drop m).drop (c - m) := by
      rw [List.drop_drop]; congr 1; omega
    rw [this] at hy
    exact List.mem_of_mem_drop hy
  rw [List.drop_eq_getElem_cons hm, hxe] at hy2
  have hp : (x :: cards.drop (m + 1)).Pairwise
      (fun a b => a.face_up = true → b.face_up = true) := by
    have := List.Pairwise.sublist (List.drop_sublist m cards) h
    rwa [List.drop_eq_getElem_cons hm, hxe] at this
  rcases List.mem_cons.mp hy2 with rfl | hy3
  · exact hup
  · exact (List.pairwise_cons.mp hp).1 y hy3 hup

theorem tableau_ok_of_eq {g g1 : Game} (h : TableauOK g) (h1 : g1.tableau = g.tableau)
    (h2 : g1.dragged_cards = g.dragged_cards) : TableauOK g1 :=
  ⟨by rw [h1]; exact h.columns, by rw [h2]; exact h.dragged_up,
    by rw [h2]; exact h.dragged_run⟩

theorem tableau_ok_single {g g1 : Game} (h : TableauOK g) (c : Card)
    (h1 : g1.tableau = g.tableau)
    (h2 : g1.dragged_cards = [{ card := c, face_up := true }]) : TableauOK g1 := by
  refine ⟨by rw [h1]; exact h.columns, ?_, ?_⟩
  · rw [h2]
    intro d hd
    simp only [List.mem_singleton] at hd
    rw [hd]
  · rw [h2]
    exact List.chain'_singleton _

theorem waste_pickup_tableau_ok (mx my : Int) (g : Game) (h : TableauOK g) :
    TableauOK (waste_pickup mx my g) := by
  unfold waste_pickup
  split
  · exact h
  · split
    · exact tableau_ok_single h _ rfl rfl
    · exact h

theorem foundation_pickup_tableau_ok (mx my : Int) (g : Game) (i : Nat)
    (h : TableauOK g) : TableauOK (foundation_pickup mx my g i) := by
  unfold foundation_pickup
  split
  · exact tableau_ok_single h _ rfl rfl
  · exact h

theorem tableau_pickup_tableau_ok (mx my : Int) (g : Game) (i : Nat)
    (hc : ClickOK mx my i g) (h : TableauOK g) :
    TableauOK (tableau_pickup mx my g i) := by
  unfold tableau_pickup
  dsimp only
  split
  · rename_i hfound
    obtain ⟨hy, hx1, hx2, _, hlt⟩ := tableau_scan_hit i mx my (g.stack i).cards.length
      (g.stack i).cards 0 _ rfl (le_refl _) hfound
    have hempty : g.dragged_cards = [] := by
      by_contra hne
      rcases hc.region hne with h1 | h1 <;> omega
    have hcol := stack_column_ok g h.columns i
    have hup : ∀ y ∈ (g.stack i).cards.drop
        (tableau_scan i mx my (g.stack i).cards.length (g.stack i).cards 0
          { first_face_up := 0, first_face_up_found := false, clicked_card := 0,
            clicked_card_found := false, y1 := 126 }).clicked_card, y.face_up = true := by
      rcases tableau_scan_face_up i mx my (g.stack i).cards.length (g.stack i).cards 0 _ rfl
        hfound with h1 | ⟨m, x, h2, h3, h4⟩
      · exact absurd h1 (by simp)
      · exact drop_face_up _ m _ x hcol.face_down_below h3 h4 (by omega)
    refine ⟨h.columns, ?_, ?_⟩
    · simp only [hempty, List.nil_append]
      exact hup
    · simp only [hempty, List.nil_append]
      apply chain_legal_follows _ _ hup
      have hsplit := List.take_append_drop
        (tableau_scan i mx my (g.stack i).cards.length (g.stack i).cards 0
          { first_face_up := 0, first_face_up_found := false, clicked_card := 0,
            clicked_card_found := false, y1 := 126 }).clicked_card (g.stack i).cards
      rw [← hsplit] at hcol
      exact (column_ok_right _ _ hcol).legal
  · exact h

theorem tableau_interaction_tableau_ok (mx my : Int) (g g1 : Game) (i : Nat)
    (hc : ClickOK mx my i g) (h : TableauOK g)
    (hs : tableau_interaction mx my g i = some g1) : TableauOK g1 := by
  unfold tableau_interaction at hs
  split at hs
  · cases hb : (g.stack i).cards.getLast? with
    | none => rw [hb] at hs; simp at hs
    | some back =>
      rw [hb] at hs
      simp only at hs
      split at hs
      · rename_i hdown
        simp only [Option.some.injEq] at hs
        subst hs
        refine ⟨?_, h.dragged_up, h.dragged_run⟩
        apply columns_set g h.columns
        have hcol := stack_column_ok g h.columns i
        rw [← List.dropLast_append_getLast? back hb] at hcol
        exact column_ok_flip _ back hcol (by simpa using hdown)
      · simp only [Option.some.injEq] at hs
        subst hs
        exact tableau_pickup_tableau_ok mx my g i hc h
  · simp only [Option.some.injEq] at hs
    subst hs
    exact tableau_pickup_tableau_ok mx my g i hc h

theorem click_tableau_ok (mx my : Int) (g g1 : Game) (hp : PilesOK g)
    (hn : g.drag_type = DragType.NONE) (hd : g.dragged_cards = []) (ht : TableauOK g)
    (h : click g mx my = some g1) : TableauOK g1 := by
  unfold click at h
  dsimp only at h
  have h1 : PilesOK (if g.stock_bbox.collision_point mx my = true then stock_click g else g)
      ∧ (if g.stock_bbox.collision_point mx my = true then stock_click g else g).drag_type
          = DragType.NONE
      ∧ (if g.stock_bbox.collision_point mx my = true then stock_click g else g).dragged_cards
          = []
      ∧ TableauOK (if g.stock_bbox.collision_point mx my = true then stock_click g else g) := by
    split
    · exact ⟨stock_click_piles g hp, by rw [(stock_click_drag g).1]; exact hn,
        by rw [(stock_click_drag g).2.1]; exact hd,
        tableau_ok_of_eq ht (stock_click_drag g).2.2.1 (stock_click_drag g).2.1⟩
    · exact ⟨hp, hn, hd, ht⟩
  have h2 : ClickOK mx my 0 (waste_pickup mx my _) ∧ TableauOK (waste_pickup mx my _) :=
    ⟨waste_pickup_click mx my _ h1.1 h1.2.1 h1.2.2.1, waste_pickup_tableau_ok mx my _ h1.2.2.2⟩
  have h3 := foldl_range_invariant (fun b => ClickOK mx my 0 b ∧ TableauOK b)
    (foundation_pickup mx my) 4 _ h2
    (fun b i hi hb => ⟨foundation_pickup_click mx my b i hi hb.1,
      foundation_pickup_tableau_ok mx my b i hb.2⟩)
  exact (foldlM_range_invariant (fun n b => ClickOK mx my n b ∧ TableauOK b)
    (tableau_interaction mx my) 7 _ g1 h3
    (fun c d i hi hq hf => ⟨tableau_interaction_click mx my c d i hi hq.1 hf,
      tableau_interaction_tableau_ok mx my c d i hq.1 hq.2 hf⟩) h).2

--THMS
theorem drop_columns_ok (g g2 : Game) (valid : Bool) (mx my : Int) (ht : TableauOK g)
    (h : drop g mx my = some (g2, valid)) :
    (∀ cs ∈ g2.tableau, ColumnOK cs.cards) ∧ g2.dragged_cards = g.dragged_cards := by
  rcases drop_cases g g2 valid mx my h with ⟨_, h1⟩ | ⟨_, d, j, _, _, _, h1⟩
    | ⟨_, back, d, k, _, hback, hd, hcond, h1⟩
  · rw [h1]; exact ⟨ht.columns, rfl⟩
  · rw [h1]; exact ⟨ht.columns, rfl⟩
  · rw [h1]
    refine ⟨?_, rfl⟩
    apply columns_set g ht.columns
    rw [map_up_eq _ ht.dragged_up]
    rw [tableau_condition_nonempty] at hcond
    have hc := of_decide_eq_true hcond
    refine column_ok_append _ _ back (stack_column_ok g ht.columns k) hback ?_
      ht.dragged_up ht.dragged_run
    intro d1 hd1
    rw [hd] at hd1
    have hd2 : d = d1 := Option.some.inj hd1
    rw [← hd2]
    exact ⟨hc.2.1, fun hcon => hc.2.2 hcon.symm⟩

theorem remove_origin_columns_ok (g g1 : Game) (hc : ∀ cs ∈ g.tableau, ColumnOK cs.cards)
    (h : remove_origin g = some g1) : ∀ cs ∈ g1.tableau, ColumnOK cs.cards := by
  rcases remove_origin_cases g g1 h with ⟨_, h1⟩ | ⟨_, c, rest, _, _, h1⟩ | ⟨_, h1⟩
    | ⟨_, base, top, hsplit, _, h1⟩
  · rw [h1]; exact hc
  · rw [h1]; exact hc
  · rw [h1]; exact hc
  · rw [h1]
    apply columns_set g hc
    have := stack_column_ok g hc (origin_stack g.drag_type)
    rw [hsplit] at this
    exact column_ok_left base top this

theorem release_tableau_ok (g g1 : Game) (mx my : Int) (ht : TableauOK g)
    (h : release g mx my = some g1) : TableauOK g1 := by
  obtain ⟨g2, valid, hdrop, h1 | h1⟩ := release_cases g g1 mx my h
  · rw [h1.2]
    exact ⟨ht.columns, fun c hc => absurd hc (List.not_mem_nil c), List.chain'_nil⟩
  · obtain ⟨_, g3, hrem, hg1⟩ := h1
    rw [hg1]
    exact ⟨remove_origin_columns_ok g2 g3 (drop_columns_ok g g2 valid mx my ht hdrop).1 hrem,
      fun c hc => absurd hc (List.not_mem_nil c), List.chain'_nil⟩

theorem finish_tableau_ok (g : Game) (ht : TableauOK g) : TableauOK (finish g) := by
  obtain ⟨_, _, _, e4, _, _, _, e8⟩ := finish_fields g
  exact tableau_ok_of_eq ht e4 e8

theorem frame_tableau_ok (g g1 : Game) (w : Wrapper) (hi : Invariant g w)
    (ht : TableauOK g) (h : frame g w = some g1) : TableauOK g1 := by
  rcases frame_cases g g1 w h with ⟨hc, g2, hclick, hg1⟩ | ⟨_, _, _, g3, hrel, hg1⟩
    | ⟨_, _, hg1⟩
  · simp only [Wrapper.mouse_clicked, Bool.and_eq_true, Bool.not_eq_true'] at hc
    have hn : g.drag_type = DragType.NONE := by
      by_contra hne
      have := hi.button hne
      rw [hc.2] at this
      exact absurd this (by simp)
    rw [hg1]
    exact finish_tableau_ok g2
      (click_tableau_ok w.mouse_x w.mouse_y g g2 hi.piles hn (hi.drag.none hn) ht hclick)
  · rw [hg1]
    exact finish_tableau_ok g3 (release_tableau_ok g g3 w.mouse_x w.mouse_y ht hrel)
  · rw [hg1]
    exact finish_tableau_ok g ht

theorem new_game_tableau_ok (deck_vector : List Card) (x1 y1 : Int) (b : BBox) (g : Game)
    (hp : deck_vector.Perm build_deck)
    (h : new_game deck_vector x1 y1 b = some g) : TableauOK g := by
  have hlen : 28 ≤ deck_vector.reverse.length := by
    rw [List.length_reverse, hp.length_eq]
    decide
  unfold new_game at h
  rw [deal_eq _ hlen] at h
  simp only [Option.some.injEq] at h
  subst h
  refine ⟨?_, fun c hc => absurd hc (List.not_mem_nil c), List.chain'_nil⟩
  intro cs hcs
  simp only [List.mem_map] at hcs
  obtain ⟨i, _, hi⟩ := hcs
  rw [← hi]
  exact dealt_column_ok _ i

theorem reachable_tableau_ok (g : Game) (w : Wrapper) (h : Reachable g w) :
    TableauOK g := by
  induction h with
  | start deck_vector x1 y1 b g x y lmb hp hg =>
    exact new_game_tableau_ok deck_vector x1 y1 b g hp hg
  | step g g1 w x y lmb hr _ hf ih =>
    exact frame_tableau_ok g g1 w (reachable_invariant g w hr) ih hf

--THMS
theorem drop_column_effect (g g2 : Game) (valid : Bool) (mx my : Int) (hp : PilesOK g)
    (ht : TableauOK g) (h : drop g mx my = some (g2, valid)) :
    g2.dragged_cards = g.dragged_cards ∧ g2.drag_type = g.drag_type
      ∧ g2.tableau.length = g.tableau.length
      ∧ ∀ i, g2.stack i = g.stack i
          ∨ (g2.stack i).cards = (g.stack i).cards ++ g.dragged_cards := by
  rcases drop_cases g g2 valid mx my h with ⟨_, h1⟩ | ⟨_, d, j, _, _, _, h1⟩
    | ⟨_, back, d, k, hk, _, _, _, h1⟩
  · rw [h1]; exact ⟨rfl, rfl, rfl, fun i => Or.inl rfl⟩
  · rw [h1]; exact ⟨rfl, rfl, rfl, fun i => Or.inl rfl⟩
  · rw [h1]
    refine ⟨rfl, rfl, by simp, fun i => ?_⟩
    by_cases hik : k = i
    · right
      rw [← hik, stack_set_eq g k _ (by rw [hp.tableau_length]; exact hk),
        map_up_eq _ ht.dragged_up]
    · left
      exact stack_set_ne g k i _ hik

theorem remove_origin_column_effect (g g1 : Game) (hl : g.tableau.length = 7)
    (h : remove_origin g = some g1) :
    ∀ i, g1.stack i = g.stack i
      ∨ ∃ top, (g.stack i).cards = (g1.stack i).cards ++ top
          ∧ top.length = g.dragged_cards.length := by
  intro i
  rcases remove_origin_cases g g1 h with ⟨_, h1⟩ | ⟨_, c, rest, _, _, h1⟩ | ⟨_, h1⟩
    | ⟨hos, base, top, hsplit, hlen, h1⟩
  · rw [h1]; exact Or.inl rfl
  · rw [h1]; exact Or.inl rfl
  · rw [h1]; exact Or.inl rfl
  · rw [h1]
    by_cases hik : origin_stack g.drag_type = i
    · right
      refine ⟨top, ?_, hlen⟩
      rw [← hik, stack_set_eq g _ _ (by rw [hl]; exact hos)]
      exact hsplit
    · left
      exact stack_set_ne g _ i _ hik

theorem release_column_effect (g g1 : Game) (mx my : Int) (hp : PilesOK g)
    (ht : TableauOK g) (h : release g mx my = some g1) (i : Nat) :
    (g1.stack i).cards = (g.stack i).cards
      ∨ (g1.stack i).cards = (g.stack i).cards ++ g.dragged_cards
      ∨ ∃ top, (g.stack i).cards = (g1.stack i).cards ++ top := by
  obtain ⟨g2, valid, hdrop, h1 | h1⟩ := release_cases g g1 mx my h
  · rw [h1.2]; exact Or.inl rfl
  · obtain ⟨_, g3, hrem, hg1⟩ := h1
    obtain ⟨e1, _, e3, hd⟩ := drop_column_effect g g2 valid mx my hp ht hdrop
    have hr := remove_origin_column_effect g2 g3 (by rw [e3]; exact hp.tableau_length) hrem i
    have hs : g1.stack i = g3.stack i := by rw [hg1]; rfl
    rw [hs]
    rcases hd i with hd1 | hd1
    · rcases hr with hr1 | ⟨top, hr1, _⟩
      · left; rw [hr1, hd1]
      · right; right
        exact ⟨top, by rw [← hd1]; exact hr1⟩
    · rcases hr with hr1 | ⟨top, hr1, hr2⟩
      · right; left
        rw [hr1]; exact hd1
      · left
        rw [hd1] at hr1
        rw [e1] at hr2
        exact (List.append_inj_left' hr1 hr2.symm).symm

theorem frame_column_effect (g g1 : Game) (w : Wrapper) (hi : Invariant g w)
    (ht : TableauOK g) (h : frame g w = some g1) (i : Nat) (hi7 : i < 7) :
    (g1.stack i).cards = (g.stack i).cards
      ∨ Flipped (g.stack i).cards (g1.stack i).cards
      ∨ (g.drag_type ≠ DragType.NONE
          ∧ (g1.stack i).cards = (g.stack i).cards ++ g.dragged_cards)
      ∨ ∃ top, (g.stack i).cards = (g1.stack i).cards ++ top := by
  rcases frame_cases g g1 w h with ⟨_, g2, hclick, hg1⟩ | ⟨_, hn, _, g3, hrel, hg1⟩
    | ⟨_, _, hg1⟩
  · rw [hg1, finish_stack]
    have he := click_effect g g2 w.mouse_x w.mouse_y hclick
    have hs : (if g.stock_bbox.collision_point w.mouse_x w.mouse_y = true
        then stock_click g else g).stack i = g.stack i := by
      split
      · exact stack_congr _ _ (stock_click_drag g).2.2.1 i
      · rfl
    rcases he.earlier i hi7 with h1 | h1
    · left; rw [h1, hs]
    · right; left
      rw [hs] at h1
      exact h1
  · rw [hg1, finish_stack]
    rcases release_column_effect g g3 w.mouse_x w.mouse_y hi.piles ht hrel i with h1 | h1 | h1
    · exact Or.inl h1
    · exact Or.inr (Or.inr (Or.inl ⟨hn, h1⟩))
    · exact Or.inr (Or.inr (Or.inr h1))
  · rw [hg1, finish_stack]
    exact Or.inl rfl

--THMS
theorem tableau_getD (g : Game) (i : Nat) (hi : i < g.tableau.length) :
    (g.tableau.map (fun cs =>
        ((cs.cards.map DealtCard.card : List Card) : Multiset Card))).getD i 0
      = (((g.stack i).cards.map DealtCard.card : List Card) : Multiset Card) := by
  simp [Game.stack, List.getD_eq_getElem?_getD, List.getElem?_eq_getElem hi]

theorem tableau_count_le (g : Game) (hp : PilesOK g) (c : Card) :
    Multiset.count c (g.stock_history : Multiset Card)
      + Multiset.count c (g.tableau.map (fun cs =>
          ((cs.cards.map DealtCard.card : List Card) : Multiset Card))).sum
      + Multiset.count c
          (g.foundations.map (fun f => ((f.cards : List Card) : Multiset Card))).sum ≤ 1 := by
  have h3 : Multiset.count c g.cards ≤ 1 :=
    Multiset.nodup_iff_count_le_one.mp (cards_nodup g hp) _
  unfold Game.cards at h3
  simp only [Multiset.count_add] at h3
  omega

theorem stack_count (g : Game) (hp : PilesOK g) (i : Nat) (hi : i < 7) (d : DealtCard)
    (hd : d ∈ (g.stack i).cards) :
    1 ≤ Multiset.count d.card (g.tableau.map (fun cs =>
          ((cs.cards.map DealtCard.card : List Card) : Multiset Card))).sum := by
  have hmem : (((g.stack i).cards.map DealtCard.card : List Card) : Multiset Card)
      ∈ g.tableau.map (fun cs =>
          ((cs.cards.map DealtCard.card : List Card) : Multiset Card)) := by
    rw [← tableau_getD g i (by rw [hp.tableau_length]; exact hi)]
    rw [List.getD_eq_getElem _ _ (by simp [hp.tableau_length]; exact hi)]
    exact List.getElem_mem _
  apply Multiset.one_le_count_iff_mem.mpr
  exact mem_list_sum _ _ _ hmem (by simpa using ⟨d, hd, rfl⟩)

theorem tableau_unique (g : Game) (hp : PilesOK g) (i j : Nat) (hi : i < 7) (hj : j < 7)
    (a b : DealtCard) (ha : a ∈ (g.stack i).cards) (hb : b ∈ (g.stack j).cards)
    (hab : a.card = b.card) : i = j ∧ a = b := by
  have hle := tableau_count_le g hp a.card
  have hlen := hp.tableau_length
  have hca : 1 ≤ Multiset.count a.card
      (((g.stack i).cards.map DealtCard.card : List Card) : Multiset Card) :=
    Multiset.one_le_count_iff_mem.mpr (by simpa using ⟨a, ha, rfl⟩)
  have hcb : 1 ≤ Multiset.count a.card
      (((g.stack j).cards.map DealtCard.card : List Card) : Multiset Card) :=
    Multiset.one_le_count_iff_mem.mpr (by simpa using ⟨b, hb, hab.symm⟩)
  have hij : i = j := by
    by_contra hne
    rcases Nat.lt_or_gt_of_ne hne with hlt | hlt
    · have hcount := count_list_sum_two
        (g.tableau.map (fun cs =>
          ((cs.cards.map DealtCard.card : List Card) : Multiset Card)))
        a.card i j hlt (by simpa [hlen] using hj)
      rw [tableau_getD g i (by omega), tableau_getD g j (by omega)] at hcount
      omega
    · have hcount := count_list_sum_two
        (g.tableau.map (fun cs =>
          ((cs.cards.map DealtCard.card : List Card) : Multiset Card)))
        a.card j i hlt (by simpa [hlen] using hi)
      rw [tableau_getD g i (by omega), tableau_getD g j (by omega)] at hcount
      omega
  refine ⟨hij, ?_⟩
  subst hij
  have hmem : (((g.stack i).cards.map DealtCard.card : List Card) : Multiset Card)
      ∈ g.tableau.map (fun cs =>
          ((cs.cards.map DealtCard.card : List Card) : Multiset Card)) := by
    rw [← tableau_getD g i (by omega)]
    rw [List.getD_eq_getElem _ _ (by simp [hlen]; exact hi)]
    exact List.getElem_mem _
  have hnd : (((g.stack i).cards.map DealtCard.card : List Card) : Multiset Card).Nodup := by
    apply Multiset.nodup_of_le (le_list_sum _ _ hmem)
    apply Multiset.nodup_of_le _ (cards_nodup g hp)
    unfold Game.cards
    exact le_trans (Multiset.le_add_left _ _) (Multiset.le_add_right _ _)
  exact List.inj_on_of_nodup_map (Multiset.coe_nodup.mp hnd) ha hb hab

theorem dragged_in_column (g : Game) (hp : PilesOK g) (hd : DragOK g)
    (hn : g.drag_type ≠ DragType.NONE) (i : Nat) (hi : i < 7) (a b : DealtCard)
    (ha : a ∈ (g.stack i).cards) (hb : b ∈ g.dragged_cards) (hab : a.card = b.card) :
    a = b := by
  have hle := tableau_count_le g hp a.card
  have hca := stack_count g hp i hi a ha
  rcases drag_type_cases g.drag_type with h0 | h1 | ⟨h2, _, _, h2b⟩ | ⟨h3, _, _, h3b⟩
  · exact absurd h0 hn
  · obtain ⟨c, hc, hdc⟩ := hd.top_card h1
    obtain ⟨rest, hh, _, _⟩ := waste_top g.taken g.stock_history c hc hp.waste
    rw [hdc] at hb
    simp only [List.mem_singleton] at hb
    have hbc : a.card = c := by rw [hab, hb]
    have : 1 ≤ Multiset.count a.card (g.stock_history : Multiset Card) := by
      apply Multiset.one_le_count_iff_mem.mpr
      rw [hh, hbc]
      simp
    omega
  · obtain ⟨hne, hdc⟩ := hd.foundation h2
    rw [hdc] at hb
    simp only [List.mem_singleton] at hb
    have hfm := foundation_mem g (origin_foundation g.drag_type)
      (by rw [hp.foundations_length]; exact h2b)
    have htop := (foundation_top_mem _ (hp.next_nonneg _ hfm) hne).1
    have hmem : (((g.foundation (origin_foundation g.drag_type)).cards : List Card) :
        Multiset Card) ∈ g.foundations.map
          (fun f => ((f.cards : List Card) : Multiset Card)) :=
      List.mem_map.mpr ⟨_, hfm, rfl⟩
    have : 1 ≤ Multiset.count a.card
        (g.foundations.map (fun f => ((f.cards : List Card) : Multiset Card))).sum := by
      apply Multiset.one_le_count_iff_mem.mpr
      apply mem_list_sum _ _ _ hmem
      rw [hab, hb]
      simpa using htop
    omega
  · obtain ⟨_, hsuf⟩ := hd.stack h3
    exact (tableau_unique g hp i _ hi h3b a b ha (hsuf.subset hb) hab).2

theorem arranged_frame_four :
    frame arranged_drag
        ((((Wrapper.initial 50 50 true).update 140 50 false).update 140 50 true).update
          196 171 false)
      = some arranged_dropped := by decide

theorem arranged_dropped_reachable : Reachable arranged_dropped arranged_mouse :=
  Reachable.step _ _ _ 200 140 true arranged_drag_reachable rfl arranged_frame_four

theorem arranged_frame_five :
    frame arranged_dropped arranged_mouse = some arranged_run_drag := by decide

theorem arranged_run_drag_reachable :
    Reachable arranged_run_drag (arranged_mouse.update 200 140 true) :=
  Reachable.step _ _ _ 200 140 true arranged_dropped_reachable rfl arranged_frame_five

theorem chain_adjacent {α : Type} (R : α → α → Prop) :
    ∀ (l : List α), l.Chain' R → ∀ (j : Nat) (a b : α),
      l[j]? = some a → l[j + 1]? = some b → R a b := by
  intro l
  induction l with
  | nil => intro _ j a b ha; simp at ha
  | cons x rest ih =>
    intro hc j a b ha hb
    cases rest with
    | nil => simp at hb
    | cons y rest2 =>
      rw [List.chain'_cons] at hc
      cases j with
      | zero =>
        simp only [List.getElem?_cons_zero, Option.some.injEq] at ha
        simp only [zero_add, List.getElem?_cons_succ, List.getElem?_cons_zero,
          Option.some.injEq] at hb
        rw [← ha, ← hb]
        exact hc.1
      | succ j =>
        simp only [List.getElem?_cons_succ] at ha hb
        exact ih hc.2 j a b ha (by simpa using hb)

theorem pairwise_index {α : Type} (R : α → α → Prop) (l : List α) (h : l.Pairwise R)
    (j k : Nat) (a b : α) (hjk : j < k) (ha : l[j]? = some a) (hb : l[k]? = some b) :
    R a b := by
  have hk : k < l.length := by
    by_contra hcon
    rw [List.getElem?_eq_none (by omega)] at hb
    exact absurd hb (by simp)
  have hj : j < l.length := by omega
  rw [List.getElem?_eq_getElem hj] at ha
  rw [List.getElem?_eq_getElem hk] at hb
  rw [← Option.some.inj ha, ← Option.some.inj hb]
  exact List.pairwise_iff_getElem.mp h j k hj hk hjk

--THMS
theorem frame_flag_change (g g1 : Game) (w : Wrapper) (hi : Invariant g w)
    (ht : TableauOK g) (h : frame g w = some g1) (i i1 : Nat) (hi7 : i < 7) (hi17 : i1 < 7)
    (c : Card) (up up1 : Bool)
    (hd : ({ card := c, face_up := up } : DealtCard) ∈ (g.stack i).cards)
    (hd1 : ({ card := c, face_up := up1 } : DealtCard) ∈ (g1.stack i1).cards)
    (hne : up ≠ up1) :
    up = false ∧ up1 = true ∧ i1 = i
      ∧ (g.stack i).cards.getLast? = some { card := c, face_up := false }
      ∧ (g1.stack i).cards.getLast? = some { card := c, face_up := true } := by
  have hold : ∀ d1 : DealtCard, d1 ∈ (g.stack i1).cards → d1.card = c →
      i = i1 ∧ ({ card := c, face_up := up } : DealtCard) = d1 := fun d1 hm hc =>
    tableau_unique g hi.piles i i1 hi7 hi17 _ d1 hd hm hc.symm
  have hsame : ({ card := c, face_up := up1 } : DealtCard) ∈ (g.stack i1).cards → False := by
    intro hm
    have := (hold _ hm rfl).2
    simp only [DealtCard.mk.injEq, true_and] at this
    exact hne this
  rcases frame_column_effect g g1 w hi ht h i1 hi17 with h1 | ⟨init, back, h1, h2, h3⟩
    | ⟨hn, h1⟩ | ⟨top, h1⟩
  · rw [h1] at hd1
    exact absurd (hsame hd1) id
  · rw [h3] at hd1
    rcases List.mem_append.mp hd1 with hm | hm
    · exact absurd (hsame (by rw [h1]; exact List.mem_append_left _ hm)) id
    · simp only [List.mem_singleton, DealtCard.mk.injEq] at hm
      have hb : back ∈ (g.stack i1).cards := by rw [h1]; simp
      obtain ⟨e1, e2⟩ := hold back hb hm.1.symm
      have hup : up = false := by
        have := congrArg DealtCard.face_up e2
        simp only at this
        rw [this, h2]
      subst e1
      refine ⟨hup, hm.2, rfl, ?_, ?_⟩
      · rw [h1, ← e2, hup]; simp
      · rw [h3, ← hm.1]; simp
  · rw [h1] at hd1
    rcases List.mem_append.mp hd1 with hm | hm
    · exact absurd (hsame hm) id
    · have := dragged_in_column g hi.piles hi.drag hn i hi7 _ _ hd hm rfl
      simp only [DealtCard.mk.injEq, true_and] at this
      exact absurd this hne
  · exact absurd (hsame (by rw [h1]; exact List.mem_append_left _ hd1)) id

theorem layout_ok_of_le {g g1 : Game} (h : LayoutOK g)
    (hx : g1.stock_bbox.x2 = g.stock_bbox.x2) (hy : g1.stock_bbox.y2 = g.stock_bbox.y2)
    (hb : g1.top_card_bbox = g.top_card_bbox) (hl : g1.taken.length ≤ g.taken.length) :
    LayoutOK g1 := by
  refine ⟨by rw [hx]; exact h.stock_x2, by rw [hy]; exact h.stock_y2, ?_,
    le_trans hl h.waste_size⟩
  intro hne
  rw [hb]
  apply h.waste_box
  intro hnil
  rw [hnil] at hl
  exact hne (List.length_eq_zero.mp (Nat.le_zero.mp hl))

theorem stock_click_layout (g : Game) (h : LayoutOK g) : LayoutOK (stock_click g) := by
  by_cases hs : g.stock = []
  · rw [stock_click_of_empty g hs]
    refine layout_ok_of_le h rfl rfl rfl ?_
    simp only
    split
    · exact le_refl _
    · simp
  · rw [stock_click_of_nonempty g hs]
    have hpos : 0 < g.stock.length := List.length_pos.mpr hs
    refine ⟨h.stock_x2, h.stock_y2, ?_, ?_⟩
    · intro _
      simp only
      omega
    · simp only [List.length_take]
      omega

theorem click_layout (g g1 : Game) (mx my : Int) (h : LayoutOK g)
    (hc : click g mx my = some g1) : LayoutOK g1 := by
  have he := click_effect g g1 mx my hc
  have h0 : LayoutOK (if g.stock_bbox.collision_point mx my = true then stock_click g
      else g) := by
    split
    · exact stock_click_layout g h
    · exact h
  exact layout_ok_of_le h0 (by rw [he.stock_bbox]) (by rw [he.stock_bbox]) he.top_card_bbox
    (by rw [he.taken])

theorem release_layout (g g1 : Game) (mx my : Int) (h : LayoutOK g)
    (hr : release g mx my = some g1) : LayoutOK g1 := by
  obtain ⟨g2, valid, hdrop, h1 | h1⟩ := release_cases g g1 mx my hr
  · rw [h1.2]
    exact layout_ok_of_le h rfl rfl rfl (le_refl _)
  · obtain ⟨_, g3, hrem, hg1⟩ := h1
    have h2 : LayoutOK g2 := by
      rcases drop_cases g g2 valid mx my hdrop with ⟨_, e⟩ | ⟨_, d, j, _, _, _, e⟩
        | ⟨_, back, d, k, _, _, _, _, e⟩
      · rw [e]; exact h
      · rw [e]; exact layout_ok_of_le h rfl rfl rfl (le_refl _)
      · rw [e]; exact layout_ok_of_le h rfl rfl rfl (le_refl _)
    have h3 : LayoutOK g3 := by
      rcases remove_origin_cases g2 g3 hrem with ⟨_, e⟩ | ⟨_, c, rest, _, _, e⟩ | ⟨_, e⟩
        | ⟨_, base, top, _, _, e⟩
      · rw [e]; exact h2
      · rw [e]
        exact layout_ok_of_le h2 rfl rfl rfl (by simp)
      · rw [e]; exact layout_ok_of_le h2 rfl rfl rfl (le_refl _)
      · rw [e]; exact layout_ok_of_le h2 rfl rfl rfl (le_refl _)
    rw [hg1]
    exact layout_ok_of_le h3 rfl rfl rfl (le_refl _)

theorem finish_stock_bbox (g : Game) :
    (finish g).stock_bbox.x2 = g.stock_bbox.x2
      ∧ (finish g).stock_bbox.y2 = g.stock_bbox.y2 := by
  have hd : (draw g).stock_bbox.x2 = g.stock_bbox.x2
      ∧ (draw g).stock_bbox.y2 = g.stock_bbox.y2 := by
    unfold draw
    split <;> exact ⟨rfl, rfl⟩
  unfold finish
  split <;> exact hd

theorem finish_layout (g : Game) (h : LayoutOK g) : LayoutOK (finish g) := by
  obtain ⟨_, e2, _, _, _, e6, _, _⟩ := finish_fields g
  exact layout_ok_of_le h (finish_stock_bbox g).1 (finish_stock_bbox g).2 e6 (by rw [e2])

theorem frame_layout (g g1 : Game) (w : Wrapper) (h : LayoutOK g)
    (hf : frame g w = some g1) : LayoutOK g1 := by
  rcases frame_cases g g1 w hf with ⟨_, g2, hclick, hg1⟩ | ⟨_, _, _, g3, hrel, hg1⟩
    | ⟨_, _, hg1⟩
  · rw [hg1]
    exact finish_layout g2 (click_layout g g2 w.mouse_x w.mouse_y h hclick)
  · rw [hg1]
    exact finish_layout g3 (release_layout g g3 w.mouse_x w.mouse_y h hrel)
  · rw [hg1]
    exact finish_layout g h

theorem new_game_layout (deck_vector : List Card) (x1 y1 : Int) (b : BBox) (g : Game)
    (h : new_game deck_vector x1 y1 b = some g) : LayoutOK g := by
  unfold new_game at h
  cases hd : deal deck_vector.reverse with
  | none => rw [hd] at h; simp at h
  | some r =>
    rw [hd] at h
    simp only [Option.some.injEq] at h
    subst h
    exact ⟨rfl, rfl, fun hne => absurd rfl hne, by simp⟩

theorem reachable_layout_ok (g : Game) (w : Wrapper) (h : Reachable g w) : LayoutOK g := by
  induction h with
  | start deck_vector x1 y1 b g x y lmb _ hg => exact new_game_layout deck_vector x1 y1 b g hg
  | step g g1 w x y lmb _ _ hf ih => exact frame_layout g g1 w ih hf

--THMS
theorem drag_none_iff (g : Game) (hd : DragOK g) :
    g.drag_type = DragType.NONE ↔ g.dragged_cards = [] := by
  constructor
  · exact hd.none
  · intro hnil
    rcases drag_type_cases g.drag_type with h0 | h1 | ⟨h2, _⟩ | ⟨h3, _⟩
    · exact h0
    · obtain ⟨c, _, hc⟩ := hd.top_card h1
      rw [hc] at hnil
      exact absurd hnil (by simp)
    · have := (hd.foundation h2).2
      rw [this] at hnil
      exact absurd hnil (by simp)
    · exact absurd hnil (hd.stack h3).1

theorem release_foundations_same (g g1 : Game) (mx my : Int) (hd : DragOK g)
    (hr : release g mx my = some g1) (hlen : g.dragged_cards.length ≠ 1) :
    g1.foundations = g.foundations := by
  obtain ⟨g2, valid, hdrop, h1 | h1⟩ := release_cases g g1 mx my hr
  · rw [h1.2]
  · obtain ⟨_, g3, hrem, hg1⟩ := h1
    have h2 : g2.foundations = g.foundations ∧ g2.drag_type = g.drag_type := by
      rcases drop_cases g g2 valid mx my hdrop with ⟨_, e⟩ | ⟨_, d, j, hd1, _⟩
        | ⟨_, back, d, k, _, _, _, _, e⟩
      · rw [e]; exact ⟨rfl, rfl⟩
      · rw [hd1] at hlen
        exact absurd rfl hlen
      · rw [e]; exact ⟨rfl, rfl⟩
    have h3 : g3.foundations = g2.foundations := by
      rcases remove_origin_cases g2 g3 hrem with ⟨_, e⟩ | ⟨_, c, rest, _, _, e⟩ | ⟨hof, _⟩
        | ⟨_, base, top, _, _, e⟩
      · rw [e]
      · rw [e]
      · rw [h2.2] at hof
        have := (hd.foundation (by omega)).2
        rw [this] at hlen
        exact absurd rfl hlen
      · rw [e]
    rw [hg1]
    exact h3.trans h2.1

theorem drop_on_foundations_many (g : Game) (mx my : Int)
    (hlen : g.dragged_cards.length ≠ 1) : drop_on_foundations g mx my = (g, false) := by
  unfold drop_on_foundations
  split
  · rename_i d hd1
    rw [hd1] at hlen
    exact absurd rfl hlen
  · rfl

theorem top_card_bbox_loop_eq (size : Nat) :
    ∀ (l : List DealtCard) (i : Nat) (bbox : BBox), l ≠ [] → i + l.length = size →
      top_card_bbox_loop size l i bbox
        = { bbox with y1 := bbox.y1 + fan_offset l.dropLast
                      y2 := bbox.y2 + fan_offset l.dropLast } := by
  intro l
  induction l with
  | nil => intro i bbox h; exact absurd rfl h
  | cons c rest ih =>
    intro i bbox _ hlen
    cases rest with
    | nil =>
      simp only [List.length_singleton] at hlen
      have hi : i = size - 1 := by omega
      simp [top_card_bbox_loop, hi, fan_offset]
    | cons c1 rest1 =>
      simp only [List.length_cons] at hlen
      have hi : i ≠ size - 1 := by omega
      unfold top_card_bbox_loop
      rw [ih (i + 1) _ (by simp) (by simp only [List.length_cons]; omega)]
      simp only [hi, ne_eq, not_false_eq_true, if_true, List.dropLast_cons₂, fan_offset,
        List.map_cons, List.sum_cons]
      cases c.face_up <;> simp only [Bool.false_eq_true, if_false, if_true, BBox.mk.injEq,
        true_and] <;> constructor <;> ring

theorem get_top_card_bbox_eq (init : List DealtCard) (last : DealtCard) (x y : Int) :
    ({ cards := init ++ [last] } : CardStack).get_top_card_bbox x y
      = { x1 := x, y1 := y + fan_offset init, x2 := x + 70, y2 := y + 95 + fan_offset init } := by
  unfold CardStack.get_top_card_bbox
  have hne : (init ++ [last]).isEmpty = false := by
    cases init <;> rfl
  simp only [hne, Bool.false_eq_true, if_false]
  rw [top_card_bbox_loop_eq _ _ 0 _ (by simp) (by simp)]
  simp

theorem draw_loop_append (x : Int) (last : DealtCard) :
    ∀ (init : List DealtCard) (y : Int),
      draw_loop x (init ++ [last]) y
        = draw_loop x init y ++ [last.draw x (y + fan_offset init)] := by
  intro init
  induction init with
  | nil => intro y; simp [draw_loop, fan_offset]
  | cons c rest ih =>
    intro y
    rw [List.cons_append]
    unfold draw_loop
    rw [ih]
    simp only [fan_offset, List.map_cons, List.sum_cons, List.cons_append]
    cases c.face_up <;> simp only [Bool.false_eq_true, if_false, if_true, add_assoc]

theorem draw_loop_length (x : Int) :
    ∀ (l : List DealtCard) (y : Int), (draw_loop x l y).length = l.length := by
  intro l
  induction l with
  | nil => intro y; rfl
  | cons c rest ih => intro y; simp [draw_loop, ih]

--THMS
theorem rotate_to_end_eq (D R U : List DealtCard) (c : DealtCard) :
    rotate_to_end (D ++ (c :: R) ++ U) D.length = D ++ R ++ (U ++ [c]) := by
  unfold rotate_to_end
  have h1 : (D ++ (c :: R) ++ U).take D.length = D := by
    rw [List.append_assoc, List.take_left']
    rfl
  have h2 : (D ++ (c :: R) ++ U).drop D.length = c :: (R ++ U) := by
    rw [List.append_assoc, List.drop_left']
    · rfl
    · rfl
  have h3 : (D ++ (c :: R) ++ U).drop (D.length + 1) = R ++ U := by
    rw [← List.drop_drop, h2]
    rfl
  rw [h1, h2, h3]
  simp

theorem card_stack_loop_eq :
    ∀ (R D U : List DealtCard) (fuel : Nat), R.length < fuel →
      (D ++ R ++ U).length < size_t_mod →
      card_stack_loop fuel D.length (D.length + R.length) (D ++ R ++ U)
        = some (D ++ R.filter (fun c => !c.face_up) ++ (U ++ R.filter (fun c => c.face_up))) := by
  intro R
  induction R with
  | nil =>
    intro D U fuel hf _
    cases fuel with
    | zero => exact absurd hf (by simp)
    | succ f => simp [card_stack_loop]
  | cons c R ih =>
    intro D U fuel hf hlen
    cases fuel with
    | zero => exact absurd hf (by simp)
    | succ f =>
      simp only [List.length_cons] at hf
      have hget : (D ++ (c :: R) ++ U)[D.length]? = some c := by
        rw [List.append_assoc, List.getElem?_append_right (le_refl _)]
        simp
      have hlen2 : D.length + (R.length + 1) + U.length < size_t_mod := by
        simp only [List.length_append, List.length_cons] at hlen
        exact hlen
      unfold card_stack_loop
      simp only [List.length_cons, Nat.lt_add_right_iff_pos, Nat.succ_pos, if_true, hget]
      cases hc : c.face_up with
      | true =>
        simp only [if_true]
        have hi : ((D.length + size_t_mod - 1) % size_t_mod + 1) % size_t_mod = D.length := by
          unfold size_t_mod at hlen2 ⊢
          omega
        have hs : (D.length + (R.length + 1) + size_t_mod - 1) % size_t_mod
            = D.length + R.length := by
          unfold size_t_mod at hlen2 ⊢
          omega
        rw [hi, hs, rotate_to_end_eq]
        rw [ih D (U ++ [c]) f (by omega)
          (by simp only [List.length_append, List.length_singleton]; omega)]
        simp [List.filter_cons, hc]
      | false =>
        simp only [Bool.false_eq_true, if_false]
        have hi : (D.length + 1) % size_t_mod = (D ++ [c]).length := by
          simp only [List.length_append, List.length_singleton]
          unfold size_t_mod at hlen2 ⊢
          omega
        have hs : D.length + (R.length + 1) = (D ++ [c]).length + R.length := by
          simp only [List.length_append, List.length_singleton]
          omega
        have hcards : D ++ (c :: R) ++ U = (D ++ [c]) ++ R ++ U := by simp
        rw [hi, hs, hcards]
        rw [ih (D ++ [c]) U f (by omega)
          (by simp only [List.length_append, List.length_singleton]; omega)]
        simp [List.filter_cons, hc]

theorem construct_eq (cards : List DealtCard) (fuel : Nat) (hf : cards.length < fuel)
    (hlen : cards.length < size_t_mod) :
    CardStack.construct cards fuel
      = some { cards := cards.filter (fun c => !c.face_up)
                 ++ cards.filter (fun c => c.face_up) } := by
  unfold CardStack.construct
  have := card_stack_loop_eq cards [] [] fuel hf (by simpa using hlen)
  simp only [List.length_nil, Nat.zero_add, List.nil_append, List.append_nil] at this
  rw [this]
  rfl

theorem partition_perm (cards : List DealtCard) :
    (cards.filter (fun c => !c.face_up) ++ cards.filter (fun c => c.face_up)).Perm cards := by
  induction cards with
  | nil => simp
  | cons c rest ih =>
    cases hc : c.face_up with
    | true =>
      simp only [List.filter_cons, hc, Bool.not_true, Bool.false_eq_true, if_false, if_true]
      exact (List.perm_middle).trans (List.Perm.cons c ih)
    | false =>
      simp only [List.filter_cons, hc, Bool.not_false, if_true, Bool.false_eq_true, if_false,
        List.cons_append]
      exact List.Perm.cons c ih

--THMS

theorem foldl_fixed {σ : Type} (f : σ → Nat → σ) (l : List Nat)
    (h : ∀ t i, i ∈ l → f t i = t) (s : σ) : l.foldl f s = s := by
  induction l generalizing s with
  | nil => rfl
  | cons a rest ih =>
    rw [List.foldl_cons, h s a (List.mem_cons_self _ _)]
    exact ih (fun t i hi => h t i (List.mem_cons_of_mem _ hi)) s

theorem foldlM_fixed {σ : Type} (f : σ → Nat → Option σ) (l : List Nat)
    (h : ∀ t i, i ∈ l → f t i = some t) (s : σ) : l.foldlM f s = some s := by
  induction l generalizing s with
  | nil => rfl
  | cons a rest ih =>
    rw [List.foldlM_cons, h s a (List.mem_cons_self _ _)]
    exact ih (fun t i hi => h t i (List.mem_cons_of_mem _ hi)) s

theorem foldl_first_hit {σ : Type} (f : σ → Nat → σ) (box hit : Nat → Bool) (l : List Nat)
    (s : σ) (hnd : l.Nodup) (hbox : ∀ t i, box i = false → f t i = t)
    (hone : ∀ i j, box i = true → box j = true → i = j)
    (hhit : ∀ i, hit i = true → box i = true)
    (hmiss : ∀ i, i ∈ l → hit i = false → f s i = s) :
    l.foldl f s = match l.find? hit with
      | some i => f s i
      | none => s := by
  induction l with
  | nil => rfl
  | cons a rest ih =>
    rw [List.foldl_cons]
    cases ha : hit a with
    | true =>
      simp only [List.find?_cons, ha]
      apply foldl_fixed
      intro t i hi
      apply hbox
      by_contra hb
      have hia : i = a := hone i a (by simpa using hb) (hhit a ha)
      rw [hia] at hi
      exact (List.nodup_cons.mp hnd).1 hi
    | false =>
      simp only [List.find?_cons, ha]
      rw [hmiss a (List.mem_cons_self _ _) ha]
      exact ih (List.nodup_cons.mp hnd).2 (fun i hi => hmiss i (List.mem_cons_of_mem _ hi))

theorem foldlM_first_hit {σ : Type} (f : σ → Nat → Option σ) (box hit : Nat → Bool)
    (l : List Nat) (s : σ) (hnd : l.Nodup) (hbox : ∀ t i, box i = false → f t i = some t)
    (hone : ∀ i j, box i = true → box j = true → i = j)
    (hhit : ∀ i, hit i = true → box i = true)
    (hmiss : ∀ i, i ∈ l → hit i = false → f s i = some s) :
    l.foldlM f s = match l.find? hit with
      | some i => f s i
      | none => some s := by
  induction l with
  | nil => rfl
  | cons a rest ih =>
    rw [List.foldlM_cons]
    cases ha : hit a with
    | true =>
      simp only [List.find?_cons, ha]
      cases hf : f s a with
      | none => rfl
      | some t =>
        simp only [Option.bind_eq_bind, Option.some_bind]
        apply foldlM_fixed
        intro t i hi
        apply hbox
        by_contra hb
        have hia : i = a := hone i a (by simpa using hb) (hhit a ha)
        rw [hia] at hi
        exact (List.nodup_cons.mp hnd).1 hi
    | false =>
      simp only [List.find?_cons, ha]
      rw [hmiss a (List.mem_cons_self _ _) ha]
      simp only [Option.bind_eq_bind, Option.some_bind]
      exact ih (List.nodup_cons.mp hnd).2 (fun i hi => hmiss i (List.mem_cons_of_mem _ hi))

theorem fan_offset_nonneg (l : List DealtCard) : 0 ≤ fan_offset l := by
  induction l with
  | nil => simp [fan_offset]
  | cons c rest ih =>
    simp only [fan_offset, List.map_cons, List.sum_cons] at ih ⊢
    split <;> omega

theorem top_card_bbox_zone (s : CardStack) (x y : Int) :
    (s.get_top_card_bbox x y).x1 = x ∧ (s.get_top_card_bbox x y).x2 = x + 70
      ∧ y ≤ (s.get_top_card_bbox x y).y1 := by
  cases hl : s.cards.getLast? with
  | none =>
    have hnil : s.cards = [] := List.getLast?_eq_none_iff.mp hl
    simp [CardStack.get_top_card_bbox, hnil]
  | some back =>
    have hs : s = { cards := s.cards.dropLast ++ [back] } := by
      rw [List.dropLast_append_getLast? back hl]
    rw [hs, get_top_card_bbox_eq]
    have := fan_offset_nonneg s.cards.dropLast
    exact ⟨rfl, rfl, by simp only; omega⟩

theorem top_card_box_region (g : Game) (i : Nat) (mx my : Int)
    (h : ((g.stack i).get_top_card_bbox (15 + 86 * (i : Int)) 126).collision_point mx my
      = true) :
    15 + 86 * (i : Int) ≤ mx ∧ mx ≤ 85 + 86 * (i : Int) ∧ 126 ≤ my := by
  obtain ⟨h1, h2, h3⟩ := top_card_bbox_zone (g.stack i) (15 + 86 * (i : Int)) 126
  simp only [BBox.collision_point, Bool.and_eq_true, decide_eq_true_eq, h1, h2] at h
  omega

theorem run_hit_region (g : Game) (i : Nat) (mx my : Int) (h : run_hit mx my g i = true) :
    15 + 86 * (i : Int) ≤ mx ∧ mx ≤ 85 + 86 * (i : Int) ∧ 126 ≤ my := by
  obtain ⟨hy, hx1, hx2, _, _⟩ := tableau_scan_hit i mx my (g.stack i).cards.length
    (g.stack i).cards 0 _ rfl (le_refl _) h
  exact ⟨hx1, hx2, hy⟩

theorem tableau_hit_region (g : Game) (i : Nat) (mx my : Int)
    (h : tableau_hit mx my g i = true) :
    15 + 86 * (i : Int) ≤ mx ∧ mx ≤ 85 + 86 * (i : Int) ∧ 126 ≤ my := by
  simp only [tableau_hit, Bool.or_eq_true] at h
  rcases h with h | h
  · unfold reveal_hit at h
    split at h
    · simp only [Bool.and_eq_true] at h
      exact top_card_box_region g i mx my h.2
    · exact absurd h (by simp)
  · exact run_hit_region g i mx my h

theorem foundation_box_region (i : Nat) (mx my : Int)
    (h : (foundation_bboxes i).collision_point mx my = true) :
    273 + 86 * (i : Int) ≤ mx ∧ mx ≤ 343 + 86 * (i : Int) ∧ my ≤ 110 := by
  simp only [BBox.collision_point, foundation_bboxes, Bool.and_eq_true, decide_eq_true_eq] at h
  omega

theorem waste_hit_region (g : Game) (hl : LayoutOK g) (mx my : Int)
    (h : waste_hit mx my g = true) : mx ≤ 201 ∧ my ≤ 114 := by
  simp only [waste_hit, Bool.and_eq_true, Bool.not_eq_true', BBox.collision_point,
    decide_eq_true_eq] at h
  have hne : g.taken ≠ [] := by
    intro hnil
    rw [hnil] at h
    exact absurd h.1 (by simp)
  have := hl.waste_box hne
  omega

--THMS
theorem waste_pickup_miss (mx my : Int) (g : Game) (h : waste_hit mx my g = false) :
    waste_pickup mx my g = g := by
  unfold waste_pickup
  cases hl : g.taken.getLast? with
  | none => rfl
  | some back =>
    have hne : g.taken.isEmpty = false := by
      cases ht : g.taken with
      | nil => rw [ht] at hl; simp at hl
      | cons a l => rfl
    simp only [waste_hit, hne, Bool.not_false, Bool.true_and] at h
    simp only [h, Bool.false_eq_true, if_false]

theorem foundation_pickup_box_miss (mx my : Int) (g : Game) (i : Nat)
    (h : (foundation_bboxes i).collision_point mx my = false) :
    foundation_pickup mx my g i = g := by
  simp only [foundation_pickup, h, Bool.false_and, Bool.false_eq_true, if_false]

theorem foundation_pickup_miss (mx my : Int) (g : Game) (i : Nat)
    (h0 : 0 ≤ (g.foundation i).next) (h : foundation_hit mx my g i = false) :
    foundation_pickup mx my g i = g := by
  unfold foundation_pickup
  have hc : ((foundation_bboxes i).collision_point mx my
      && decide ((g.foundation i).next ≠ 0)) = false := by
    simp only [foundation_hit, Bool.and_eq_false_iff, decide_eq_false_iff_not] at h
    simp only [Bool.and_eq_false_iff, decide_eq_false_iff_not]
    rcases h with h | h
    · exact Or.inl h
    · right
      intro hne
      exact h (by omega)
  simp only [hc, Bool.false_eq_true, if_false]

theorem tableau_pickup_miss (mx my : Int) (g : Game) (i : Nat)
    (h : run_hit mx my g i = false) : tableau_pickup mx my g i = g := by
  unfold tableau_pickup
  unfold run_hit at h
  simp only [h, Bool.false_eq_true, if_false]

theorem tableau_interaction_region_miss (mx my : Int) (g : Game) (i : Nat)
    (h : ¬ (15 + 86 * (i : Int) ≤ mx ∧ mx ≤ 85 + 86 * (i : Int) ∧ 126 ≤ my)) :
    tableau_interaction mx my g i = some g := by
  have h1 : ((g.stack i).get_top_card_bbox (15 + 86 * (i : Int)) 126).collision_point mx my
      = false := by
    by_contra hc
    exact h (top_card_box_region g i mx my (by simpa using hc))
  have h2 : run_hit mx my g i = false := by
    by_contra hc
    exact h (run_hit_region g i mx my (by simpa using hc))
  unfold tableau_interaction
  simp only [h1, Bool.false_eq_true, if_false, tableau_pickup_miss mx my g i h2]

theorem tableau_interaction_as_specified (mx my : Int) (g : Game) (i : Nat)
    (hsafe : (g.stack i).cards = [] →
      ((g.stack i).get_top_card_bbox (15 + 86 * (i : Int)) 126).collision_point mx my
        = false) :
    tableau_interaction mx my g i = some (column_pickup_as_specified mx my g i) := by
  unfold tableau_interaction column_pickup_as_specified reveal_hit
  cases hl : (g.stack i).cards.getLast? with
  | none =>
    have hnil : (g.stack i).cards = [] := List.getLast?_eq_none_iff.mp hl
    simp only [hsafe hnil, Bool.false_eq_true, if_false]
  | some back =>
    simp only
    cases hc : ((g.stack i).get_top_card_bbox (15 + 86 * (i : Int)) 126).collision_point
        mx my with
    | false => simp only [Bool.false_eq_true, if_false, Bool.and_false]
    | true =>
      by_cases hb : back.face_up = true
      · simp only [hb, if_true, Bool.not_true, Bool.false_eq_true, if_false, Bool.false_and]
      · have hb2 : back.face_up = false := by simpa using hb
        simp only [hb2, if_true, Bool.not_false, Bool.and_self]

theorem column_pickup_miss (mx my : Int) (g : Game) (i : Nat)
    (h : tableau_hit mx my g i = false) : column_pickup_as_specified mx my g i = g := by
  simp only [tableau_hit, Bool.or_eq_false_iff] at h
  unfold column_pickup_as_specified
  cases hl : (g.stack i).cards.getLast? with
  | none => exact tableau_pickup_miss mx my g i h.2
  | some back =>
    simp only [h.1, Bool.false_eq_true, if_false]
    exact tableau_pickup_miss mx my g i h.2

theorem pickup_scan_eq (g : Game) (mx my : Int)
    (hp : ∀ i, i < 4 → 0 ≤ (g.foundation i).next) (hl : LayoutOK g)
    (hsafe : ∀ i, i < 7 → (g.stack i).cards = [] →
      ((g.stack i).get_top_card_bbox (15 + 86 * (i : Int)) 126).collision_point mx my
        = false) :
    (List.range 7).foldlM (tableau_interaction mx my)
        ((List.range 4).foldl (foundation_pickup mx my) (waste_pickup mx my g))
      = some (pickup_as_specified mx my g) := by
  unfold pickup_as_specified
  cases hw : waste_hit mx my g with
  | true =>
    obtain ⟨hx, hy⟩ := waste_hit_region g hl mx my hw
    simp only [if_true]
    rw [foldl_fixed (foundation_pickup mx my) (List.range 4)]
    · apply foldlM_fixed
      intro t i _
      exact tableau_interaction_region_miss mx my t i (by omega)
    · intro t i _
      apply foundation_pickup_box_miss
      by_contra hc
      have := foundation_box_region i mx my (by simpa using hc)
      omega
  | false =>
    simp only [Bool.false_eq_true, if_false, waste_pickup_miss mx my g hw]
    rw [foldl_first_hit (foundation_pickup mx my)
      (fun i => (foundation_bboxes i).collision_point mx my) (foundation_hit mx my g)
      (List.range 4) g (List.nodup_range 4)
      (fun t i hb => foundation_pickup_box_miss mx my t i hb)
      (fun i j hi hj => by
        have h1 := foundation_box_region i mx my hi
        have h2 := foundation_box_region j mx my hj
        omega)
      (fun i hi => by
        simp only [foundation_hit, Bool.and_eq_true] at hi
        exact hi.1)
      (fun i hi hm => foundation_pickup_miss mx my g i
        (hp i (List.mem_range.mp hi)) hm)]
    cases hf : (List.range 4).find? (foundation_hit mx my g) with
    | some i =>
      simp only
      have hhit : foundation_hit mx my g i = true := List.find?_some hf
      simp only [foundation_hit, Bool.and_eq_true] at hhit
      have hreg := foundation_box_region i mx my hhit.1
      apply foldlM_fixed
      intro t j _
      exact tableau_interaction_region_miss mx my t j (by omega)
    | none =>
      simp only
      rw [foldlM_first_hit (tableau_interaction mx my)
        (fun i => decide (15 + 86 * (i : Int) ≤ mx ∧ mx ≤ 85 + 86 * (i : Int) ∧ 126 ≤ my))
        (tableau_hit mx my g) (List.range 7) g (List.nodup_range 7)
        (fun t i hb => tableau_interaction_region_miss mx my t i (by simpa using hb))
        (fun i j hi hj => by
          simp only [decide_eq_true_eq] at hi hj
          omega)
        (fun i hi => by
          simp only [decide_eq_true_eq]
          exact tableau_hit_region g i mx my hi)
        (fun i hi hm => by
          rw [tableau_interaction_as_specified mx my g i (hsafe i (List.mem_range.mp hi)),
            column_pickup_miss mx my g i hm])]
      cases ht : (List.range 7).find? (tableau_hit mx my g) with
      | some i =>
        simp only
        exact tableau_interaction_as_specified mx my g i
          (hsafe i (List.mem_range.mp (List.mem_of_find?_eq_some ht)))
      | none => rfl

theorem click_eq_scan (g : Game) (mx my : Int) :
    click g mx my
      = (List.range 7).foldlM (tableau_interaction mx my)
          ((List.range 4).foldl (foundation_pickup mx my)
            (waste_pickup mx my (stock_step g mx my))) := rfl

theorem stock_step_ok (g : Game) (mx my : Int) (hp : PilesOK g) (hl : LayoutOK g) :
    PilesOK (stock_step g mx my) ∧ LayoutOK (stock_step g mx my)
      ∧ (stock_step g mx my).tableau = g.tableau := by
  unfold stock_step
  split
  · exact ⟨stock_click_piles g hp, stock_click_layout g hl, (stock_click_drag g).2.2.1⟩
  · exact ⟨hp, hl, rfl⟩

theorem click_eq_pickup (g : Game) (mx my : Int) (hp : PilesOK g) (hl : LayoutOK g)
    (hsafe : ∀ i, i < 7 → (g.stack i).cards = [] →
      ((g.stack i).get_top_card_bbox (15 + 86 * (i : Int)) 126).collision_point mx my
        = false) :
    click g mx my = some (pickup_as_specified mx my (stock_step g mx my)) := by
  obtain ⟨hp0, hl0, ht0⟩ := stock_step_ok g mx my hp hl
  rw [click_eq_scan]
  apply pickup_scan_eq _ mx my _ hl0
  · intro i hi
    rw [stack_congr g _ ht0 i]
    exact hsafe i hi
  · intro i hi
    exact hp0.next_nonneg _ (foundation_mem _ i (by rw [hp0.foundations_length]; exact hi))

theorem arranged_waste_reachable :
    Reachable arranged_waste
      (((Wrapper.initial 50 50 true).update 140 50 false).update 140 50 true) :=
  Reachable.step _ _ _ 140 50 true
    (Reachable.step _ _ _ 140 50 false (arranged_start_reachable 50 50 true) rfl
      arranged_frame_one)
    rfl arranged_frame_two

theorem reveal_deck_perm : reveal_deck.Perm build_deck := by decide

theorem reveal_start_eq :
    new_game reveal_deck 15 15 { x1 := 0, y1 := 0, x2 := 0, y2 := 0 }
      = some reveal_start := by decide

theorem reveal_frame_one :
    frame reveal_start (Wrapper.initial 136 150 true) = some reveal_ace_drag := by decide

theorem reveal_frame_two :
    frame reveal_ace_drag ((Wrapper.initial 136 150 true).update 308 39 false)
      = some reveal_ready := by decide

theorem reveal_frame_three : frame reveal_ready reveal_mouse = some reveal_done := by decide

theorem reveal_ready_reachable : Reachable reveal_ready reveal_mouse :=
  Reachable.step _ _ _ 136 150 true
    (Reachable.step _ _ _ 308 39 false
      (Reachable.start reveal_deck 15 15 { x1 := 0, y1 := 0, x2 := 0, y2 := 0 }
        reveal_start 136 150 true reveal_deck_perm reveal_start_eq)
      rfl reveal_frame_one)
    rfl reveal_frame_two

theorem kings_ace_home_reachable : Reachable kings_ace_home kings_empty_click :=
  Reachable.step _ _ _ 50 150 true
    (Reachable.step _ _ _ 308 39 false
      (Reachable.start kings_deck 15 15 { x1 := 0, y1 := 0, x2 := 0, y2 := 0 }
        kings_start 50 150 true kings_deck_perm kings_start_eq)
      rfl kings_frame_one)
    rfl kings_frame_two

theorem frame_of_click (g g2 : Game) (w : Wrapper) (hc : w.mouse_clicked = true)
    (h : click g w.mouse_x w.mouse_y = some g2) : frame g w = some (finish g2) := by
  have hdown : w.mouse_down = true := by
    simp only [Wrapper.mouse_clicked, Bool.and_eq_true] at hc
    exact hc.1
  unfold frame finish
  simp only [hc, if_true, h, hdown, Bool.true_eq_false, and_false, if_false]

theorem frame_of_click_none (g : Game) (w : Wrapper) (hc : w.mouse_clicked = true)
    (h : click g w.mouse_x w.mouse_y = none) : frame g w = none := by
  unfold frame
  simp only [hc, if_true, h]

theorem foldlM_none {σ : Type} (f : σ → Nat → Option σ) (l : List Nat) (i : Nat)
    (hi : i ∈ l) (hother : ∀ t j, j ∈ l → j ≠ i → f t j = some t) (s : σ)
    (hnone : f s i = none) : l.foldlM f s = none := by
  induction l with
  | nil => exact absurd hi (List.not_mem_nil i)
  | cons a rest ih =>
    rw [List.foldlM_cons]
    by_cases hai : a = i
    · rw [hai, hnone]
      rfl
    · rw [hother s a (List.mem_cons_self _ _) hai]
      simp only [Option.bind_eq_bind, Option.some_bind]
      apply ih
      · rcases List.mem_cons.mp hi with h1 | h1
        · exact absurd h1.symm hai
        · exact h1
      · intro t j hj hne
        exact hother t j (List.mem_cons_of_mem _ hj) hne

theorem find_unique (p : Nat → Bool) (l : List Nat) (i : Nat) (hi : i ∈ l)
    (hp : p i = true) (hone : ∀ j, p j = true → j = i) : l.find? p = some i := by
  cases hf : l.find? p with
  | none =>
    have := List.find?_eq_none.mp hf i hi
    exact absurd hp this
  | some j => rw [hone j (List.find?_some hf)]

--THMS
theorem stock_step_below (g : Game) (mx my : Int) (hl : LayoutOK g) (hy : 126 ≤ my) :
    stock_step g mx my = g := by
  unfold stock_step
  have hc : g.stock_bbox.collision_point mx my = false := by
    simp only [BBox.collision_point, hl.stock_y2, Bool.and_eq_false_iff,
      decide_eq_false_iff_not]
    right
    omega
  simp only [hc, Bool.false_eq_true, if_false]

theorem waste_miss_below (g : Game) (mx my : Int) (hl : LayoutOK g) (hy : 126 ≤ my) :
    waste_hit mx my g = false := by
  by_contra hc
  have := waste_hit_region g hl mx my (by simpa using hc)
  omega

theorem foundation_miss_below (mx my : Int) (hy : 126 ≤ my) (i : Nat) :
    (foundation_bboxes i).collision_point mx my = false := by
  by_contra hc
  have := foundation_box_region i mx my (by simpa using hc)
  omega

theorem reveal_click (g : Game) (mx my : Int) (hp : PilesOK g) (hl : LayoutOK g) (i : Nat)
    (hi : i < 7) (back : DealtCard) (hback : (g.stack i).cards.getLast? = some back)
    (hdown : back.face_up = false)
    (hbox : ((g.stack i).get_top_card_bbox (15 + 86 * (i : Int)) 126).collision_point mx my
      = true) :
    click g mx my
      = some { g with tableau := g.tableau.set i { cards := flip_top (g.stack i).cards back } }
      := by
  have hreg := top_card_box_region g i mx my hbox
  have hsafe : ∀ j, j < 7 → (g.stack j).cards = [] →
      ((g.stack j).get_top_card_bbox (15 + 86 * (j : Int)) 126).collision_point mx my
        = false := by
    intro j _ hnil
    by_contra hc
    have hj := top_card_box_region g j mx my (by simpa using hc)
    have hji : j = i := by omega
    rw [hji] at hnil
    rw [hnil] at hback
    exact absurd hback (by simp)
  have hrev : reveal_hit mx my g i = true := by
    unfold reveal_hit
    rw [hback]
    simp only [hdown, Bool.not_false, hbox, Bool.and_self]
  have hhit : tableau_hit mx my g i = true := by
    simp only [tableau_hit, hrev, Bool.true_or]
  rw [click_eq_pickup g mx my hp hl hsafe, stock_step_below g mx my hl hreg.2.2]
  unfold pickup_as_specified
  have hf : (List.range 4).find? (foundation_hit mx my g) = none := by
    apply List.find?_eq_none.mpr
    intro j _
    simp only [foundation_hit, foundation_miss_below mx my hreg.2.2 j, Bool.false_and,
      Bool.false_eq_true, not_false_eq_true]
  have ht : (List.range 7).find? (tableau_hit mx my g) = some i := by
    apply find_unique _ _ i (List.mem_range.mpr hi) hhit
    intro j hj
    have := tableau_hit_region g j mx my hj
    omega
  simp only [waste_miss_below g mx my hl hreg.2.2, Bool.false_eq_true, if_false, hf, ht]
  unfold column_pickup_as_specified
  rw [hback]
  simp only [hrev, if_true]

theorem empty_column_click_none (g : Game) (mx my : Int) (hl : LayoutOK g) (i : Nat)
    (hi : i < 7) (hempty : (g.stack i).cards = [])
    (hbox : 15 + 86 * (i : Int) ≤ mx ∧ mx ≤ 85 + 86 * (i : Int) ∧ 126 ≤ my ∧ my ≤ 221) :
    click g mx my = none := by
  rw [click_eq_scan, stock_step_below g mx my hl hbox.2.2.1,
    waste_pickup_miss mx my g (waste_miss_below g mx my hl hbox.2.2.1),
    foldl_fixed (foundation_pickup mx my) (List.range 4)
      (fun t j _ => foundation_pickup_box_miss mx my t j
        (foundation_miss_below mx my hbox.2.2.1 j))]
  apply foldlM_none _ _ i (List.mem_range.mpr hi)
  · intro t j _ hne
    apply tableau_interaction_region_miss
    intro hj
    apply hne
    omega
  · unfold tableau_interaction
    have hc : ((g.stack i).get_top_card_bbox (15 + 86 * (i : Int)) 126).collision_point
        mx my = true := by
      simp only [CardStack.get_top_card_bbox, hempty, List.isEmpty_nil, if_true,
        BBox.collision_point, Bool.and_eq_true, decide_eq_true_eq]
      omega
    simp only [hc, if_true, hempty, List.getLast?_nil]

--THMS

/-! ## The properties -/

/-- C1 (tableau drop onto a non-empty column): when the foundations did not
accept and the chosen column has the top card `back`, the release accepts the
dragged cards exactly when `back` is face-up, the first dragged card `d` has
index one less than `back` and the two colours differ; a King (index 12) is
not accepted on any card of the deck. -/
theorem tableau_drop_on_nonempty_column (g : Game) (mouse_x mouse_y : Int)
    (back d : DealtCard)
    (hf : (drop_on_foundations g mouse_x mouse_y).2 = false)
    (hc : colliding_stacks g mouse_x mouse_y ≠ [])
    (hback : (g.stack (closest_index (mouse_x - g.drag_offset_x + 35)
      (colliding_stacks g mouse_x mouse_y) stack_distance)).cards.getLast? = some back)
    (hd : g.dragged_cards.head? = some d) :
    (drop g mouse_x mouse_y).map Prod.snd
        = some (decide (back.face_up = true ∧ d.card.index + 1 = back.card.index
            ∧ d.card.suit.is_red ≠ back.card.suit.is_red))
      ∧ (d.card.index = 12 → back.card ∈ build_deck →
          (drop g mouse_x mouse_y).map Prod.snd = some false) := by
  have key : (drop g mouse_x mouse_y).map Prod.snd
      = some (decide (back.face_up = true ∧ d.card.index + 1 = back.card.index
            ∧ d.card.suit.is_red ≠ back.card.suit.is_red)) := by
    rw [drop_eq_drop_on_tableau g mouse_x mouse_y hf,
      drop_on_tableau_nonempty g mouse_x mouse_y back d hc hback hd,
      tableau_condition_nonempty]
    split <;> simp_all
  refine ⟨key, fun h12 hmem => ?_⟩
  rw [key]
  have hle := (build_deck_index back.card hmem).2
  have : ¬ (d.card.index + 1 = back.card.index) := by omega
  simp [this]

theorem tableau_drop_on_nonempty_column_witness :
    (drop arranged_drag 196 171).map Prod.snd = some true
      ∧ (drop kings_king_drag 222 153).map Prod.snd = some false :=
  ⟨(tableau_drop_on_nonempty_column arranged_drag 196 171
      { card := { index := 6, suit := Suit.CLUBS }, face_up := true }
      { card := { index := 5, suit := Suit.HEARTS }, face_up := true }
      (by decide) (by decide) (by decide) (by decide)).1,
   (tableau_drop_on_nonempty_column kings_king_drag 222 153
      { card := { index := 5, suit := Suit.CLUBS }, face_up := true }
      { card := { index := 12, suit := Suit.SPADES }, face_up := true }
      (by decide) (by decide) (by decide) (by decide)).2 rfl (by decide)⟩

/-- C2 (tableau drop onto an empty column), evaluated where the code fails:
in a reachable state column 0 is empty and the King of spades, dragged from
column 1, is released over it; the drop reads `back()` of the empty column,
so neither the drop, nor the release, nor the frame has a defined result. -/
theorem king_on_empty_column_undefined :
    Reachable kings_king_drag kings_mouse
      ∧ (kings_king_drag.stack 0).cards = []
      ∧ kings_king_drag.dragged_cards
          = [{ card := { index := 12, suit := Suit.SPADES }, face_up := true }]
      ∧ colliding_stacks kings_king_drag 50 147 = [0]
      ∧ drop kings_king_drag 50 147 = none
      ∧ release kings_king_drag 50 147 = none
      ∧ frame kings_king_drag kings_mouse = none :=
  ⟨kings_king_drag_reachable, by decide, by decide, by decide, by decide, by decide,
    by decide⟩

/-- C3 as amended (foundation acceptance): `add` returns true exactly when
the foundation is empty or the suits agree, and in both cases the index of
the card is `next`. -/
theorem foundation_add_iff (f : Foundation) (card : Card) :
    (f.add card).2 = true ↔
      (card.index = f.next ∧ (f.next = 0 ∨ card.suit = f.suit)) := by
  rw [add_true_iff]
  exact And.comm

/-- C3 as stated fails: an empty foundation rejects the six of hearts, though
the condition of the specification holds for it. -/
theorem foundation_add_not_as_specified :
    ¬ ((({ next := 0, suit := Suit.CLUBS } : Foundation).add
          { index := 5, suit := Suit.HEARTS }).2 = true ↔
        add_condition_as_specified { next := 0, suit := Suit.CLUBS }
          { index := 5, suit := Suit.HEARTS }) := by
  simp [Foundation.add, add_condition_as_specified]

/-- C4 (cancelled drag): when neither drop attempt of the release accepts,
the release returns the state it started from with only `drag_type` reset to
`NONE` and `dragged_cards` cleared, so every pile is unchanged; this is the
case in particular when the dragged box overlaps no foundation and no
column. -/
theorem cancelled_release_keeps_piles (g : Game) (mouse_x mouse_y : Int) :
    ((drop g mouse_x mouse_y).map Prod.snd = some false →
        release g mouse_x mouse_y
          = some { g with drag_type := DragType.NONE, dragged_cards := [] })
      ∧ (colliding_foundations g mouse_x mouse_y = [] →
          colliding_stacks g mouse_x mouse_y = [] →
          (drop g mouse_x mouse_y).map Prod.snd = some false) := by
  constructor
  · intro h
    unfold release
    rw [drop_false g mouse_x mouse_y h]
    rfl
  · intro hf hs
    rw [drop_no_target g mouse_x mouse_y hf hs]
    rfl

theorem cancelled_release_keeps_piles_witness :
    release kings_king_drag 222 153
      = some { kings_king_drag with
          drag_type := DragType.NONE, dragged_cards := [] } :=
  (cancelled_release_keeps_piles kings_king_drag 222 153).1 (by decide)

/-- C5 (card-count conservation): in every state reachable from a new game,
the sizes of the stock, of the stock history and of the seven tableau columns
plus the values `next` of the four foundations add up to 52, and the waste
`taken` is, reversed, the top of the stock history (a view, not a further
pile). -/
theorem card_count_conserved (g : Game) (w : Wrapper) (h : Reachable g w) :
    g.card_count = 52 ∧ g.tableau.length = 7 ∧ g.foundations.length = 4
      ∧ g.taken.reverse <+: g.stock_history := by
  have hi := (reachable_invariant g w h).piles
  refine ⟨?_, hi.tableau_length, hi.foundations_length, hi.waste⟩
  rw [card_count_eq g hi.next_nonneg, hi.cards]
  decide

theorem card_count_conserved_witness :
    arranged_drag.card_count = 52 ∧ arranged_drag.tableau.length = 7
      ∧ arranged_drag.foundations.length = 4
      ∧ arranged_drag.taken.reverse <+: arranged_drag.stock_history :=
  card_count_conserved arranged_drag _ arranged_drag_reachable

/-- C6 (stock pass round trip): from a non-empty stock of `n` cards and an
empty history, the `k`-th stock click (for `k` up to `(n + 2) / 3`, the
ceiling of `n / 3`) leaves the stock with its first `3 * k` cards removed and
shows in the waste the up to three cards it took; the stock is non-empty
before each of these clicks and empty after the last; the click after that
restores the original stock and leaves the waste and the history empty. -/
theorem stock_pass_round_trip (g : Game) (h : g.stock ≠ [])
    (hh : g.stock_history = []) :
    (∀ k, k ≤ (g.stock.length + 2) / 3 →
        (stock_click^[k] g).stock = g.stock.drop (3 * k))
      ∧ (∀ k, k < (g.stock.length + 2) / 3 →
        (stock_click^[k] g).stock ≠ []
          ∧ (stock_click^[k + 1] g).taken = (g.stock.drop (3 * k)).take 3)
      ∧ (stock_click^[(g.stock.length + 2) / 3] g).stock = []
      ∧ (stock_click^[(g.stock.length + 2) / 3 + 1] g).stock = g.stock
      ∧ (stock_click^[(g.stock.length + 2) / 3 + 1] g).taken = []
      ∧ (stock_click^[(g.stock.length + 2) / 3 + 1] g).stock_history = [] := by
  have hpos : 0 < g.stock.length := List.length_pos.mpr h
  have hlast := stock_clicks_aux g hh ((g.stock.length + 2) / 3) (by omega)
  have hempty : (stock_click^[(g.stock.length + 2) / 3] g).stock = [] := by
    rw [hlast.1]
    apply List.drop_eq_nil_of_le
    omega
  have hhist : (stock_click^[(g.stock.length + 2) / 3] g).stock_history
      = g.stock.reverse := by
    rw [hlast.2, List.take_of_length_le (by omega)]
  have hhne : (stock_click^[(g.stock.length + 2) / 3] g).stock_history ≠ [] := by
    rw [hhist]
    simpa using h
  obtain ⟨r1, r2, r3⟩ := stock_click_empty _ hempty hhne
  refine ⟨fun k hk => (stock_clicks_aux g hh k (by omega)).1, fun k hk => ?_, hempty, ?_, ?_, ?_⟩
  · have hk1 := stock_clicks_aux g hh k (by omega)
    have hne : (stock_click^[k] g).stock ≠ [] := by
      rw [hk1.1]
      intro h0
      have := congrArg List.length h0
      simp at this
      omega
    refine ⟨hne, ?_⟩
    rw [Function.iterate_succ_apply', (stock_click_nonempty _ hne).2.1, hk1.1]
  · rw [Function.iterate_succ_apply', r1, hhist, List.reverse_reverse]
  · rw [Function.iterate_succ_apply', r2]
  · rw [Function.iterate_succ_apply', r3]

theorem stock_pass_round_trip_witness :
    (stock_click^[8] arranged_start).stock = []
      ∧ (stock_click^[9] arranged_start).stock = arranged_start.stock
      ∧ (stock_click^[9] arranged_start).taken = []
      ∧ (stock_click^[9] arranged_start).stock_history = [] :=
  (stock_pass_round_trip arranged_start (by decide) (by decide)).2.2

/-- C7 (win detection): with four foundations, the win check is true
exactly when every foundation has `next = 13`; when some foundation has
`next = 12` it is false; and a frame of a running game sets `won` exactly when
every foundation it leaves has `next = 13`. -/
theorem win_check_iff (g : Game) (hlen : g.foundations.length = 4) :
    (just_won g.foundations = true ↔ ∀ i, i < 4 → (g.foundation i).next = 13)
      ∧ ((∃ i, i < 4 ∧ (g.foundation i).next = 12) → just_won g.foundations = false)
      ∧ (∀ (g0 : Game) (w : Wrapper), frame g0 w = some g → g0.won = false →
          (g.won = true ↔ ∀ i, i < 4 → (g.foundation i).next = 13)) := by
  have key : just_won g.foundations = true ↔ ∀ i, i < 4 → (g.foundation i).next = 13 := by
    rw [just_won_iff]
    constructor
    · intro h i hi
      apply h
      unfold Game.foundation
      rw [List.getD_eq_getElem _ _ (by omega)]
      exact List.getElem_mem _
    · intro h f hf
      obtain ⟨i, hi, rfl⟩ := List.getElem_of_mem hf
      have := h i (by omega)
      unfold Game.foundation at this
      rwa [List.getD_eq_getElem _ _ hi] at this
  refine ⟨key, ?_, ?_⟩
  · rintro ⟨i, hi, h12⟩
    by_contra hw
    simp only [Bool.not_eq_false] at hw
    have := key.mp hw i hi
    omega
  · intro g0 w hf h0
    rw [frame_won g0 g w hf, h0, Bool.false_or]
    exact key

theorem win_check_iff_witness :
    just_won three_complete.foundations = false :=
  (win_check_iff three_complete (by decide)).2.1 ⟨2, by decide, by decide⟩

/-- C8 (deal layout): for every deck of 52 cards the deal succeeds; column
`i` of the tableau holds the `i + 1` cards that follow the first
`i * (i + 1) / 2` cards from the top of the deck, in order, all face-down but
the last; the stock is the remaining 24 cards; the four foundations have
`next = 0`; the waste and the history are empty and no drag is active. -/
theorem deal_layout (deck_vector : List Card) (stock_x1 stock_y1 : Int)
    (top_card_bbox : BBox) (h : deck_vector.length = 52) :
    ∃ g, new_game deck_vector stock_x1 stock_y1 top_card_bbox = some g
      ∧ g.tableau.length = 7
      ∧ (∀ i, i < 7 →
          (g.stack i).cards.map DealtCard.card
              = (deck_vector.reverse.drop (i * (i + 1) / 2)).take (i + 1)
            ∧ (g.stack i).cards.map DealtCard.face_up = List.replicate i false ++ [true]
            ∧ (g.stack i).cards.length = i + 1)
      ∧ g.stock = deck_vector.reverse.drop 28
      ∧ g.stock.length = 24
      ∧ g.foundations.length = 4
      ∧ (∀ i, i < 4 → (g.foundation i).next = 0)
      ∧ g.taken = [] ∧ g.stock_history = []
      ∧ g.drag_type = DragType.NONE ∧ g.dragged_cards = [] := by
  have hr : 28 ≤ deck_vector.reverse.length := by simp; omega
  refine ⟨_, by unfold new_game; rw [deal_eq _ hr], ?_, ?_, rfl, ?_, ?_, ?_, rfl, rfl, rfl, rfl⟩
  · simp
  · intro i hi
    have hcol : (Game.stack
        { stock := deck_vector.reverse.drop 28, taken := [], stock_history := [],
          tableau := (List.range 7).map (dealt_column deck_vector.reverse),
          foundations := List.replicate 4 { next := 0, suit := Suit.CLUBS },
          stock_bbox := { x1 := stock_x1, y1 := stock_y1, x2 := 85, y2 := 110 },
          top_card_bbox := top_card_bbox, drag_type := DragType.NONE, dragged_cards := [],
          drag_offset_x := 0, drag_offset_y := 0, won := false } i)
        = dealt_column deck_vector.reverse i := by
      simp [Game.stack, List.getD_eq_getElem?_getD, hi]
    rw [hcol]
    apply dealt_column_cards
    have : deck_vector.reverse.length = 52 := by simp; omega
    rw [this]
    interval_cases i <;> decide
  · simp; omega
  · simp
  · intro i hi
    interval_cases i <;> rfl

theorem deal_layout_witness :
    ∃ g, new_game build_deck 15 15 { x1 := 0, y1 := 0, x2 := 0, y2 := 0 } = some g
      ∧ g.stock.length = 24 ∧ (g.stack 6).cards.length = 7 := by
  obtain ⟨g, h1, _, h3, _, h5, _⟩ :=
    deal_layout build_deck 15 15 { x1 := 0, y1 := 0, x2 := 0, y2 := 0 } (by decide)
  exact ⟨g, h1, h5, (h3 6 (by decide)).2.2⟩

/-- C9 (waste-origin removal): in a reachable state whose drag comes from the
waste, when a release is accepted (by a foundation or by a tableau column) it
returns a state in which the waste has lost exactly its last card `c`, the
dragged card, and the stock history exactly its top entry, the same `c`; `c`
is no longer in the history, so the stock that a later reset rebuilds from
that history is the cards revealed before, in the order of their reveal,
without `c`. -/
theorem waste_origin_removal (g : Game) (w : Wrapper) (h : Reachable g w)
    (mouse_x mouse_y : Int) (ht : g.drag_type = DragType.TOP_CARD)
    (hacc : (drop g mouse_x mouse_y).map Prod.snd = some true) :
    ∃ c g2, release g mouse_x mouse_y = some g2
      ∧ g.dragged_cards = [{ card := c, face_up := true }]
      ∧ g.taken = g2.taken ++ [c]
      ∧ g.stock_history = c :: g2.stock_history
      ∧ g2.stock = g.stock
      ∧ c ∉ g2.stock_history
      ∧ (∀ g3 : Game, g3.stock = [] → g3.stock_history = g2.stock_history →
          (stock_click g3).stock = g.stock_history.reverse.dropLast
            ∧ c ∉ (stock_click g3).stock) := by
  have hi := reachable_invariant g w h
  obtain ⟨c, hl, hdc⟩ := hi.drag.top_card ht
  obtain ⟨rest, hh, _, htk⟩ := waste_top g.taken g.stock_history c hl hi.piles.waste
  cases hdrop : drop g mouse_x mouse_y with
  | none => rw [hdrop] at hacc; simp at hacc
  | some r =>
    obtain ⟨g1, valid⟩ := r
    rw [hdrop] at hacc
    simp only [Option.map_some', Option.some.injEq] at hacc
    subst hacc
    have hm := drop_accepted_mid g g1 mouse_x mouse_y hi.piles hi.drag hdrop
    have hrem := remove_origin_top_card g1 c rest (by rw [hm.drag_type, ht])
      (by rw [hm.taken, hl]) (by rw [hm.stock_history, hh])
    have hnd := history_nodup g hi.piles
    rw [hh] at hnd
    have hc : c ∉ rest := (List.nodup_cons.mp hnd).1
    refine ⟨c,
      ({ g1 with
          taken := g1.taken.dropLast
          stock_history := rest
          drag_type := DragType.NONE
          dragged_cards := [] } : Game), ?_, hdc, ?_, hh, hm.stock, hc, ?_⟩
    · unfold release
      rw [hdrop]
      simp only [if_true, hrem]
    · simp only [hm.taken]
      exact htk
    · intro g3 hs3 hh3
      simp only at hh3
      have hst : (stock_click g3).stock = rest.reverse := by
        rw [stock_click_of_empty g3 hs3, hh3]
      rw [hst, hh]
      constructor
      · simp
      · simpa using hc

theorem waste_origin_removal_witness :
    ∃ c g2, release arranged_drag 196 171 = some g2
      ∧ arranged_drag.dragged_cards = [{ card := c, face_up := true }]
      ∧ arranged_drag.taken = g2.taken ++ [c]
      ∧ arranged_drag.stock_history = c :: g2.stock_history
      ∧ g2.stock = arranged_drag.stock
      ∧ c ∉ g2.stock_history
      ∧ (∀ g3 : Game, g3.stock = [] → g3.stock_history = g2.stock_history →
          (stock_click g3).stock = arranged_drag.stock_history.reverse.dropLast
            ∧ c ∉ (stock_click g3).stock) :=
  waste_origin_removal arranged_drag _ arranged_drag_reachable 196 171 rfl (by decide)

/-- C10 (accepted tableau-to-tableau move): when the cards dragged from
column `i` (a suffix of that column, above `base`) are accepted by another
column `k`, the release returns a state in which column `k` is its old
contents followed by the dragged cards, all face-up, column `i` is `base`,
every other column is unchanged, and so are the stock, the waste, the
history and the foundations. -/
theorem accepted_tableau_to_tableau_move (g : Game) (mouse_x mouse_y : Int)
    (i k : Nat) (base : List DealtCard)
    (hlen : g.tableau.length = 7)
    (hi : origin_stack g.drag_type = i) (hi7 : i < 7)
    (hbase : (g.stack i).cards = base ++ g.dragged_cards)
    (hf : (drop_on_foundations g mouse_x mouse_y).2 = false)
    (hc : colliding_stacks g mouse_x mouse_y ≠ [])
    (hk : closest_index (mouse_x - g.drag_offset_x + 35)
      (colliding_stacks g mouse_x mouse_y) stack_distance = k)
    (hki : k ≠ i)
    (hacc : (drop g mouse_x mouse_y).map Prod.snd = some true) :
    ∃ g1, release g mouse_x mouse_y = some g1
      ∧ (g1.stack k).cards = (g.stack k).cards
          ++ g.dragged_cards.map (fun c => { card := c.card, face_up := true })
      ∧ (g1.stack i).cards = base
      ∧ (∀ j, j ≠ i → j ≠ k → g1.stack j = g.stack j)
      ∧ g1.tableau.length = 7
      ∧ g1.stock = g.stock ∧ g1.taken = g.taken
      ∧ g1.stock_history = g.stock_history ∧ g1.foundations = g.foundations := by
  have hk7 : k < 7 := by
    rw [← hk]
    exact colliding_stacks_lt g mouse_x mouse_y _ (closest_index_mem _ _ _ hc)
  rw [drop_eq_drop_on_tableau g mouse_x mouse_y hf] at hacc
  have hdrop : drop_on_tableau g mouse_x mouse_y = some
      (({ g with
          tableau := g.tableau.set k
            { cards := (g.stack k).cards
                ++ g.dragged_cards.map (fun c => { card := c.card, face_up := true }) } } : Game),
        true) := by
    cases hb : (g.stack k).cards.getLast? with
    | none =>
      rw [List.getLast?_eq_none_iff] at hb
      rw [drop_on_tableau_empty g mouse_x mouse_y hc (by rw [hk]; exact hb)] at hacc
      simp at hacc
    | some back =>
      cases hd : g.dragged_cards.head? with
      | none =>
        exfalso
        have hne : (!(colliding_stacks g mouse_x mouse_y).isEmpty) = true := by
          cases h0 : colliding_stacks g mouse_x mouse_y with
          | nil => exact absurd h0 hc
          | cons a l => rfl
        simp only [drop_on_tableau, hne, if_true, hk, hb, hd] at hacc
        simp at hacc
      | some d =>
        rw [drop_on_tableau_nonempty g mouse_x mouse_y back d hc (by rw [hk]; exact hb) hd]
          at hacc ⊢
        by_cases hcond : tableau_condition back false d = true
        · simp [hcond, hk]
        · simp [hcond] at hacc
  have hrel : release g mouse_x mouse_y = some
      { g with
        tableau := (g.tableau.set k
          { cards := (g.stack k).cards
              ++ g.dragged_cards.map (fun c => { card := c.card, face_up := true }) }).set i
            { cards := base }
        drag_type := DragType.NONE
        dragged_cards := [] } := by
    unfold release
    rw [drop_eq_drop_on_tableau g mouse_x mouse_y hf, hdrop]
    simp only [if_true]
    rw [remove_origin_tableau
      ({ g with
          tableau := g.tableau.set k
            { cards := (g.stack k).cards
                ++ g.dragged_cards.map (fun c => { card := c.card, face_up := true }) } } : Game)
      i base hi (by omega) (by rw [stack_set_ne g k i _ hki]; exact hbase)]
  refine ⟨_, hrel, ?_, ?_, ?_, ?_, rfl, rfl, rfl, rfl⟩
  · simp [Game.stack, List.getD_eq_getElem?_getD, List.getElem?_set_ne (Ne.symm hki),
      List.getElem?_set_self (show k < g.tableau.length by omega)]
  · simp [Game.stack, List.getD_eq_getElem?_getD,
      List.getElem?_set_self (show i < (g.tableau.set k _).length by simp; omega)]
  · intro j hji hjk
    simp [Game.stack, List.getD_eq_getElem?_getD, List.getElem?_set_ne (Ne.symm hji),
      List.getElem?_set_ne (Ne.symm hjk)]
  · simp [hlen]

theorem accepted_tableau_to_tableau_move_witness :
    ∃ g1, release run_from_column_one 187 140 = some g1
      ∧ (g1.stack 2).cards = (run_from_column_one.stack 2).cards
          ++ run_from_column_one.dragged_cards.map
              (fun c => { card := c.card, face_up := true })
      ∧ (g1.stack 1).cards
          = [{ card := { index := 11, suit := Suit.SPADES }, face_up := false }]
      ∧ (∀ j, j ≠ 1 → j ≠ 2 → g1.stack j = run_from_column_one.stack j)
      ∧ g1.tableau.length = 7
      ∧ g1.stock = run_from_column_one.stock ∧ g1.taken = run_from_column_one.taken
      ∧ g1.stock_history = run_from_column_one.stock_history
      ∧ g1.foundations = run_from_column_one.foundations :=
  accepted_tableau_to_tableau_move run_from_column_one 187 140 1 2
    [{ card := { index := 11, suit := Suit.SPADES }, face_up := false }]
    (by decide) (by decide) (by decide) (by decide) (by decide) (by decide) (by decide)
    (by decide) (by decide)

/-- C11 (foundation range and monotonicity): `add` leaves `next` unchanged or
increases it by one; in every reachable state each of the four foundations
has `next` between 0 and 13; and when a frame lowers the `next` of a
foundation, the drag of that frame came from this foundation, `next` was at
least 1 and it went down by exactly one. -/
theorem foundation_range_and_monotonicity (g : Game) (w : Wrapper)
    (h : Reachable g w) :
    (∀ (f : Foundation) (card : Card),
        (f.add card).1.next = f.next ∨ (f.add card).1.next = f.next + 1)
      ∧ (∀ i, i < 4 → 0 ≤ (g.foundation i).next ∧ (g.foundation i).next ≤ 13)
      ∧ (∀ g1, frame g w = some g1 → ∀ i, i < 4 →
          (g1.foundation i).next < (g.foundation i).next →
          origin_foundation g.drag_type = i ∧ 1 ≤ (g.foundation i).next
            ∧ (g1.foundation i).next = (g.foundation i).next - 1) := by
  have hi := reachable_invariant g w h
  refine ⟨fun f card => ?_, fun i h4 => foundation_next_range g hi.piles i h4, ?_⟩
  · by_cases hacc : (f.add card).2 = true
    · right; rw [add_true_fst f card hacc]
    · left
      simp only [Bool.not_eq_true] at hacc
      rw [add_false_fst f card hacc]
  · intro g1 hf i _ hlt
    rcases frame_cases g g1 w hf with ⟨_, g2, hc, rfl⟩ | ⟨_, _, _, g3, hr, rfl⟩ | ⟨_, _, rfl⟩
    · exfalso
      have he := click_effect g g2 _ _ hc
      have hsame : g2.foundations = g.foundations := by
        rw [he.foundations]
        split
        · exact (stock_click_drag g).2.2.2
        · rfl
      rw [finish_foundation, foundation_congr g g2 hsame] at hlt
      exact lt_irrefl _ hlt
    · rw [finish_foundation] at hlt ⊢
      exact release_foundations g g3 _ _ hi.piles hi.drag hr i hlt
    · rw [finish_foundation] at hlt
      exact absurd hlt (lt_irrefl _)

theorem foundation_range_and_monotonicity_witness :
    0 ≤ (arranged_drag.foundation 2).next ∧ (arranged_drag.foundation 2).next ≤ 13 :=
  (foundation_range_and_monotonicity arranged_drag _ arranged_drag_reachable).2.1 2
    (by decide)

/-- C12 (foundation rejection is side-effect free): when `add` returns false
the foundation is unchanged, in `next` and in `suit`, and a second call with
the same card returns false again and leaves it unchanged again. -/
theorem foundation_reject_no_effect (f : Foundation) (card : Card)
    (h : (f.add card).2 = false) :
    (f.add card).1.next = f.next ∧ (f.add card).1.suit = f.suit
      ∧ ((f.add card).1.add card).2 = false
      ∧ ((f.add card).1.add card).1 = f := by
  have h1 := add_false_fst f card h
  rw [h1]
  exact ⟨rfl, rfl, h, h1⟩

theorem foundation_reject_no_effect_witness :
    (({ next := 3, suit := Suit.HEARTS } : Foundation).add
        { index := 3, suit := Suit.SPADES }).1.next = 3
      ∧ (({ next := 3, suit := Suit.HEARTS } : Foundation).add
        { index := 3, suit := Suit.SPADES }).1.suit = Suit.HEARTS
      ∧ ((({ next := 3, suit := Suit.HEARTS } : Foundation).add
        { index := 3, suit := Suit.SPADES }).1.add { index := 3, suit := Suit.SPADES }).2
          = false
      ∧ ((({ next := 3, suit := Suit.HEARTS } : Foundation).add
        { index := 3, suit := Suit.SPADES }).1.add { index := 3, suit := Suit.SPADES }).1
          = { next := 3, suit := Suit.HEARTS } :=
  foundation_reject_no_effect { next := 3, suit := Suit.HEARTS }
    { index := 3, suit := Suit.SPADES } (by decide)

/-- C13 (foundation acceptance effect): when `add` returns true, `next` has
increased by exactly one; the suit of the foundation is the suit of the card
if the foundation was empty and is unchanged otherwise. -/
theorem foundation_accept_effect (f : Foundation) (card : Card)
    (h : (f.add card).2 = true) :
    (f.add card).1.next = f.next + 1
      ∧ (f.next = 0 → (f.add card).1.suit = card.suit)
      ∧ (f.next ≠ 0 → (f.add card).1.suit = f.suit) := by
  rw [add_true_fst f card h]
  refine ⟨rfl, fun h0 => ?_, fun h0 => ?_⟩
  · simp [h0]
  · simp [h0]

theorem foundation_accept_effect_witness :
    (({ next := 0, suit := Suit.CLUBS } : Foundation).add
        { index := 0, suit := Suit.HEARTS }).1.next = 0 + 1
      ∧ ((0 : Int) = 0 → (({ next := 0, suit := Suit.CLUBS } : Foundation).add
        { index := 0, suit := Suit.HEARTS }).1.suit = Suit.HEARTS)
      ∧ ((0 : Int) ≠ 0 → (({ next := 0, suit := Suit.CLUBS } : Foundation).add
        { index := 0, suit := Suit.HEARTS }).1.suit = Suit.CLUBS) :=
  foundation_accept_effect { next := 0, suit := Suit.CLUBS }
    { index := 0, suit := Suit.HEARTS } (by decide)

/-- C14 (stock click with a non-empty stock): one click on a stock of `n ≥ 1`
cards removes its top `min 3 n` cards and keeps the rest in order; the waste
`taken` is exactly the removed cards in the order of their reveal, whatever it
held before; the same cards are pushed in that order onto the stock history,
so the last revealed card is its top; nothing else but the box of the top
waste card changes. -/
theorem stock_click_takes_three (g : Game) (h : g.stock ≠ []) :
    (stock_click g).stock = g.stock.drop 3
      ∧ (stock_click g).taken = g.stock.take 3
      ∧ (stock_click g).taken.length = min 3 g.stock.length
      ∧ g.stock = (stock_click g).taken ++ (stock_click g).stock
      ∧ (stock_click g).stock_history = (g.stock.take 3).reverse ++ g.stock_history
      ∧ (stock_click g).tableau = g.tableau
      ∧ (stock_click g).foundations = g.foundations
      ∧ (stock_click g).drag_type = g.drag_type
      ∧ (stock_click g).dragged_cards = g.dragged_cards := by
  rw [stock_click_of_nonempty g h]
  refine ⟨rfl, rfl, ?_, ?_, rfl, rfl, rfl, rfl, rfl⟩
  · simp
  · simp

theorem stock_click_takes_three_witness :
    (stock_click arranged_start).stock = arranged_start.stock.drop 3
      ∧ (stock_click arranged_start).taken
          = [{ index := 2, suit := Suit.HEARTS }, { index := 3, suit := Suit.HEARTS },
             { index := 5, suit := Suit.HEARTS }]
      ∧ (stock_click arranged_start).stock_history
          = [{ index := 5, suit := Suit.HEARTS }, { index := 3, suit := Suit.HEARTS },
             { index := 2, suit := Suit.HEARTS }] :=
  ⟨(stock_click_takes_three arranged_start (by decide)).1, by decide, by decide⟩

/-- C15 (nearest-target selection): on a non-empty list of indexes
`closest_index` returns a member of the list whose distance is minimal over
the list; every member that comes before it in the list has a strictly larger
distance, so it is the first member of minimal distance, and when the list is
in ascending order it is the lowest index of minimal distance. -/
theorem closest_index_first_minimum (x : Int) (indexes : List Nat)
    (get_distance : Int → Nat → Int) (h : indexes ≠ []) :
    closest_index x indexes get_distance ∈ indexes
      ∧ (∀ i ∈ indexes,
          get_distance x (closest_index x indexes get_distance) ≤ get_distance x i)
      ∧ (∃ pre post, indexes = pre ++ closest_index x indexes get_distance :: post
          ∧ ∀ i ∈ pre,
            get_distance x (closest_index x indexes get_distance) < get_distance x i)
      ∧ (indexes.Pairwise (· < ·) →
          ∀ i ∈ indexes,
            get_distance x i = get_distance x (closest_index x indexes get_distance) →
            closest_index x indexes get_distance ≤ i) := by
  obtain ⟨pre, post, h1, h2, h3⟩ := closest_index_split x get_distance indexes h
  refine ⟨closest_index_mem x get_distance indexes h, ?_, ⟨pre, post, h1, h2⟩, ?_⟩
  · intro i hi
    rw [h1] at hi
    rcases List.mem_append.mp hi with hi | hi
    · exact le_of_lt (h2 i hi)
    · rcases List.mem_cons.mp hi with rfl | hi
      · exact le_refl _
      · exact h3 i hi
  · intro hp i hi he
    generalize closest_index x indexes get_distance = r at h1 h2 h3 he ⊢
    rw [h1] at hi hp
    rcases List.mem_append.mp hi with hi | hi
    · have := h2 i hi
      omega
    · rcases List.mem_cons.mp hi with rfl | hi
      · exact le_refl _
      · have hp2 := (List.pairwise_append.mp hp).2.1
        exact le_of_lt (List.rel_of_pairwise_cons hp2 hi)

theorem closest_index_first_minimum_witness :
    closest_index 136 [0, 1, 2] stack_distance = 1
      ∧ closest_index 93 [0, 1] stack_distance = 0 :=
  ⟨by decide,
   Nat.le_antisymm
     ((closest_index_first_minimum 93 [0, 1] stack_distance (by decide)).2.2.2
       (by decide) 0 (by decide) (by decide))
     (Nat.zero_le _)⟩

/-- C16 (deck construction): the deck built before shuffling has 52 cards, no
card twice, and a card is in it exactly when its index is between 0 and 12,
whatever its suit. -/
theorem build_deck_all_cards :
    build_deck.length = 52 ∧ build_deck.Nodup
      ∧ ∀ c : Card, c ∈ build_deck ↔ (0 ≤ c.index ∧ c.index ≤ 12) :=
  ⟨by decide, build_deck_nodup,
    fun c => ⟨build_deck_index c, fun h => build_deck_complete c h.1 h.2⟩⟩

/-- C17: in every state reachable from a new game, any two adjacent face-up cards of a
tableau column descend by exactly one rank, with the upper card one lower, and have
opposite colours; the cards being dragged always form such a run as well, and a run
picked up from a tableau column is a face-up suffix of that column, so every picked-up
run is an alternating-colour descending run. -/
theorem face_up_runs_legal (g : Game) (w : Wrapper) (h : Reachable g w) :
    (∀ i, i < 7 → ∀ (j : Nat) (a b : DealtCard),
        (g.stack i).cards[j]? = some a → (g.stack i).cards[j + 1]? = some b →
        a.face_up = true → b.face_up = true →
        b.card.index + 1 = a.card.index ∧ a.card.suit.is_red ≠ b.card.suit.is_red)
      ∧ (∀ (j : Nat) (a b : DealtCard),
          g.dragged_cards[j]? = some a → g.dragged_cards[j + 1]? = some b →
          b.card.index + 1 = a.card.index ∧ a.card.suit.is_red ≠ b.card.suit.is_red)
      ∧ (origin_stack g.drag_type ≠ 7 →
          g.dragged_cards ≠ []
            ∧ g.dragged_cards <:+ (g.stack (origin_stack g.drag_type)).cards
            ∧ ∀ c ∈ g.dragged_cards, c.face_up = true) := by
  have ht := reachable_tableau_ok g w h
  have hi := reachable_invariant g w h
  refine ⟨?_, ?_, ?_⟩
  · intro i _ j a b ha hb hau hbu
    exact chain_adjacent _ _ (stack_column_ok g ht.columns i).legal j a b ha hb hau hbu
  · intro j a b ha hb
    exact chain_adjacent _ _ ht.dragged_run j a b ha hb
  · intro hos
    exact ⟨(hi.drag.stack hos).1, (hi.drag.stack hos).2, ht.dragged_up⟩

theorem face_up_runs_legal_witness :
    (∀ i, i < 7 → ∀ (j : Nat) (a b : DealtCard),
        (arranged_run_drag.stack i).cards[j]? = some a →
        (arranged_run_drag.stack i).cards[j + 1]? = some b →
        a.face_up = true → b.face_up = true →
        b.card.index + 1 = a.card.index ∧ a.card.suit.is_red ≠ b.card.suit.is_red)
      ∧ (∀ (j : Nat) (a b : DealtCard),
          arranged_run_drag.dragged_cards[j]? = some a →
          arranged_run_drag.dragged_cards[j + 1]? = some b →
          b.card.index + 1 = a.card.index ∧ a.card.suit.is_red ≠ b.card.suit.is_red)
      ∧ (origin_stack arranged_run_drag.drag_type ≠ 7 →
          arranged_run_drag.dragged_cards ≠ []
            ∧ arranged_run_drag.dragged_cards
                <:+ (arranged_run_drag.stack (origin_stack arranged_run_drag.drag_type)).cards
            ∧ ∀ c ∈ arranged_run_drag.dragged_cards, c.face_up = true) :=
  face_up_runs_legal arranged_run_drag _ arranged_run_drag_reachable

/-- C18: in every state reachable from a new game, within each tableau column every card
above a face-up card is face-up, so the face-down cards form a prefix from the bottom;
and over one frame a card of the tableau that is still in the tableau afterwards has a
different face_up flag only if it was face-down and on top of its column, and is then
face-up and on top of the same column. -/
theorem face_down_cards_stay_at_bottom (g : Game) (w : Wrapper) (h : Reachable g w) :
    (∀ i, i < 7 → ∀ (j k : Nat) (a b : DealtCard), j < k →
        (g.stack i).cards[j]? = some a → (g.stack i).cards[k]? = some b →
        a.face_up = true → b.face_up = true)
      ∧ ∀ g1, frame g w = some g1 →
          ∀ i i1, i < 7 → i1 < 7 → ∀ (c : Card) (up up1 : Bool),
            ({ card := c, face_up := up } : DealtCard) ∈ (g.stack i).cards →
            ({ card := c, face_up := up1 } : DealtCard) ∈ (g1.stack i1).cards →
            up ≠ up1 →
            up = false ∧ up1 = true ∧ i1 = i
              ∧ (g.stack i).cards.getLast? = some { card := c, face_up := false }
              ∧ (g1.stack i).cards.getLast? = some { card := c, face_up := true } := by
  have ht := reachable_tableau_ok g w h
  have hi := reachable_invariant g w h
  refine ⟨?_, ?_⟩
  · intro i _ j k a b hjk ha hb
    exact pairwise_index _ _ (stack_column_ok g ht.columns i).face_down_below j k a b hjk ha hb
  · intro g1 hf i i1 hi7 hi17 c up up1 hd hd1 hne
    exact frame_flag_change g g1 w hi ht hf i i1 hi7 hi17 c up up1 hd hd1 hne

theorem face_down_cards_stay_at_bottom_witness :
    (∀ i, i < 7 → ∀ (j k : Nat) (a b : DealtCard), j < k →
        (arranged_dropped.stack i).cards[j]? = some a →
        (arranged_dropped.stack i).cards[k]? = some b →
        a.face_up = true → b.face_up = true)
      ∧ ∀ g1, frame arranged_dropped arranged_mouse = some g1 →
          ∀ i i1, i < 7 → i1 < 7 → ∀ (c : Card) (up up1 : Bool),
            ({ card := c, face_up := up } : DealtCard) ∈ (arranged_dropped.stack i).cards →
            ({ card := c, face_up := up1 } : DealtCard) ∈ (g1.stack i1).cards →
            up ≠ up1 →
            up = false ∧ up1 = true ∧ i1 = i
              ∧ (arranged_dropped.stack i).cards.getLast?
                  = some { card := c, face_up := false }
              ∧ (g1.stack i).cards.getLast? = some { card := c, face_up := true } :=
  face_down_cards_stay_at_bottom arranged_dropped arranged_mouse arranged_dropped_reachable

/-- C19 (no card is duplicated or lost): in every reachable state the
multiset of the cards of the stock, of the stock history, of the seven
columns and of the cards `0 .. next - 1` of each foundation's suit is the
deck, which holds each of its 52 cards once; hence two different foundations
that are not empty have different suits. -/
theorem no_card_duplicated_or_lost (g : Game) (w : Wrapper) (h : Reachable g w) :
    g.cards = (build_deck : Multiset Card)
      ∧ g.cards.Nodup ∧ Multiset.card g.cards = 52
      ∧ (∀ i j, i < 4 → j < 4 → i ≠ j →
          (g.foundation i).next ≠ 0 → (g.foundation j).next ≠ 0 →
          (g.foundation i).suit ≠ (g.foundation j).suit) := by
  have hp := (reachable_invariant g w h).piles
  refine ⟨hp.cards, cards_nodup g hp, by rw [hp.cards]; decide, ?_⟩
  intro i j hi hj hij hi0 hj0
  rcases Nat.lt_or_gt_of_ne hij with hlt | hlt
  · exact foundation_suits_differ g hp i j hlt hj hi0 hj0
  · exact fun e => foundation_suits_differ g hp j i hlt hi hj0 hi0 e.symm

theorem no_card_duplicated_or_lost_witness :
    arranged_drag.cards = (build_deck : Multiset Card)
      ∧ arranged_drag.cards.Nodup ∧ Multiset.card arranged_drag.cards = 52
      ∧ (∀ i j, i < 4 → j < 4 → i ≠ j →
          (arranged_drag.foundation i).next ≠ 0 → (arranged_drag.foundation j).next ≠ 0 →
          (arranged_drag.foundation i).suit ≠ (arranged_drag.foundation j).suit) :=
  no_card_duplicated_or_lost arranged_drag _ arranged_drag_reachable

/-- C20 (a foundation holds a run starting at the Ace): a card that `add`
accepts has the index `next` the foundation had before the call and the suit
the foundation has after it, so an empty foundation accepts only index 0; and
when cards are offered one after the other to a foundation that starts empty,
the `k`-th accepted card (counting from 0) has index `k` and the suit of the
foundation, and their number is the final `next`. -/
theorem foundation_run_from_ace (f : Foundation) (card : Card) (cards : List Card) :
    ((f.add card).2 = true →
        card.index = f.next ∧ card.suit = (f.add card).1.suit
          ∧ (f.next = 0 → card.index = 0))
      ∧ (f.next = 0 →
          ((add_cards f cards).2.length : Int) = (add_cards f cards).1.next
            ∧ ∀ (k : Nat), k < (add_cards f cards).2.length →
              (add_cards f cards).2[k]?
                = some { index := (k : Int), suit := (add_cards f cards).1.suit }) := by
  constructor
  · intro h
    have hc := (add_true_iff f card).mp h
    rw [add_true_fst f card h]
    refine ⟨hc.2, ?_, fun h0 => by rw [hc.2, h0]⟩
    simp only
    split
    · rfl
    · rename_i h0
      rcases hc.1 with h1 | h1
      · exact absurd h1 h0
      · exact h1
  · intro h0
    obtain ⟨h1, h2⟩ := add_cards_cards cards f (by omega)
    have hf : f.cards = [] := by simp [Foundation.cards, h0]
    rw [hf, List.nil_append] at h1
    constructor
    · rw [← h1, foundation_cards_length]
      omega
    · intro k hk
      have hk2 : k < (add_cards f cards).1.cards.length := by rw [h1]; exact hk
      have := foundation_cards_get (add_cards f cards).1 k hk2
      rw [h1] at this
      exact this

theorem foundation_run_from_ace_witness :
    ((add_cards { next := 0, suit := Suit.CLUBS }
        [{ index := 1, suit := Suit.HEARTS }, { index := 0, suit := Suit.SPADES },
         { index := 1, suit := Suit.HEARTS }, { index := 1, suit := Suit.SPADES },
         { index := 2, suit := Suit.SPADES }]).2.length : Int)
      = (add_cards { next := 0, suit := Suit.CLUBS }
        [{ index := 1, suit := Suit.HEARTS }, { index := 0, suit := Suit.SPADES },
         { index := 1, suit := Suit.HEARTS }, { index := 1, suit := Suit.SPADES },
         { index := 2, suit := Suit.SPADES }]).1.next
      ∧ (add_cards { next := 0, suit := Suit.CLUBS }
        [{ index := 1, suit := Suit.HEARTS }, { index := 0, suit := Suit.SPADES },
         { index := 1, suit := Suit.HEARTS }, { index := 1, suit := Suit.SPADES },
         { index := 2, suit := Suit.SPADES }]).2[2]?
        = some { index := 2, suit := Suit.SPADES } :=
  ⟨((foundation_run_from_ace { next := 0, suit := Suit.CLUBS }
      { index := 0, suit := Suit.SPADES }
      [{ index := 1, suit := Suit.HEARTS }, { index := 0, suit := Suit.SPADES },
       { index := 1, suit := Suit.HEARTS }, { index := 1, suit := Suit.SPADES },
       { index := 2, suit := Suit.SPADES }]).2 rfl).1,
   ((foundation_run_from_ace { next := 0, suit := Suit.CLUBS }
      { index := 0, suit := Suit.SPADES }
      [{ index := 1, suit := Suit.HEARTS }, { index := 0, suit := Suit.SPADES },
       { index := 1, suit := Suit.HEARTS }, { index := 1, suit := Suit.SPADES },
       { index := 2, suit := Suit.SPADES }]).2 rfl).2 2 (by decide)⟩

/-- C21 (pickup priority equals the scan of the code): in every reachable state and for
every pointer position, the waste hit, the four foundation boxes and the seven column
hit regions are pairwise disjoint, so at most one of them contains the pointer; and the
pointer-down block of the code, which runs over all of them and lets a later match
overwrite an earlier one, returns the state chosen by the fixed priority waste, then
foundations, then columns with the first hit winning, wherever the pointer is not in the
base box of an empty column. -/
theorem pickup_priority_equals_scan (g : Game) (w : Wrapper) (h : Reachable g w)
    (mouse_x mouse_y : Int) :
    ((∀ i, i < 7 → (g.stack i).cards = [] →
          ((g.stack i).get_top_card_bbox (15 + 86 * (i : Int)) 126).collision_point
            mouse_x mouse_y = false) →
        click g mouse_x mouse_y
          = some (pickup_as_specified mouse_x mouse_y (stock_step g mouse_x mouse_y)))
      ∧ (waste_hit mouse_x mouse_y (stock_step g mouse_x mouse_y) = true →
          (∀ i, (foundation_bboxes i).collision_point mouse_x mouse_y = false)
            ∧ ∀ i, tableau_hit mouse_x mouse_y (stock_step g mouse_x mouse_y) i = false)
      ∧ (∀ i j, (foundation_bboxes i).collision_point mouse_x mouse_y = true →
          (foundation_bboxes j).collision_point mouse_x mouse_y = true → i = j)
      ∧ (∀ i, (foundation_bboxes i).collision_point mouse_x mouse_y = true →
          ∀ j, tableau_hit mouse_x mouse_y (stock_step g mouse_x mouse_y) j = false)
      ∧ (∀ i j, tableau_hit mouse_x mouse_y (stock_step g mouse_x mouse_y) i = true →
          tableau_hit mouse_x mouse_y (stock_step g mouse_x mouse_y) j = true → i = j) := by
  have hi := reachable_invariant g w h
  have hl := reachable_layout_ok g w h
  obtain ⟨_, hl0, _⟩ := stock_step_ok g mouse_x mouse_y hi.piles hl
  refine ⟨click_eq_pickup g mouse_x mouse_y hi.piles hl, ?_, ?_, ?_, ?_⟩
  · intro hw
    have h1 := waste_hit_region _ hl0 mouse_x mouse_y hw
    constructor
    · intro i
      by_contra hc
      have := foundation_box_region i mouse_x mouse_y (by simpa using hc)
      omega
    · intro i
      by_contra hc
      have := tableau_hit_region _ i mouse_x mouse_y (by simpa using hc)
      omega
  · intro i j h1 h2
    have := foundation_box_region i mouse_x mouse_y h1
    have := foundation_box_region j mouse_x mouse_y h2
    omega
  · intro i h1 j
    have := foundation_box_region i mouse_x mouse_y h1
    by_contra hc
    have := tableau_hit_region _ j mouse_x mouse_y (by simpa using hc)
    omega
  · intro i j h1 h2
    have := tableau_hit_region _ i mouse_x mouse_y h1
    have := tableau_hit_region _ j mouse_x mouse_y h2
    omega

theorem pickup_priority_equals_scan_witness :
    click arranged_waste 140 50
        = some (pickup_as_specified 140 50 (stock_step arranged_waste 140 50))
      ∧ pickup_as_specified 140 50 (stock_step arranged_waste 140 50) = arranged_drag
      ∧ waste_hit 140 50 (stock_step arranged_waste 140 50) = true :=
  ⟨(pickup_priority_equals_scan arranged_waste _ arranged_waste_reachable 140 50).1
      (by decide), by decide, by decide⟩

/-- C22 (shape of the drag state): in every reachable state, a drag from the waste holds
exactly the last card of `taken`, face-up; a drag from foundation `i` holds exactly the
card `(next - 1, suit)` of that foundation, which is not empty; a drag from tableau
column `i` holds a non-empty suffix of the cards of that column, all of them face-up;
and `drag_type` is `NONE` exactly when `dragged_cards` is empty. -/
theorem drag_state_shape (g : Game) (w : Wrapper) (h : Reachable g w) :
    (g.drag_type = DragType.TOP_CARD →
        ∃ c, g.taken.getLast? = some c
          ∧ g.dragged_cards = [{ card := c, face_up := true }])
      ∧ (∀ i, i < 4 → origin_foundation g.drag_type = i →
          (g.foundation i).next ≠ 0
            ∧ g.dragged_cards =
              [{ card := { index := (g.foundation i).next - 1
                           suit := (g.foundation i).suit }
                 face_up := true }])
      ∧ (∀ i, i < 7 → origin_stack g.drag_type = i →
          g.dragged_cards ≠ [] ∧ g.dragged_cards <:+ (g.stack i).cards
            ∧ ∀ c ∈ g.dragged_cards, c.face_up = true)
      ∧ (g.drag_type = DragType.NONE ↔ g.dragged_cards = []) := by
  have hi := reachable_invariant g w h
  have ht := reachable_tableau_ok g w h
  refine ⟨hi.drag.top_card, ?_, ?_, drag_none_iff g hi.drag⟩
  · intro i hi4 ho
    have := hi.drag.foundation (by omega)
    rw [ho] at this
    exact this
  · intro i hi7 ho
    have := hi.drag.stack (by omega)
    rw [ho] at this
    exact ⟨this.1, this.2, ht.dragged_up⟩

theorem drag_state_shape_witness :
    (arranged_run_drag.drag_type = DragType.TOP_CARD →
        ∃ c, arranged_run_drag.taken.getLast? = some c
          ∧ arranged_run_drag.dragged_cards = [{ card := c, face_up := true }])
      ∧ (∀ i, i < 4 → origin_foundation arranged_run_drag.drag_type = i →
          (arranged_run_drag.foundation i).next ≠ 0
            ∧ arranged_run_drag.dragged_cards =
              [{ card := { index := (arranged_run_drag.foundation i).next - 1
                           suit := (arranged_run_drag.foundation i).suit }
                 face_up := true }])
      ∧ (∀ i, i < 7 → origin_stack arranged_run_drag.drag_type = i →
          arranged_run_drag.dragged_cards ≠ []
            ∧ arranged_run_drag.dragged_cards <:+ (arranged_run_drag.stack i).cards
            ∧ ∀ c ∈ arranged_run_drag.dragged_cards, c.face_up = true)
      ∧ (arranged_run_drag.drag_type = DragType.NONE
          ↔ arranged_run_drag.dragged_cards = []) :=
  drag_state_shape arranged_run_drag _ arranged_run_drag_reachable

/-- C23 (direct reveal): in a reachable state in which column `i` is not empty and its
top card is face-down, the frame of a pointer-down inside the box of that top card
returns a state in which that card, the same card, is face-up on top of the otherwise
unchanged column; every other column, the stock, the waste, the stock history and the
foundations are unchanged, `drag_type` is `NONE` and `dragged_cards` is empty. -/
theorem direct_reveal (g : Game) (w : Wrapper) (h : Reachable g w) (i : Nat) (hi : i < 7)
    (back : DealtCard) (hclick : w.mouse_clicked = true)
    (hback : (g.stack i).cards.getLast? = some back) (hdown : back.face_up = false)
    (hbox : ((g.stack i).get_top_card_bbox (15 + 86 * (i : Int)) 126).collision_point
      w.mouse_x w.mouse_y = true) :
    ∃ g1, frame g w = some g1
      ∧ (g1.stack i).cards
          = (g.stack i).cards.dropLast ++ [{ card := back.card, face_up := true }]
      ∧ (∀ j, j ≠ i → g1.stack j = g.stack j)
      ∧ g1.tableau.length = g.tableau.length
      ∧ g1.stock = g.stock ∧ g1.taken = g.taken ∧ g1.stock_history = g.stock_history
      ∧ g1.foundations = g.foundations
      ∧ g1.drag_type = DragType.NONE ∧ g1.dragged_cards = [] := by
  have hinv := reachable_invariant g w h
  have hl := reachable_layout_ok g w h
  have hn : g.drag_type = DragType.NONE := by
    simp only [Wrapper.mouse_clicked, Bool.and_eq_true, Bool.not_eq_true'] at hclick
    by_contra hne
    have := hinv.button hne
    rw [hclick.2] at this
    exact absurd this (by simp)
  have hc := reveal_click g w.mouse_x w.mouse_y hinv.piles hl i hi back hback hdown hbox
  obtain ⟨e1, e2, e3, e4, e5, _, e7, e8⟩ := finish_fields
    ({ g with tableau := g.tableau.set i { cards := flip_top (g.stack i).cards back } } : Game)
  refine ⟨_, frame_of_click g _ w hclick hc, ?_, ?_, ?_, e1, e2, e3, e5, ?_, ?_⟩
  · rw [finish_stack, stack_set_eq g i _ (by rw [hinv.piles.tableau_length]; exact hi)]
    rfl
  · intro j hj
    rw [finish_stack]
    exact stack_set_ne g i j _ (fun hij => hj hij.symm)
  · rw [e4]
    simp
  · rw [e7]
    exact hn
  · rw [e8]
    exact hinv.drag.none hn

theorem direct_reveal_witness :
    ∃ g1, frame reveal_ready reveal_mouse = some g1
      ∧ (g1.stack 1).cards
          = (reveal_ready.stack 1).cards.dropLast
            ++ [{ card := { index := 1, suit := Suit.CLUBS }, face_up := true }]
      ∧ (∀ j, j ≠ 1 → g1.stack j = reveal_ready.stack j)
      ∧ g1.tableau.length = reveal_ready.tableau.length
      ∧ g1.stock = reveal_ready.stock ∧ g1.taken = reveal_ready.taken
      ∧ g1.stock_history = reveal_ready.stock_history
      ∧ g1.foundations = reveal_ready.foundations
      ∧ g1.drag_type = DragType.NONE ∧ g1.dragged_cards = [] :=
  direct_reveal reveal_ready reveal_mouse reveal_ready_reachable 1 (by decide)
    { card := { index := 1, suit := Suit.CLUBS }, face_up := false } (by decide) (by decide)
    rfl (by decide)

/-- C24 (only single cards reach a foundation): in a reachable state whose dragged run
does not consist of exactly one card, the foundation step of the release changes nothing
and reports no acceptance, and the whole release leaves the list of foundations, hence
every `next` and `suit`, as it was, whatever the pointer position. -/
theorem only_single_cards_reach_foundation (g : Game) (w : Wrapper) (h : Reachable g w)
    (mouse_x mouse_y : Int) (g1 : Game) (hr : release g mouse_x mouse_y = some g1)
    (hlen : g.dragged_cards.length ≠ 1) :
    drop_on_foundations g mouse_x mouse_y = (g, false)
      ∧ g1.foundations = g.foundations
      ∧ ∀ i, (g1.foundation i).next = (g.foundation i).next
          ∧ (g1.foundation i).suit = (g.foundation i).suit := by
  have hf := release_foundations_same g g1 mouse_x mouse_y (reachable_invariant g w h).drag
    hr hlen
  refine ⟨drop_on_foundations_many g mouse_x mouse_y hlen, hf, fun i => ?_⟩
  rw [foundation_congr g g1 hf i]
  exact ⟨rfl, rfl⟩

theorem only_single_cards_reach_foundation_witness :
    release arranged_run_drag 200 140
        = some { arranged_run_drag with drag_type := DragType.NONE, dragged_cards := [] }
      ∧ arranged_run_drag.dragged_cards.length ≠ 1
      ∧ drop_on_foundations arranged_run_drag 200 140 = (arranged_run_drag, false)
      ∧ ({ arranged_run_drag with drag_type := DragType.NONE, dragged_cards := [] }
            : Game).foundations = arranged_run_drag.foundations :=
  ⟨by decide, by decide,
    (only_single_cards_reach_foundation arranged_run_drag _ arranged_run_drag_reachable
      200 140 { arranged_run_drag with drag_type := DragType.NONE, dragged_cards := [] }
      (by decide) (by decide)).1,
    (only_single_cards_reach_foundation arranged_run_drag _ arranged_run_drag_reachable
      200 140 { arranged_run_drag with drag_type := DragType.NONE, dragged_cards := [] }
      (by decide) (by decide)).2.1⟩

/-- C25 (waste size limit): in every state reachable from a new game the waste `taken`
holds at most three cards. -/
theorem waste_size_limit (g : Game) (w : Wrapper) (h : Reachable g w) :
    g.taken.length ≤ 3 :=
  (reachable_layout_ok g w h).waste_size

theorem waste_size_limit_witness :
    arranged_waste.taken.length = 3 ∧ arranged_drag.taken.length ≤ 3 :=
  ⟨by decide, waste_size_limit arranged_drag _ arranged_drag_reachable⟩

/-- C26 (empty tableau column on pointer-down), as the code behaves: in a reachable
state in which column `i` is empty, a pointer-down inside the base box of that column
makes the flip test read `back()` of the empty column, so the click and the frame have
no defined result. -/
theorem empty_column_click_undefined (g : Game) (w : Wrapper) (h : Reachable g w) (i : Nat)
    (hi : i < 7) (hclick : w.mouse_clicked = true) (hempty : (g.stack i).cards = [])
    (hbox : 15 + 86 * (i : Int) ≤ w.mouse_x ∧ w.mouse_x ≤ 85 + 86 * (i : Int)
      ∧ 126 ≤ w.mouse_y ∧ w.mouse_y ≤ 221) :
    ((g.stack i).get_top_card_bbox (15 + 86 * (i : Int)) 126).collision_point
        w.mouse_x w.mouse_y = true
      ∧ (g.stack i).cards.getLast? = none
      ∧ tableau_interaction w.mouse_x w.mouse_y g i = none
      ∧ click g w.mouse_x w.mouse_y = none
      ∧ frame g w = none := by
  have hl := reachable_layout_ok g w h
  have hc := empty_column_click_none g w.mouse_x w.mouse_y hl i hi hempty hbox
  have hb : ((g.stack i).get_top_card_bbox (15 + 86 * (i : Int)) 126).collision_point
      w.mouse_x w.mouse_y = true := by
    simp only [CardStack.get_top_card_bbox, hempty, List.isEmpty_nil, if_true,
      BBox.collision_point, Bool.and_eq_true, decide_eq_true_eq]
    omega
  refine ⟨hb, by rw [hempty]; rfl, ?_, hc, frame_of_click_none g w hclick hc⟩
  unfold tableau_interaction
  simp only [hb, if_true, hempty, List.getLast?_nil]

theorem empty_column_click_undefined_witness :
    Reachable kings_ace_home kings_empty_click
      ∧ kings_empty_click.mouse_clicked = true
      ∧ (kings_ace_home.stack 0).cards = []
      ∧ kings_empty_click.mouse_x = 50 ∧ kings_empty_click.mouse_y = 150
      ∧ click kings_ace_home 50 150 = none
      ∧ frame kings_ace_home kings_empty_click = none :=
  ⟨kings_ace_home_reachable, by decide, by decide, rfl, rfl,
    (empty_column_click_undefined kings_ace_home kings_empty_click kings_ace_home_reachable
      0 (by decide) (by decide) (by decide) (by decide)).2.2.2.1,
    (empty_column_click_undefined kings_ace_home kings_empty_click kings_ace_home_reachable
      0 (by decide) (by decide) (by decide) (by decide)).2.2.2.2⟩

/-- C27 (waste mirrors the top of the history): in every reachable state `taken` is no
longer than `stock_history` and is the top `|taken|` entries of the history in the order
in which they were pushed; and when a drag from the waste is accepted, the history is
not empty, its top entry is the last card of `taken`, and the release removes that one
card from both. -/
theorem waste_mirrors_history (g : Game) (w : Wrapper) (h : Reachable g w) :
    g.taken.length ≤ g.stock_history.length
      ∧ (g.stock_history.take g.taken.length).reverse = g.taken
      ∧ ∀ (mouse_x mouse_y : Int) (g2 : Game), g.drag_type = DragType.TOP_CARD →
          drop g mouse_x mouse_y = some (g2, true) →
          ∃ c rest g1, g.stock_history = c :: rest ∧ g.taken.getLast? = some c
            ∧ release g mouse_x mouse_y = some g1
            ∧ g1.stock_history = rest ∧ g.taken = g1.taken ++ [c] := by
  have hi := reachable_invariant g w h
  obtain ⟨t, ht⟩ := hi.piles.waste
  refine ⟨?_, ?_, ?_⟩
  · have := congrArg List.length ht
    simp only [List.length_append, List.length_reverse] at this
    omega
  · rw [← ht]
    rw [← List.length_reverse g.taken, List.take_left', List.reverse_reverse]
    rfl
  · intro mx my g2 hty hdrop
    obtain ⟨c, hl, _⟩ := hi.drag.top_card hty
    obtain ⟨rest, hh, _, htk⟩ := waste_top g.taken g.stock_history c hl hi.piles.waste
    have hm := drop_accepted_mid g g2 mx my hi.piles hi.drag hdrop
    have hrem := remove_origin_top_card g2 c rest (by rw [hm.drag_type, hty])
      (by rw [hm.taken, hl]) (by rw [hm.stock_history, hh])
    refine ⟨c, rest,
      ({ g2 with
          taken := g2.taken.dropLast
          stock_history := rest
          drag_type := DragType.NONE
          dragged_cards := [] } : Game), hh, hl, ?_, rfl, ?_⟩
    · unfold release
      rw [hdrop]
      simp only [if_true, hrem]
    · simp only [hm.taken]
      exact htk

theorem waste_mirrors_history_witness :
    arranged_drag.taken.length ≤ arranged_drag.stock_history.length
      ∧ (arranged_drag.stock_history.take arranged_drag.taken.length).reverse
          = arranged_drag.taken
      ∧ ∀ (mouse_x mouse_y : Int) (g2 : Game), arranged_drag.drag_type = DragType.TOP_CARD →
          drop arranged_drag mouse_x mouse_y = some (g2, true) →
          ∃ c rest g1, arranged_drag.stock_history = c :: rest
            ∧ arranged_drag.taken.getLast? = some c
            ∧ release arranged_drag mouse_x mouse_y = some g1
            ∧ g1.stock_history = rest ∧ arranged_drag.taken = g1.taken ++ [c] :=
  waste_mirrors_history arranged_drag _ arranged_drag_reachable

/-- C28 (the CardStack constructor is a stable partition): for every list of dealt cards
whose length is a value of `size_t`, the loop of the constructor ends, after at most one
iteration per card; the cards of the constructed stack are a permutation of the input,
they consist of face-down cards followed by face-up cards, and the face-down cards as
well as the face-up cards are in their input order. -/
theorem card_stack_constructor_stable_partition (cards : List DealtCard)
    (hlen : cards.length < size_t_mod) :
    ∃ out : CardStack,
      (∀ fuel, cards.length < fuel → CardStack.construct cards fuel = some out)
        ∧ out.cards.Perm cards
        ∧ (∃ downs ups, out.cards = downs ++ ups ∧ (∀ c ∈ downs, c.face_up = false)
            ∧ (∀ c ∈ ups, c.face_up = true))
        ∧ out.cards.filter (fun c => !c.face_up) = cards.filter (fun c => !c.face_up)
        ∧ out.cards.filter (fun c => c.face_up) = cards.filter (fun c => c.face_up) := by
  refine ⟨{ cards := cards.filter (fun c => !c.face_up)
              ++ cards.filter (fun c => c.face_up) },
    fun fuel hf => construct_eq cards fuel hf hlen, partition_perm cards,
    ⟨_, _, rfl, ?_, ?_⟩, ?_, ?_⟩
  · intro c hc
    simpa using (List.mem_filter.mp hc).2
  · intro c hc
    simpa using (List.mem_filter.mp hc).2
  · simp only [List.filter_append, List.filter_filter]
    have h1 : cards.filter (fun a => (!a.face_up && a.face_up)) = [] := by
      rw [List.filter_eq_nil_iff]
      intro a _
      cases a.face_up <;> simp
    simp only [Bool.and_self, h1, List.append_nil]
  · simp only [List.filter_append, List.filter_filter]
    have h1 : cards.filter (fun a => (a.face_up && !a.face_up)) = [] := by
      rw [List.filter_eq_nil_iff]
      intro a _
      cases a.face_up <;> simp
    simp only [Bool.and_self, h1, List.nil_append]

theorem card_stack_constructor_stable_partition_witness :
    ∃ out : CardStack,
      (∀ fuel,
          [({ card := { index := 3, suit := Suit.HEARTS }, face_up := true } : DealtCard),
            { card := { index := 7, suit := Suit.CLUBS }, face_up := false },
            { card := { index := 0, suit := Suit.SPADES }, face_up := true },
            { card := { index := 9, suit := Suit.DIAMONDS }, face_up := false }].length < fuel →
          CardStack.construct
            [{ card := { index := 3, suit := Suit.HEARTS }, face_up := true },
              { card := { index := 7, suit := Suit.CLUBS }, face_up := false },
              { card := { index := 0, suit := Suit.SPADES }, face_up := true },
              { card := { index := 9, suit := Suit.DIAMONDS }, face_up := false }] fuel
            = some out)
        ∧ out.cards.Perm
            [{ card := { index := 3, suit := Suit.HEARTS }, face_up := true },
              { card := { index := 7, suit := Suit.CLUBS }, face_up := false },
              { card := { index := 0, suit := Suit.SPADES }, face_up := true },
              { card := { index := 9, suit := Suit.DIAMONDS }, face_up := false }]
        ∧ (∃ downs ups, out.cards = downs ++ ups ∧ (∀ c ∈ downs, c.face_up = false)
            ∧ (∀ c ∈ ups, c.face_up = true))
        ∧ out.cards.filter (fun c => !c.face_up)
            = [({ card := { index := 3, suit := Suit.HEARTS }, face_up := true } : DealtCard),
                { card := { index := 7, suit := Suit.CLUBS }, face_up := false },
                { card := { index := 0, suit := Suit.SPADES }, face_up := true },
                { card := { index := 9, suit := Suit.DIAMONDS }, face_up := false }].filter
                (fun c => !c.face_up)
        ∧ out.cards.filter (fun c => c.face_up)
            = [({ card := { index := 3, suit := Suit.HEARTS }, face_up := true } : DealtCard),
                { card := { index := 7, suit := Suit.CLUBS }, face_up := false },
                { card := { index := 0, suit := Suit.SPADES }, face_up := true },
                { card := { index := 9, suit := Suit.DIAMONDS }, face_up := false }].filter
                (fun c => c.face_up) :=
  card_stack_constructor_stable_partition _ (by decide)

/-- C29 (the top-card box agrees with the drawing): for a stack of at least one card,
written as the cards under the top card followed by the top card, `get_top_card_bbox`
returns the box `(x, y + d, x + 70, y + d + 95)`, where `d` adds 15 for every face-up and
3 for every face-down card under the top card, and `draw` without skipped cards draws the
top card last, at `(x, y + d)`; for an empty stack the box is `(x, y, x + 70, y + 95)`,
the same as for a stack of one card. -/
theorem top_card_bbox_agrees_with_draw (init : List DealtCard) (last : DealtCard)
    (x y : Int) (hsize : (init ++ [last]).length < size_t_mod) :
    ({ cards := init ++ [last] } : CardStack).get_top_card_bbox x y
        = { x1 := x, y1 := y + fan_offset init, x2 := x + 70
            y2 := y + fan_offset init + 95 }
      ∧ fan_offset init = (init.map (fun c => if c.face_up then (15 : Int) else 3)).sum
      ∧ (∃ before, ({ cards := init ++ [last] } : CardStack).draw x y 0
            = some (before ++ [last.draw x (y + fan_offset init)])
          ∧ before.length = init.length)
      ∧ ({ cards := [] } : CardStack).get_top_card_bbox x y
          = { x1 := x, y1 := y, x2 := x + 70, y2 := y + 95 }
      ∧ ({ cards := [last] } : CardStack).get_top_card_bbox x y
          = { x1 := x, y1 := y, x2 := x + 70, y2 := y + 95 } := by
  refine ⟨?_, rfl, ⟨draw_loop x init y, ?_, draw_loop_length x init y⟩, rfl, ?_⟩
  · rw [get_top_card_bbox_eq]
    simp only [BBox.mk.injEq, true_and]
    ring
  · unfold CardStack.draw
    have hb : ((((init ++ [last]).length : Int) - 0) % (size_t_mod : Int)).toNat
        = (init ++ [last]).length := by
      have h1 : (((init ++ [last]).length : Int) - 0) % (size_t_mod : Int)
          = ((init ++ [last]).length : Int) := by
        rw [sub_zero]
        exact Int.emod_eq_of_lt (by omega) (by exact_mod_cast hsize)
      rw [h1]
      exact Int.toNat_natCast _
    simp only [hb, le_refl, if_true, List.take_length, draw_loop_append]
  · have := get_top_card_bbox_eq [] last x y
    simpa [fan_offset] using this

theorem top_card_bbox_agrees_with_draw_witness :
    ({ cards := [{ card := { index := 7, suit := Suit.CLUBS }, face_up := false },
          { card := { index := 3, suit := Suit.HEARTS }, face_up := true }]
          ++ [{ card := { index := 2, suit := Suit.SPADES }, face_up := true }] }
        : CardStack).get_top_card_bbox 101 126
      = { x1 := 101, y1 := 144, x2 := 171, y2 := 239 }
      ∧ ({ cards := [{ card := { index := 7, suit := Suit.CLUBS }, face_up := false },
            { card := { index := 3, suit := Suit.HEARTS }, face_up := true }]
            ++ [{ card := { index := 2, suit := Suit.SPADES }, face_up := true }] }
          : CardStack).draw 101 126 0
        = some [{ sprite := none, x := 101, y := 126 },
            { sprite := some 29, x := 101, y := 129 },
            { sprite := some 41, x := 101, y := 144 }] :=
  ⟨(top_card_bbox_agrees_with_draw
      [{ card := { index := 7, suit := Suit.CLUBS }, face_up := false },
        { card := { index := 3, suit := Suit.HEARTS }, face_up := true }]
      { card := { index := 2, suit := Suit.SPADES }, face_up := true } 101 126
      (by decide)).1.trans (by decide), by decide⟩

end Klondike
